import Mathlib

/-!
# wttw/configuration: the field-analysis pipeline of `main.go`

A shallow embedding of the generator's analysis code: the name transformer
(`toSnakeCase`, `toEnvName`, `toFlag`), the syntax visitor (`state.Visit`), and the
strategy resolver and import fix-up of `generate`.

Conventions of the embedding:

* Go strings are `String`s (sequences of runes); the regular expressions and the
  `strings` helpers are written over the underlying `List Char`.
* The syntax tree is reduced to what `Visit` inspects: import specifiers, type
  specifiers, and the type expressions of record fields.
* The type checker (`go/types`), the package loader (`packages.Load`), the tag parser
  (`structtag`), the Unicode case tables behind `strings.ToLower` / `strings.ToUpper`
  and the template renderer are collaborators outside `main.go`; each enters as
  data or as a parameter.
* Fields are mutated in place through pointers in the source; here every phase returns
  the updated field list.
-/

set_option autoImplicit false

namespace Configuration

/-! ## Name transformer -/

/-- The rune mappings used by `strings.ToLower` and `strings.ToUpper`
(`unicode.ToLower`, `unicode.ToUpper`). -/
structure CaseMap where
  lower : Char → Char
  upper : Char → Char

/-- The case mapping restricted to ASCII letters; every other rune is left alone. -/
def asciiCase : CaseMap := ⟨Char.toLower, Char.toUpper⟩

/-- The properties of the case tables that the name transformer relies on. -/
structure CaseMap.Lawful (cm : CaseMap) : Prop where
  /-- On ASCII runes lower-casing moves `A-Z` to `a-z` and fixes the rest. -/
  lower_ascii : ∀ c : Char, c.toNat < 128 → cm.lower c = c.toLower
  /-- On ASCII runes upper-casing moves `a-z` to `A-Z` and fixes the rest. -/
  upper_ascii : ∀ c : Char, c.toNat < 128 → cm.upper c = c.toUpper
  /-- No rune lower-cases to an ASCII capital. -/
  lower_not_upper : ∀ c : Char, (cm.lower c).isUpper = false
  /-- No rune upper-cases to an ASCII lower-case letter. -/
  upper_not_lower : ∀ c : Char, (cm.upper c).isLower = false
  /-- Lower-casing is idempotent. -/
  lower_lower : ∀ c : Char, cm.lower (cm.lower c) = cm.lower c
  /-- Upper-casing after lower-casing is idempotent. -/
  upper_lower_idem : ∀ c : Char,
    cm.upper (cm.lower (cm.upper (cm.lower c))) = cm.upper (cm.lower c)

/-- Does the text start with `[A-Z][a-z]`, the mandatory part of group 2 of
`matchFirstCap`? -/
def capLowerAhead : List Char → Bool
  | u :: l :: _ => u.isUpper && l.isLower
  | _ => false

/-- Where the left-to-right scan of `matchFirstCap` stands: looking for the next match
(`scan`), on the capital of a match that has just started (`cap`), or inside the greedy
`[a-z]+` of the current match (`run`). -/
inductive Mode where
  | scan
  | cap
  | run
  deriving DecidableEq, Repr

/-- The call `matchFirstCap.ReplaceAllString(str, "${1}_${2}")` with
`matchFirstCap = (.)([A-Z][a-z]+)`: matches are found leftmost first and do not
overlap, `.` is any rune but a newline, and `[a-z]+` is greedy. A match starting at `c`
emits `c`, `_`, and then the capital and the whole lower-case run unchanged; the scan
resumes at the first rune after the run. -/
def matchFirstCapGo : Mode → List Char → List Char
  | _, [] => []
  | Mode.cap, c :: rest => c :: matchFirstCapGo Mode.run rest
  | Mode.run, c :: rest =>
    if c.isLower then c :: matchFirstCapGo Mode.run rest
    else if c != '\n' && capLowerAhead rest then c :: '_' :: matchFirstCapGo Mode.cap rest
    else c :: matchFirstCapGo Mode.scan rest
  | Mode.scan, c :: rest =>
    if c != '\n' && capLowerAhead rest then c :: '_' :: matchFirstCapGo Mode.cap rest
    else c :: matchFirstCapGo Mode.scan rest

/-- The replacement by `matchFirstCap` of a whole string. -/
def matchFirstCapReplace (s : List Char) : List Char :=
  matchFirstCapGo Mode.scan s

/-- The call `matchAllCap.ReplaceAllString(snake, "${1}_${2}")` with
`matchAllCap = ([a-z0-9])([A-Z])`: leftmost, non-overlapping two-rune matches. -/
def matchAllCapReplace : List Char → List Char
  | a :: b :: rest =>
    if (a.isLower || a.isDigit) && b.isUpper then a :: '_' :: b :: matchAllCapReplace rest
    else a :: matchAllCapReplace (b :: rest)
  | s => s

/-- Go: `toSnakeCase`. -/
def toSnakeCase (cm : CaseMap) (str : String) : String :=
  let snake := matchFirstCapReplace str.data
  let snake := matchAllCapReplace snake
  ⟨snake.map cm.lower⟩

/-- Go: `toEnvName`. -/
def toEnvName (cm : CaseMap) (envPrefix str : String) : String :=
  let envName : String := ⟨(toSnakeCase cm str).data.map cm.upper⟩
  if envPrefix = "" then envName else envPrefix ++ "_" ++ envName

/-- Go: `toFlag`, i.e. `strings.ReplaceAll(toSnakeCase(str), "_", "-")`. -/
def toFlag (cm : CaseMap) (str : String) : String :=
  ⟨(toSnakeCase cm str).data.map (fun c => if c = '_' then '-' else c)⟩

/-! ## Syntax seen by the visitor -/

/-- The type expressions of `go/ast` as far as `Visit` and `typeName` tell them apart.
For an array type only the presence of a length expression is kept (`v.Len != nil`);
`other` carries the Go type name that `%T` prints. -/
inductive Expr where
  | ident (name : String)
  | selector (x : Expr) (sel : String)
  | arrayType (hasLen : Bool) (elt : Expr)
  | mapType (key : Expr) (value : Expr)
  | other (goType : String)
  deriving DecidableEq, Repr

/-- One `structtag.Tag`: `key:"name,option,..."`. -/
structure Tag where
  Key : String
  Name : String
  Options : List String
  deriving DecidableEq, Repr

/-- Go: `(*structtag.Tag).HasOption`. -/
def Tag.HasOption (t : Tag) (opt : String) : Bool :=
  t.Options.contains opt

/-- The tag literal of a field and what `strconv.Unquote` and `structtag.Parse` make of
it: no literal, a literal that is not a string, a string that one of the two rejects,
or the parsed list of tags. -/
inductive TagLit where
  | absent
  | notString
  | malformed (value : String)
  | parsed (tags : List Tag)
  deriving DecidableEq, Repr

/-- Go: `(*structtag.Tags).Get`: the first tag with the key, if any. -/
def getTag (tags : List Tag) (key : String) : Option Tag :=
  tags.find? (fun t => t.Key == key)

/-- An `ast.Field`: the declared names (empty for an embedded field), the type (`Type_`
stands for the Go field `Type`), the tag
and the text of the doc and line comment groups. -/
structure AstField where
  Names : List String
  Type_ : Expr
  Tag : TagLit
  Doc : Option String
  Comment : Option String
  deriving DecidableEq, Repr

/-- An `ast.ImportSpec`: the explicit local name, if any, and the unquoted path. -/
structure ImportSpec where
  Name : Option String
  Path : String
  deriving DecidableEq, Repr

/-- The declared type of an `ast.TypeSpec`, as far as `Visit` looks at it. -/
inductive TypeDecl where
  | structType (fields : List AstField)
  | notStruct
  deriving DecidableEq, Repr

/-- The nodes handed to `Visit` by `ast.Walk`. -/
inductive Node where
  | importSpec (spec : ImportSpec)
  | typeSpec (name : String) (type : Option TypeDecl)
  | other
  deriving DecidableEq, Repr

/-! ## Descriptors and the analysis run -/

/-- Go: `Strategy`. -/
inductive Strategy where
  | Unknown
  | Native
  | Set
  | Enumer
  | Marshal
  | Func
  | Scan
  deriving DecidableEq, Repr

/-- Go: `Field` (the back pointer `AstField` is left out). -/
structure Field where
  Name : String
  Tag : Option Tag := none
  FlagName : String
  EnvName : String
  Strategy : Strategy
  NativeFn : String := ""
  TypePackage : String := ""
  TypeName : String := ""
  TypeElement : String := ""
  TypeBasename : String := ""
  TypeImportPath : String := ""
  Description : String := ""
  Hidden : Bool
  deriving DecidableEq, Repr

/-- A descriptor with its strategy replaced, the assignment `f.Strategy = s`. -/
def Field.withStrategy (f : Field) (s : Configuration.Strategy) : Field :=
  { f with Strategy := s }

/-- Go: `state`. A nil `fields` slice is the empty list: the slice is only ever reset
to nil or appended to. -/
structure state where
  fields : List Field := []
  packageName : String := ""
  packagePath : String := ""
  configStruct : String := ""
  envPrefix : String := ""
  outputFile : String := ""
  err : Option String := none
  imports : List ImportSpec := []
  pflagPath : String := "github.com/spf13/pflag"
  pflagName : String := ""
  commandLine : String := ""
  deriving DecidableEq, Repr

/-- How a call can end the process instead of returning: `log.Fatalf`, or a run-time
panic. -/
inductive Exit where
  | fatal (msg : String)
  | panic (msg : String)
  deriving DecidableEq, Repr

/-- Go: `typeName`. -/
def typeName : Expr → String
  | Expr.ident name => name
  | Expr.selector (Expr.ident p) sel => p ++ "." ++ sel
  | _ => ""

/-- What one iteration of the field loop of `Visit` does: `continue` without a
descriptor, set `vis.err` and return nil, or append a descriptor. -/
inductive FieldStep where
  | skip
  | stop (err : String)
  | add (f : Field)
  deriving DecidableEq, Repr

/-- Lines 172-210 of `Visit`: the tag of a field applied to its fresh descriptor.
`none` is the `continue` of a field tagged `-`. -/
def applyTag (cm : CaseMap) (vis : state) (lit : TagLit) (f : Field) :
    Except Exit (Option Field) :=
  match lit with
  | TagLit.absent => Except.ok (some f)
  | TagLit.notString => Except.ok (some f)
  | TagLit.malformed value => Except.error (Exit.fatal ("bad struct tag '" ++ value ++ "'"))
  | TagLit.parsed tags =>
    match getTag tags "config" with
    | none => Except.ok (some f)
    | some tag =>
      if tag.Name = "-" then Except.ok none
      else
        let f := if tag.Name ≠ "" then
          { f with FlagName := toFlag cm tag.Name, EnvName := toEnvName cm vis.envPrefix tag.Name }
          else f
        let f := { f with Tag := some tag }
        let f := if tag.HasOption "set" then { f with Strategy := Strategy.Set } else f
        let f := if tag.HasOption "enum" then { f with Strategy := Strategy.Enumer } else f
        let f := if tag.HasOption "func" then { f with Strategy := Strategy.Func } else f
        let f := if tag.HasOption "marshal" then { f with Strategy := Strategy.Marshal } else f
        let f := if tag.HasOption "hidden" then { f with Hidden := true } else f
        Except.ok (some f)

/-- Lines 212-232 of `Visit`: the type switch on the field type; an error is the
message stored in `vis.err`. -/
def typeSwitch (vis : state) (name : String) (ty : Expr) (f : Field) : Except String Field :=
  match ty with
  | Expr.ident _ => Except.ok { f with TypeName := typeName ty }
  | Expr.selector _ _ => Except.ok { f with TypeName := typeName ty }
  | Expr.arrayType hasLen elt =>
    if hasLen then
      Except.error ("cannot handle non-slice array in " ++ vis.configStruct ++ "." ++ name)
    else
      let elType := typeName elt
      if elType ≠ "" then
        Except.ok { f with TypeElement := elType, TypeName := "[]" ++ elType }
      else Except.ok f
  | Expr.mapType _ _ =>
    Except.error ("cannot handle map type in " ++ vis.configStruct ++ "." ++ name)
  | Expr.other goType =>
    Except.error ("cannot handle " ++ goType ++ " in " ++ vis.configStruct ++ "." ++ name ++ "\n")

/-- Lines 212-237 of `Visit`: the type switch, then the check that a type name was
found. -/
def readType (vis : state) (name : String) (ty : Expr) (f : Field) : Except String Field :=
  match typeSwitch vis name ty f with
  | Except.error e => Except.error e
  | Except.ok f =>
    if f.TypeName = "" then
      Except.error ("cannot handle type for " ++ vis.configStruct ++ "." ++ name)
    else Except.ok f

/-- Go: `strings.TrimSpace`, for the white space of ASCII. -/
def trimSpace (s : String) : String :=
  ⟨((s.data.dropWhile Char.isWhitespace).reverse.dropWhile Char.isWhitespace).reverse⟩

/-- Lines 239-244 of `Visit`: the description, the line comment winning over the doc
comment. -/
def describe (field : AstField) (f : Field) : Field :=
  let f := match field.Doc with
    | some text => { f with Description := trimSpace text }
    | none => f
  match field.Comment with
  | some text => { f with Description := trimSpace text }
  | none => f

/-- The body of the loop over `s.Fields.List` in `Visit` for one field. -/
def visitField (cm : CaseMap) (vis : state) (field : AstField) : Except Exit FieldStep :=
  match field.Names with
  | [] => Except.error (Exit.panic "index out of range [0] with length 0")
  | name :: _ =>
    let f : Field :=
      { Name := name
        FlagName := toFlag cm name
        EnvName := toEnvName cm vis.envPrefix name
        Strategy := Strategy.Unknown
        Hidden := false }
    match applyTag cm vis field.Tag f with
    | Except.error e => Except.error e
    | Except.ok none => Except.ok FieldStep.skip
    | Except.ok (some f) =>
      match readType vis name field.Type_ f with
      | Except.error msg => Except.ok (FieldStep.stop msg)
      | Except.ok f => Except.ok (FieldStep.add (describe field f))

/-- The loop over `s.Fields.List` in `Visit`. The Boolean of the result tells whether
`Visit` returns the visitor (`true`) or nil (`false`). -/
def visitFields (cm : CaseMap) (vis : state) : List AstField → Except Exit (state × Bool)
  | [] => Except.ok (vis, true)
  | field :: rest =>
    match visitField cm vis field with
    | Except.error e => Except.error e
    | Except.ok FieldStep.skip => visitFields cm vis rest
    | Except.ok (FieldStep.stop msg) => Except.ok ({ vis with err := some msg }, false)
    | Except.ok (FieldStep.add f) =>
      visitFields cm { vis with fields := vis.fields ++ [f] } rest

/-- Go: `(*state).Visit`. -/
def Visit (cm : CaseMap) (vis : state) (n : Node) : Except Exit (state × Bool) :=
  let vis := match n with
    | Node.importSpec i => { vis with imports := vis.imports ++ [i] }
    | _ => vis
  match n with
  | Node.typeSpec structName type =>
    match type with
    | none => Except.ok (vis, true)
    | some decl =>
      if structName ≠ vis.configStruct then Except.ok (vis, true)
      else
        let vis := { vis with fields := [] }
        match decl with
        | TypeDecl.notStruct => Except.ok (vis, true)
        | TypeDecl.structType fields => visitFields cm vis fields
  | _ => Except.ok (vis, true)

/-- The calls of `Visit` made by `ast.Walk` over the files of a package, in order:
`nodes` are the nodes on which `Visit` is called. -/
def walk (cm : CaseMap) (vis : state) : List Node → Except Exit state
  | [] => Except.ok vis
  | n :: rest =>
    match Visit cm vis n with
    | Except.error e => Except.error e
    | Except.ok (vis, _) => walk cm vis rest

/-! ## The type checker and the package loader, as `generate` uses them -/

/-- A `types.Signature`: whether it has a receiver, and the canonical text
(`Type().String()`) of each parameter and of each result. -/
structure Signature where
  Recv : Bool
  Params : List String
  Results : List String
  deriving DecidableEq, Repr

/-- A `types.Object` found by `Scope().Lookup`: its signature when it is a
`*types.Func`, and the method set of a pointer to its type
(`types.NewMethodSet(types.NewPointer(ob.Type()))`), looked up by method name. -/
structure Object where
  Func : Option Signature
  PtrMethods : String → Option Signature

/-- A loaded `packages.Package`: its name, its path and its package scope. -/
structure Package where
  Name : String
  PkgPath : String
  Scope : String → Option Object

/-- The loops of `functionMatches`: with the lengths already equal, every wanted text
is compared with the text at the same position. -/
def textsMatch : List String → List String → Bool
  | v :: vs, t :: ts => if v ≠ t then false else textsMatch vs ts
  | _, _ => true

/-- Go: `functionMatches`. -/
def functionMatches (sig : Signature) (params returns : List String) : Bool :=
  if sig.Params.length ≠ params.length then false
  else if !textsMatch params sig.Params then false
  else if sig.Results.length ≠ returns.length then false
  else if !textsMatch returns sig.Results then false
  else true

/-- Go: `methodExists`. A selection of a method set is always a `*types.Func` with a
signature, so only the lookup can fail. -/
def methodExists (methodSet : String → Option Signature) (methodName : String)
    (params returns : List String) : Bool :=
  match methodSet methodName with
  | none => false
  | some sig => functionMatches sig params returns

/-! ## `generate` -/

/-- The `switch f.TypeName` of `generate`: the helper of the flag library for a type the
library binds directly, the empty string for any other type. -/
def nativeFn (typeName : String) : String :=
  if typeName = "[]bool" then "BoolSliceVar"
  else if typeName = "bool" then "BoolVar"
  else if typeName = "[]byte" then "BytesHexVar"
  else if typeName = "time.Duration" then "DurationVar"
  else if typeName = "[]time.Duration" then "DurationSliceVar"
  else if typeName = "float32" then "Float32Var"
  else if typeName = "[]float32" then "Float32SliceVar"
  else if typeName = "float64" then "Float64Var"
  else if typeName = "[]float64" then "Float64SliceVar"
  else if typeName = "net.IP" then "IPVar"
  else if typeName = "[]net.IP" then "IPSliceVar"
  else if typeName = "net.IPMask" then "IPMaskVar"
  else if typeName = "net.IPNet" then "IPNetVar"
  else if typeName = "int" then "IntVar"
  else if typeName = "[]int" then "IntSliceVar"
  else if typeName = "int8" then "Int8Var"
  else if typeName = "int16" then "Int16Var"
  else if typeName = "int32" then "Int32Var"
  else if typeName = "[]int32" then "Int32SliceVar"
  else if typeName = "int64" then "Int64Var"
  else if typeName = "[]int64" then "Int64SliceVar"
  else if typeName = "string" then "StringVar"
  else if typeName = "[]string" then "StringSliceVar"
  else if typeName = "uint" then "UintVar"
  else if typeName = "[]uint" then "UintSliceVar"
  else if typeName = "uint16" then "Uint16Var"
  else if typeName = "uint32" then "Uint32Var"
  else if typeName = "uint64" then "Uint64Var"
  else ""

/-- Lines 314-380: the body of the first loop of `generate` for one field. -/
def resolveNative (f : Field) : Field :=
  if f.Strategy ≠ Strategy.Unknown then f
  else
    let fn := nativeFn f.TypeName
    if fn ≠ "" then { f with Strategy := Strategy.Native, NativeFn := fn } else f

/-- Lines 309-381: the first loop of `generate`. -/
def nativePhase (fields : List Field) : List Field :=
  fields.map resolveNative

/-- A Go `map[string]string`, as its entries; ranging over the map goes through the
entries in list order (Go leaves the order unspecified). -/
abbrev GoMap := List (String × String)

/-- The assignment `m[k] = v`. -/
def GoMap.set (m : GoMap) (k v : String) : GoMap :=
  if m.any (fun e => e.1 == k) then m.map (fun e => if e.1 == k then (k, v) else e)
  else m ++ [(k, v)]

/-- The lookup `v, ok := m[k]`. -/
def GoMap.get? (m : GoMap) (k : String) : Option String :=
  (m.find? (fun e => e.1 == k)).map (fun e => e.2)

/-- Go: `path.Base`. -/
def pathBase (p : String) : String :=
  if p = "" then "."
  else
    let stripped := p.data.reverse.dropWhile (fun c => c == '/')
    let last := (stripped.takeWhile (fun c => c != '/')).reverse
    if last = [] then "/" else ⟨last⟩

/-- Lines 383-391: the map from local package name to import path. -/
def importMap (imports : List ImportSpec) : GoMap :=
  imports.foldl
    (fun m im =>
      match im.Name with
      | none => m.set (pathBase im.Path) im.Path
      | some name => m.set name im.Path)
    []

/-- Go: `strings.TrimPrefix(s, "[]")`. -/
def trimSlicePrefix : List Char → List Char
  | '[' :: ']' :: rest => rest
  | s => s

/-- Go: `strings.Split(s, ".")`. -/
def splitDot : List Char → List (List Char)
  | [] => [[]]
  | c :: cs =>
    if c = '.' then [] :: splitDot cs
    else
      match splitDot cs with
      | p :: ps => (c :: p) :: ps
      | [] => [[c]]

/-- The set `importsNeeded[p] = struct{}{}`. -/
def addNeeded (needed : List String) (p : String) : List String :=
  if needed.contains p then needed else needed ++ [p]

/-- Lines 402-422: the body of the loop that splits a qualified type name, for one
field: the field as the iteration leaves it, the path it adds to `importsNeeded` (if
any), and the error with which `generate` returns (if any). -/
def splitField (imports : GoMap) (pkgPath configStruct : String) (f : Field) :
    Field × Option String × Option String :=
  if f.Strategy ≠ Strategy.Unknown then (f, none, none)
  else
    let tp := trimSlicePrefix f.TypeName.data
    match splitDot tp with
    | [packageName, base] =>
      let f := { f with TypeBasename := ⟨base⟩ }
      match imports.get? ⟨packageName⟩ with
      | none =>
        (f, none,
          some ("cannot find import '" ++ ⟨packageName⟩ ++ "' for " ++ configStruct ++ "."
            ++ f.Name))
      | some found => ({ f with TypeImportPath := found }, some found, none)
    | _ => ({ f with TypeBasename := f.TypeName, TypeImportPath := pkgPath }, none, none)

/-- Lines 401-423: the loop that splits qualified type names and resolves their imports.
The result is the fields as the loop leaves them, the set `importsNeeded`, and the
error with which `generate` returns, if any. -/
def splitPhase (imports : GoMap) (pkgPath configStruct : String) :
    List Field → List String → List Field × List String × Option String
  | [], needed => ([], needed, none)
  | f :: rest, needed =>
    match splitField imports pkgPath configStruct f with
    | (f, _, some err) => (f :: rest, needed, some err)
    | (f, add, none) =>
      let needed := match add with
        | some p => addNeeded needed p
        | none => needed
      let r := splitPhase imports pkgPath configStruct rest needed
      (f :: r.1, r.2.1, r.2.2)

/-- Lines 426-444: the body of the Enumer loop for one field, `scope` being the scope of
the target package. -/
def probeEnumer (scope : String → Option Object) (f : Field) : Field :=
  if f.Strategy ≠ Strategy.Unknown then f
  else
    let fname := f.TypeBasename ++ "String"
    match scope fname with
    | none => f
    | some ob =>
      match ob.Func with
      | none => f
      | some sig =>
        if !sig.Recv && functionMatches sig ["string"] [f.TypeImportPath ++ "." ++ f.TypeName, "error"]
        then { f with Strategy := Strategy.Enumer }
        else f

/-- Lines 425-445: the Enumer loop. -/
def enumerPhase (scope : String → Option Object) (fields : List Field) : List Field :=
  fields.map (probeEnumer scope)

/-- Lines 467-503: the body of the method loop for one package and one field. -/
def probeMethods (p : Package) (f : Field) : Field :=
  if f.Strategy ≠ Strategy.Unknown then f
  else if f.TypeImportPath ≠ p.PkgPath then f
  else
    match p.Scope f.TypeBasename with
    | none => f
    | some ob =>
      if methodExists ob.PtrMethods "Set" ["string"] ["error"] then
        { f with Strategy := Strategy.Set }
      else if methodExists ob.PtrMethods "UnmarshalText" ["[]byte"] ["error"] then
        { f with Strategy := Strategy.Marshal }
      else if methodExists ob.PtrMethods "Scan" ["interface{}"] ["error"] then
        { f with Strategy := Strategy.Scan }
      else f

/-- Lines 462-505: the method loop over the loaded packages. -/
def methodPhase (pkgs : List Package) (fields : List Field) : List Field :=
  pkgs.foldl (fun fs p => fs.map (probeMethods p)) fields

/-- Go: `Import`. -/
structure Import where
  Name : String
  Path : String
  deriving DecidableEq, Repr

/-- Go: `Result`, the payload of the template. -/
structure Result where
  Package : String
  Command : String
  ConfigStruct : String
  Pflag : String
  Imports : List Import
  Fields : List Field
  deriving DecidableEq, Repr

/-- The map `additionalImports`; the assignment in the first loop stores the value that
is already there. -/
def additionalImports : GoMap := [("os", ""), ("strings", "")]

/-- Lines 528-539: the loop over the import map; the state is the alias of the flag
library, whether it was found, and the import list so far. -/
def collectImports (pflagPath : String) (needed : List String) :
    GoMap → String × Bool × List Import → String × Bool × List Import
  | [], acc => acc
  | (k, v) :: rest, (pflag, included, out) =>
    let pflag := if v = pflagPath then k else pflag
    let included := if v = pflagPath then true else included
    let out := if needed.contains v then out ++ [{ Name := k, Path := v }] else out
    collectImports pflagPath needed rest (pflag, included, out)

/-- Lines 518-558: the payload built from the resolved fields. -/
def buildResult (vis : state) (imports : GoMap) (needed : List String)
    (fields : List Field) : Result :=
  let needed := addNeeded needed vis.pflagPath
  let r := collectImports vis.pflagPath needed imports ("", false, [])
  let out := if !r.2.1 then r.2.2 ++ [{ Name := "", Path := vis.pflagPath }] else r.2.2
  let out := additionalImports.foldl
    (fun out e => if !needed.contains e.1 then out ++ [{ Name := e.2, Path := e.1 }] else out)
    out
  let pflag := if r.1 = "" then pathBase vis.pflagPath else r.1
  { Package := vis.packageName
    Command := vis.commandLine
    ConfigStruct := vis.configStruct
    Pflag := pflag
    Imports := out
    Fields := fields }

/-- What a call of `generate` leaves behind: the fields of the run as the phases left
them, the payload handed to `RenderGoTemplate` (none when `generate` returned before
rendering), the file name and bytes handed to `writeFile` (none when it was not
called), and the returned error. -/
structure GenOut where
  fields : List Field
  data : Option Result
  written : Option (String × String)
  err : Option String

/-- Go: `generate`. The collaborators are parameters: `load` is
`packages.Load(cfg, importsToFetch...)`, `render` is
`RenderGoTemplate("loader.tpl", data)` and `writeFile` the write of the output. -/
def generate (cm : CaseMap) (load : List String → Except String (List Package))
    (render : Result → String × Option String) (writeFile : String → String → Option String)
    (vis : state) (pkg : Package) : GenOut :=
  let fields := nativePhase vis.fields
  let imports := importMap vis.imports
  match splitPhase imports pkg.PkgPath vis.configStruct fields [] with
  | (fields, _, some err) => { fields := fields, data := none, written := none, err := some err }
  | (fields, importsNeeded, none) =>
    let fields := enumerPhase pkg.Scope fields
    match load importsNeeded with
    | Except.error e =>
      { fields := fields, data := none, written := none
        err := some ("failed to load imports: " ++ e) }
    | Except.ok pkgs =>
      let pkgs := pkgs ++ [pkg]
      let fields := methodPhase pkgs fields
      let data := buildResult vis imports importsNeeded fields
      let res := render data
      let outputFile :=
        if vis.outputFile = "" then
          (⟨vis.configStruct.data.map cm.lower⟩ : String) ++ ".gen.go"
        else vis.outputFile
      match res.2 with
      | some err =>
        { fields := fields, data := some data, written := some (outputFile, res.1)
          err := some err }
      | none =>
        { fields := fields, data := some data, written := some (outputFile, res.1)
          err := writeFile outputFile res.1 }

/-! ## `run` -/

/-- What `run` leaves behind: the error it returns, and the call of `generate` it made,
if any. -/
structure RunOut where
  err : Option String
  generated : Option GenOut

/-- Lines 110-128 of `run`: the loop over the loaded packages, each with the nodes that
`ast.Walk` visits in its files. -/
def runLoop (cm : CaseMap) (load : List String → Except String (List Package))
    (render : Result → String × Option String) (writeFile : String → String → Option String)
    (vis : state) : List (Package × List Node) → Except Exit RunOut
  | [] => Except.ok { err := none, generated := none }
  | (pkg, nodes) :: rest =>
    let vis := { vis with packageName := pkg.Name, packagePath := pkg.PkgPath }
    match walk cm vis nodes with
    | Except.error e => Except.error e
    | Except.ok vis =>
      match vis.err with
      | some e => Except.ok { err := some e, generated := none }
      | none =>
        if vis.fields ≠ [] then
          let g := generate cm load render writeFile vis pkg
          Except.ok { err := g.err, generated := some g }
        else runLoop cm load render writeFile vis rest

/-- Go: `run`, from the call of `packages.Load` on: `vis` is the run after the command
line has been read, `loaded` the outcome of `packages.Load(cfg, "")`. -/
def run (cm : CaseMap) (load : List String → Except String (List Package))
    (render : Result → String × Option String) (writeFile : String → String → Option String)
    (vis : state) (loaded : Except String (List (Package × List Node))) : Except Exit RunOut :=
  match loaded with
  | Except.error e =>
    Except.ok { err := some ("failed to load source: " ++ e), generated := none }
  | Except.ok pkgs => runLoop cm load render writeFile vis pkgs

/-! ## Tables and example records -/

/-- The cases of the `switch f.TypeName` of `generate`, as pairs of type text and
helper. -/
def nativeTable : List (String × String) :=
  [("[]bool", "BoolSliceVar"), ("bool", "BoolVar"), ("[]byte", "BytesHexVar"),
   ("time.Duration", "DurationVar"), ("[]time.Duration", "DurationSliceVar"),
   ("float32", "Float32Var"), ("[]float32", "Float32SliceVar"), ("float64", "Float64Var"),
   ("[]float64", "Float64SliceVar"), ("net.IP", "IPVar"), ("[]net.IP", "IPSliceVar"),
   ("net.IPMask", "IPMaskVar"), ("net.IPNet", "IPNetVar"), ("int", "IntVar"),
   ("[]int", "IntSliceVar"), ("int8", "Int8Var"), ("int16", "Int16Var"), ("int32", "Int32Var"),
   ("[]int32", "Int32SliceVar"), ("int64", "Int64Var"), ("[]int64", "Int64SliceVar"),
   ("string", "StringVar"), ("[]string", "StringSliceVar"), ("uint", "UintVar"),
   ("[]uint", "UintSliceVar"), ("uint16", "Uint16Var"), ("uint32", "Uint32Var"),
   ("uint64", "Uint64Var")]

/-- A loader that finds no package to load. -/
def loadNothing : List String → Except String (List Package) := fun _ => Except.ok []

/-- A renderer that succeeds with empty output. -/
def renderNothing : Result → String × Option String := fun _ => ("", none)

/-- A write that succeeds. -/
def writeOk : String → String → Option String := fun _ _ => none

/-- A target package `example.com/app` whose scope binds no name. -/
def barePackage : Package := ⟨"main", "example.com/app", fun _ => none⟩

/-- The fields of `type Config struct { Mode Mode }`. -/
def modeRecord : List AstField :=
  [⟨["Mode"], Expr.ident "Mode", TagLit.absent, none, none⟩]

/-- The run after `Visit` has read `modeRecord` as `Config`. -/
def modeState : state :=
  { configStruct := "Config"
    fields := [{ Name := "Mode", FlagName := "mode", EnvName := "MODE",
                 Strategy := Strategy.Unknown, TypeName := "Mode", Hidden := false }] }

/-- The fields of ``type Config struct { Listen string `config:",func"` }``. -/
def funcRecord : List AstField :=
  [⟨["Listen"], Expr.ident "string", TagLit.parsed [⟨"config", "", ["func"]⟩], none, none⟩]

/-- The run after `Visit` has read `funcRecord` as `Config`. -/
def funcState : state :=
  { configStruct := "Config"
    fields := [{ Name := "Listen", Tag := some ⟨"config", "", ["func"]⟩, FlagName := "listen",
                 EnvName := "LISTEN", Strategy := Strategy.Func, TypeName := "string",
                 Hidden := false }] }

/-- The fields of ``type Config struct { Level zc.Level `config:",set"` }``. -/
def setRecord : List AstField :=
  [⟨["Level"], Expr.selector (Expr.ident "zc") "Level",
    TagLit.parsed [⟨"config", "", ["set"]⟩], none, none⟩]

/-- The run after `Visit` has read `setRecord` as `Config` in a file that imports
`go.uber.org/zap/zapcore` as `zc`. -/
def setState : state :=
  { configStruct := "Config"
    imports := [⟨some "zc", "go.uber.org/zap/zapcore"⟩]
    fields := [{ Name := "Level", Tag := some ⟨"config", "", ["set"]⟩, FlagName := "level",
                 EnvName := "LEVEL", Strategy := Strategy.Set, TypeName := "zc.Level",
                 Hidden := false }] }

/-- The fields of `type Config struct { Level zc.Level }`. -/
def levelRecord : List AstField :=
  [⟨["Level"], Expr.selector (Expr.ident "zc") "Level", TagLit.absent, none, none⟩]

/-- The run after `Visit` has read `levelRecord` as `Config` in a file that imports
`go.uber.org/zap/zapcore` as `zc`. -/
def levelState : state :=
  { configStruct := "Config"
    imports := [⟨some "zc", "go.uber.org/zap/zapcore"⟩]
    fields := [{ Name := "Level", FlagName := "level", EnvName := "LEVEL",
                 Strategy := Strategy.Unknown, TypeName := "zc.Level", Hidden := false }] }

/-- The package `go.uber.org/zap/zapcore`, as far as it matters: the type `Level` with
the method `func (*Level) Set(string) error`. -/
def zapcore : Package :=
  ⟨"zapcore", "go.uber.org/zap/zapcore", fun name =>
    if name = "Level" then
      some ⟨none, fun m => if m = "Set" then some ⟨true, ["string"], ["error"]⟩ else none⟩
    else none⟩

/-- A loader that finds `zapcore`. -/
def loadZapcore : List String → Except String (List Package) := fun _ => Except.ok [zapcore]

/-- The fields of the record `Basics` of `tests/basics/basics_test.go`. -/
def basicsRecord : List AstField :=
  [⟨["Listen"], Expr.ident "string", TagLit.absent, some "address:port to listen on\n", none⟩,
   ⟨["FileCount"], Expr.ident "int", TagLit.absent, none, none⟩,
   ⟨["Files"], Expr.arrayType false (Expr.ident "string"), TagLit.absent, none, none⟩,
   ⟨["Things"], Expr.mapType (Expr.ident "string") (Expr.ident "string"),
     TagLit.parsed [⟨"config", "-", []⟩], none, none⟩,
   ⟨["IP"], Expr.selector (Expr.ident "net") "IP", TagLit.absent, none, none⟩]

/-- The name from which the loop body of `Visit` derives the flag and environment names
of a field declared as `name`: the declared name (lines 166-167), replaced by the primary
name of the `config` tag when that is not empty (lines 188-191). -/
def nameSource (field : AstField) (name : String) : String :=
  match field.Tag with
  | TagLit.parsed tags =>
    match getTag tags "config" with
    | some tag => if tag.Name ≠ "" then tag.Name else name
    | none => name
  | _ => name

/-- The field ``Timeout time.Duration `config:"deadline,hidden"` ``. -/
def timeoutField : AstField :=
  ⟨["Timeout"], Expr.selector (Expr.ident "time") "Duration",
    TagLit.parsed [⟨"config", "deadline", ["hidden"]⟩], none, none⟩

/-- The run after `Visit` has read `basicsRecord` as `Basics` with the prefix `APP`. -/
def basicsAppState : state :=
  { configStruct := "Basics", envPrefix := "APP",
    fields :=
      [{ Name := "Listen", FlagName := "listen", EnvName := "APP_LISTEN",
         Strategy := Strategy.Unknown, TypeName := "string",
         Description := "address:port to listen on", Hidden := false },
       { Name := "FileCount", FlagName := "file-count", EnvName := "APP_FILE_COUNT",
         Strategy := Strategy.Unknown, TypeName := "int", Hidden := false },
       { Name := "Files", FlagName := "files", EnvName := "APP_FILES",
         Strategy := Strategy.Unknown, TypeName := "[]string", TypeElement := "string",
         Hidden := false },
       { Name := "IP", FlagName := "ip", EnvName := "APP_IP",
         Strategy := Strategy.Unknown, TypeName := "net.IP", Hidden := false }] }

/-- Does the text hold an ASCII digit with an ASCII capital right after it? -/
def digitBeforeCapital : List Char → Bool
  | a :: b :: rest => (a.isDigit && b.isUpper) || digitBeforeCapital (b :: rest)
  | _ => false

/-- A word: one ASCII capital followed by one or more ASCII lower-case letters. -/
def isWord : List Char → Bool
  | c :: l :: ls => c.isUpper && l.isLower && ls.all Char.isLower
  | _ => false

/-- Words written one after the other, each with an underscore in front when its flag
is set. -/
def glue : List (Bool × List Char) → List Char
  | [] => []
  | (b, w) :: rest => (if b then '_' :: w else w) ++ glue rest

/-- Words flagged in turn, starting with the flag `b`. -/
def alternate : Bool → List (List Char) → List (Bool × List Char)
  | _, [] => []
  | b, w :: ws => (b, w) :: alternate (!b) ws

/-- Two declarations of a record `Config` met in one walk: first
`type Config struct { First int }`, then `type Config struct { Second string }`. -/
def twoDeclarations : List Node :=
  [Node.typeSpec "Config" (some (TypeDecl.structType
      [⟨["First"], Expr.ident "int", TagLit.absent, none, none⟩])),
   Node.typeSpec "Config" (some (TypeDecl.structType
      [⟨["Second"], Expr.ident "string", TagLit.absent, none, none⟩]))]

/-- The fields of `type Config struct { Listen string; Things map[string]string; Mutex }`,
the last an embedded field. -/
def mapRecord : List AstField :=
  [⟨["Listen"], Expr.ident "string", TagLit.absent, none, none⟩,
   ⟨["Things"], Expr.mapType (Expr.ident "string") (Expr.ident "string"), TagLit.absent,
     none, none⟩,
   ⟨[], Expr.ident "Mutex", TagLit.absent, none, none⟩]

/-- The fields of the record `Config` of `testing/testing.go`. -/
def configRecord : List AstField :=
  [⟨["Listen"], Expr.ident "string", TagLit.absent, some "address:port to listen on\n", none⟩,
   ⟨["FileCount"], Expr.ident "int", TagLit.absent, none, none⟩,
   ⟨["Files"], Expr.arrayType false (Expr.ident "string"), TagLit.absent, none, none⟩,
   ⟨["Things"], Expr.mapType (Expr.ident "string") (Expr.ident "string"),
     TagLit.parsed [⟨"config", "-", []⟩], none, none⟩,
   ⟨["IP"], Expr.selector (Expr.ident "net") "IP", TagLit.absent, none, none⟩,
   ⟨["Verbose"], Expr.ident "Verbosity", TagLit.absent, none, some "How chatty to be\n"⟩,
   ⟨["Logging"], Expr.selector (Expr.ident "zc") "Level", TagLit.absent, none,
     some "Logging level\n"⟩,
   ⟨["Levels"], Expr.arrayType false (Expr.selector (Expr.ident "zc") "Level"), TagLit.absent,
     none, none⟩]

/-- The imports of `testing/testing.go`. -/
def configImports : List ImportSpec :=
  [⟨some "zc", "go.uber.org/zap/zapcore"⟩, ⟨none, "net"⟩]

/-- The run after the walk of `testing/testing.go` for the record `Config`. -/
def configState : state :=
  { configStruct := "Config",
    imports := configImports,
    fields :=
      [{ Name := "Listen", FlagName := "listen", EnvName := "LISTEN",
         Strategy := Strategy.Unknown, TypeName := "string",
         Description := "address:port to listen on", Hidden := false },
       { Name := "FileCount", FlagName := "file-count", EnvName := "FILE_COUNT",
         Strategy := Strategy.Unknown, TypeName := "int", Hidden := false },
       { Name := "Files", FlagName := "files", EnvName := "FILES",
         Strategy := Strategy.Unknown, TypeName := "[]string", TypeElement := "string",
         Hidden := false },
       { Name := "IP", FlagName := "ip", EnvName := "IP",
         Strategy := Strategy.Unknown, TypeName := "net.IP", Hidden := false },
       { Name := "Verbose", FlagName := "verbose", EnvName := "VERBOSE",
         Strategy := Strategy.Unknown, TypeName := "Verbosity",
         Description := "How chatty to be", Hidden := false },
       { Name := "Logging", FlagName := "logging", EnvName := "LOGGING",
         Strategy := Strategy.Unknown, TypeName := "zc.Level",
         Description := "Logging level", Hidden := false },
       { Name := "Levels", FlagName := "levels", EnvName := "LEVELS",
         Strategy := Strategy.Unknown, TypeName := "[]zc.Level", TypeElement := "zc.Level",
         Hidden := false }] }

/-- The fields of `type Config struct { A, B int }`: one field declaration with two
names. -/
def pairRecord : List AstField :=
  [⟨["A", "B"], Expr.ident "int", TagLit.absent, none, none⟩]

/-- The fields of `type Config struct { sync.Mutex; Listen string }`: an embedded field,
then a named one. -/
def embeddedRecord : List AstField :=
  [⟨[], Expr.selector (Expr.ident "sync") "Mutex", TagLit.absent, none, none⟩,
   ⟨["Listen"], Expr.ident "string", TagLit.absent, none, none⟩]

/-- The target package of `testing/testing.go` after `enumer -type Verbosity` has run:
the type `Verbosity` with its method `String`, and the function
`VerbosityString(string) (Verbosity, error)`. -/
def testingPackage : Package :=
  ⟨"main", "github.com/wttw/configuration/testing", fun name =>
    if name = "Verbosity" then
      some ⟨none, fun m => if m = "String" then some ⟨true, [], ["string"]⟩ else none⟩
    else if name = "VerbosityString" then
      some ⟨some ⟨false, ["string"],
          ["github.com/wttw/configuration/testing.Verbosity", "error"]⟩,
        fun _ => none⟩
    else none⟩

/-- A package `example.com/both` whose type `Both` offers `Set(string) error` and
`UnmarshalText([]byte) error` on its pointer. -/
def bothPackage : Package :=
  ⟨"both", "example.com/both", fun name =>
    if name = "Both" then
      some ⟨none, fun m =>
        if m = "Set" then some ⟨true, ["string"], ["error"]⟩
        else if m = "UnmarshalText" then some ⟨true, ["[]byte"], ["error"]⟩
        else none⟩
    else none⟩

/-- The local name under which an import is known in its file (lines 386-390): the
explicit name, or else the last element of the path. -/
def localName (im : ImportSpec) : String :=
  match im.Name with
  | none => pathBase im.Path
  | some name => name

/-- The run after `Visit` has read `levelRecord` as `Config` in a file that imports
nothing. -/
def unboundState : state :=
  { configStruct := "Config"
    fields := [{ Name := "Level", FlagName := "level", EnvName := "LEVEL",
                 Strategy := Strategy.Unknown, TypeName := "zc.Level", Hidden := false }] }

/-- The run after `Visit` has read `type Config struct { Levels []Verbosity }` as
`Config`. -/
def sliceState : state :=
  { configStruct := "Config"
    fields := [{ Name := "Levels", FlagName := "levels", EnvName := "LEVELS",
                 Strategy := Strategy.Unknown, TypeName := "[]Verbosity",
                 TypeElement := "Verbosity", Hidden := false }] }

/-- The run after the walk of a package of two files, the first importing
`github.com/spf13/pflag` as `flag`, the second importing the standard `flag`, for the
record `type Config struct { Listen string }`. -/
def clashState : state :=
  { configStruct := "Config"
    imports := [⟨some "flag", "github.com/spf13/pflag"⟩, ⟨none, "flag"⟩]
    fields := [{ Name := "Listen", FlagName := "listen", EnvName := "LISTEN",
                 Strategy := Strategy.Unknown, TypeName := "string", Hidden := false }] }

/-- The run after the walk of a file that imports `github.com/spf13/pflag` as `flag`,
for the record `type Config struct { Listen string }`. -/
def aliasState : state :=
  { configStruct := "Config"
    imports := [⟨some "flag", "github.com/spf13/pflag"⟩, ⟨none, "net"⟩]
    fields := [{ Name := "Listen", FlagName := "listen", EnvName := "LISTEN",
                 Strategy := Strategy.Unknown, TypeName := "string", Hidden := false }] }

/-- Lines 173-187 of `Visit`: whether the tag of a field makes the loop `continue`. -/
def tagSkips (lit : TagLit) : Bool :=
  match lit with
  | TagLit.parsed tags =>
    match getTag tags "config" with
    | some tag => tag.Name == "-"
    | none => false
  | _ => false

/-- The fields of `type Config struct { sync.Mutex; Listen string }` with the tag
`config:"-"` on the embedded field. -/
def dashEmbeddedRecord : List AstField :=
  [⟨[], Expr.selector (Expr.ident "sync") "Mutex", TagLit.parsed [⟨"config", "-", []⟩],
     none, none⟩,
   ⟨["Listen"], Expr.ident "string", TagLit.absent, none, none⟩]

/-- The fields of `type Config struct { Listen string; Things map[string]string }` with
the raw tag literal `config:things` on `Things`, which `structtag.Parse` rejects (the
value is not quoted). -/
def malformedRecord : List AstField :=
  [⟨["Listen"], Expr.ident "string", TagLit.absent, none, none⟩,
   ⟨["Things"], Expr.mapType (Expr.ident "string") (Expr.ident "string"),
     TagLit.malformed "`config:things`", none, none⟩]

/-! # Theorems -/

open List

/-! ## `generate`: what the phases do to a field -/

theorem forall₂_right_mem {α β : Type} {R : α → β → Prop} {l₁ : List α} {l₂ : List β}
    (h : Forall₂ R l₁ l₂) {b : β} (hb : b ∈ l₂) : ∃ a ∈ l₁, R a b := by
  induction h with
  | nil => simp at hb
  | cons hab _ ih =>
    rcases List.mem_cons.1 hb with rfl | hb
    · exact ⟨_, List.mem_cons_self _ _, hab⟩
    · obtain ⟨a, ha, hr⟩ := ih hb
      exact ⟨a, List.mem_cons_of_mem _ ha, hr⟩

theorem resolveNative_of_known (f : Field) (h : f.Strategy ≠ Strategy.Unknown) :
    resolveNative f = f := by
  simp [resolveNative, h]

theorem splitField_of_known (imports : GoMap) (pkgPath configStruct : String) (f : Field)
    (h : f.Strategy ≠ Strategy.Unknown) :
    splitField imports pkgPath configStruct f = (f, none, none) := by
  simp [splitField, h]

theorem probeEnumer_of_known (scope : String → Option Object) (f : Field)
    (h : f.Strategy ≠ Strategy.Unknown) : probeEnumer scope f = f := by
  simp [probeEnumer, h]

theorem probeMethods_of_known (p : Package) (f : Field)
    (h : f.Strategy ≠ Strategy.Unknown) : probeMethods p f = f := by
  simp [probeMethods, h]

/-- The method loop treats every field on its own. -/
theorem methodPhase_eq_map (pkgs : List Package) (fields : List Field) :
    methodPhase pkgs fields
      = fields.map (fun f => pkgs.foldl (fun f p => probeMethods p f) f) := by
  induction pkgs generalizing fields with
  | nil => simp [methodPhase]
  | cons p ps ih =>
    have := ih (fields.map (probeMethods p))
    simp only [methodPhase, List.foldl_cons] at this ⊢
    rw [this, List.map_map]
    rfl

theorem probeAll_of_known (pkgs : List Package) (f : Field)
    (h : f.Strategy ≠ Strategy.Unknown) :
    pkgs.foldl (fun f p => probeMethods p f) f = f := by
  induction pkgs with
  | nil => rfl
  | cons p ps ih => simp [List.foldl_cons, probeMethods_of_known p f h, ih]

/-- Every field that the split loop returns is the input field or the field its loop
body makes of it. -/
theorem splitPhase_forall₂ (imports : GoMap) (pkgPath configStruct : String)
    (fields : List Field) (needed : List String) :
    Forall₂ (fun f g => g = f ∨ g = (splitField imports pkgPath configStruct f).1)
      fields (splitPhase imports pkgPath configStruct fields needed).1 := by
  induction fields generalizing needed with
  | nil => simp [splitPhase]
  | cons f rest ih =>
    rw [splitPhase]
    split
    · next f2 a e heq =>
      refine Forall₂.cons (Or.inr (by rw [heq])) ?_
      exact forall₂_same.2 (fun _ _ => Or.inl rfl)
    · next f2 add heq =>
      refine Forall₂.cons (Or.inr (by rw [heq])) ?_
      exact ih _

/-- When the split loop ends without error it has run its body on every field. -/
theorem splitPhase_ok (imports : GoMap) (pkgPath configStruct : String)
    (fields : List Field) (needed : List String)
    (h : (splitPhase imports pkgPath configStruct fields needed).2.2 = none) :
    (splitPhase imports pkgPath configStruct fields needed).1
      = fields.map (fun f => (splitField imports pkgPath configStruct f).1) ∧
    ∀ f ∈ fields, (splitField imports pkgPath configStruct f).2.2 = none := by
  induction fields generalizing needed with
  | nil => simp [splitPhase]
  | cons f rest ih =>
    rw [splitPhase] at h ⊢
    split at h
    · simp at h
    · next f2 add heq =>
      have := ih _ h
      simp [heq, this.1]
      exact this.2

theorem withStrategy_self (f : Field) : f.withStrategy f.Strategy = f := rfl

theorem withStrategy_withStrategy (f : Field) (s t : Strategy) :
    (f.withStrategy s).withStrategy t = f.withStrategy t := rfl

theorem probeEnumer_only_strategy (scope : String → Option Object) (f : Field) :
    ∃ s, probeEnumer scope f = f.withStrategy s := by
  unfold probeEnumer
  split
  · exact ⟨_, (withStrategy_self f).symm⟩
  · dsimp only
    split
    · exact ⟨_, (withStrategy_self f).symm⟩
    · split
      · exact ⟨_, (withStrategy_self f).symm⟩
      · split
        · exact ⟨Strategy.Enumer, rfl⟩
        · exact ⟨_, (withStrategy_self f).symm⟩

theorem probeMethods_only_strategy (p : Package) (f : Field) :
    ∃ s, probeMethods p f = f.withStrategy s := by
  unfold probeMethods
  split
  · exact ⟨_, (withStrategy_self f).symm⟩
  · split
    · exact ⟨_, (withStrategy_self f).symm⟩
    · split
      · exact ⟨_, (withStrategy_self f).symm⟩
      · split
        · exact ⟨Strategy.Set, rfl⟩
        · split
          · exact ⟨Strategy.Marshal, rfl⟩
          · split
            · exact ⟨Strategy.Scan, rfl⟩
            · exact ⟨_, (withStrategy_self f).symm⟩

theorem probeAll_only_strategy (pkgs : List Package) (f : Field) :
    ∃ s, pkgs.foldl (fun f p => probeMethods p f) f = f.withStrategy s := by
  induction pkgs generalizing f with
  | nil => exact ⟨_, (withStrategy_self f).symm⟩
  | cons p ps ih =>
    simp only [List.foldl_cons]
    obtain ⟨s, hs⟩ := probeMethods_only_strategy p f
    obtain ⟨t, ht⟩ := ih (probeMethods p f)
    exact ⟨t, by rw [ht, hs, withStrategy_withStrategy]⟩

/-- The fields that `generate` leaves behind are the fields of the split loop, each put
through one function that touches nothing but the strategy, and only of a field whose
strategy is `Unknown`. -/
theorem generate_fields_eq (cm : CaseMap) (load : List String → Except String (List Package))
    (render : Result → String × Option String) (writeFile : String → String → Option String)
    (vis : state) (pkg : Package) :
    ∃ h : Field → Field,
      (∀ f, f.Strategy ≠ Strategy.Unknown → h f = f) ∧
      (∀ f, ∃ s, h f = f.withStrategy s) ∧
      (generate cm load render writeFile vis pkg).fields
        = (splitPhase (importMap vis.imports) pkg.PkgPath vis.configStruct
            (nativePhase vis.fields) []).1.map h := by
  unfold generate
  dsimp only
  split
  · next fields needed err heq =>
    refine ⟨id, fun _ _ => rfl, fun f => ⟨_, (withStrategy_self f).symm⟩, ?_⟩
    simp [heq]
  · next fields needed heq =>
    split
    · refine ⟨probeEnumer pkg.Scope, probeEnumer_of_known _, probeEnumer_only_strategy _, ?_⟩
      simp [heq, enumerPhase]
    · next pkgs hl =>
      refine ⟨fun f => (pkgs ++ [pkg]).foldl (fun f p => probeMethods p f) (probeEnumer pkg.Scope f),
        ?_, ?_, ?_⟩
      · intro f hf
        show (pkgs ++ [pkg]).foldl (fun f p => probeMethods p f) (probeEnumer pkg.Scope f) = f
        rw [probeEnumer_of_known _ _ hf, probeAll_of_known _ _ hf]
      · intro f
        obtain ⟨s, hs⟩ := probeEnumer_only_strategy pkg.Scope f
        obtain ⟨t, ht⟩ := probeAll_only_strategy (pkgs ++ [pkg]) (probeEnumer pkg.Scope f)
        refine ⟨t, ?_⟩
        show (pkgs ++ [pkg]).foldl (fun f p => probeMethods p f) (probeEnumer pkg.Scope f) = _
        rw [ht, hs, withStrategy_withStrategy]
      · split <;> simp [heq, enumerPhase, methodPhase_eq_map, List.map_map]

/-- When `generate` reaches the renderer, the split loop ended without error, the
packages were loaded, and the payload carries the fields as the method loop left them. -/
theorem generate_data_some (cm : CaseMap) (load : List String → Except String (List Package))
    (render : Result → String × Option String) (writeFile : String → String → Option String)
    (vis : state) (pkg : Package) (d : Result)
    (hd : (generate cm load render writeFile vis pkg).data = some d) :
    (splitPhase (importMap vis.imports) pkg.PkgPath vis.configStruct
        (nativePhase vis.fields) []).2.2 = none ∧
    (∃ pkgs, load (splitPhase (importMap vis.imports) pkg.PkgPath vis.configStruct
        (nativePhase vis.fields) []).2.1 = Except.ok pkgs ∧
      (generate cm load render writeFile vis pkg).fields
        = methodPhase (pkgs ++ [pkg]) (enumerPhase pkg.Scope
            (splitPhase (importMap vis.imports) pkg.PkgPath vis.configStruct
              (nativePhase vis.fields) []).1)) ∧
    d.Fields = (generate cm load render writeFile vis pkg).fields := by
  unfold generate at hd ⊢
  dsimp only at hd ⊢
  split at hd
  · simp at hd
  · next fields needed heq =>
    split at hd
    · simp at hd
    · next pkgs hl =>
      have hd2 : d = buildResult vis (importMap vis.imports) needed
          (methodPhase (pkgs ++ [pkg]) (enumerPhase pkg.Scope fields)) := by
        split at hd <;> simp at hd <;> exact hd.symm
      subst hd2
      simp only [heq, hl]
      refine ⟨trivial, ⟨pkgs, rfl, ?_⟩, ?_⟩
      · split <;> rfl
      · split <;> rfl

/-- The calls of `generate` that end before the renderer is reached are those in which
the split loop fails or the loader fails. -/
theorem generate_data_none (cm : CaseMap) (load : List String → Except String (List Package))
    (render : Result → String × Option String) (writeFile : String → String → Option String)
    (vis : state) (pkg : Package) :
    (generate cm load render writeFile vis pkg).data = none ↔
      ((splitPhase (importMap vis.imports) pkg.PkgPath vis.configStruct
          (nativePhase vis.fields) []).2.2 ≠ none ∨
       ∃ e, load (splitPhase (importMap vis.imports) pkg.PkgPath vis.configStruct
          (nativePhase vis.fields) []).2.1 = Except.error e) := by
  unfold generate
  dsimp only
  split
  · next fields needed err heq => simp [heq]
  · next fields needed heq =>
    split
    · next e hl => simp [heq, hl]
    · next pkgs hl =>
      simp only [heq, hl]
      split <;> simp

/-- What `generate` leaves of a field, seen from the field it was given: a field that
already has a strategy is left as it is, and a field without one whose type is in the
native table becomes `Native` with the helper of the table. -/
theorem generate_fields_forall₂ (cm : CaseMap) (load : List String → Except String (List Package))
    (render : Result → String × Option String) (writeFile : String → String → Option String)
    (vis : state) (pkg : Package) :
    Forall₂ (fun f g => (f.Strategy ≠ Strategy.Unknown → g = f) ∧
        (f.Strategy = Strategy.Unknown → nativeFn f.TypeName ≠ "" →
          g = { f with Strategy := Strategy.Native, NativeFn := nativeFn f.TypeName }) ∧
        g.Name = f.Name)
      vis.fields (generate cm load render writeFile vis pkg).fields := by
  obtain ⟨h, hk, hs, heq⟩ := generate_fields_eq cm load render writeFile vis pkg
  rw [heq, forall₂_map_right_iff]
  have hsp := splitPhase_forall₂ (importMap vis.imports) pkg.PkgPath vis.configStruct
    (nativePhase vis.fields) []
  rw [nativePhase, forall₂_map_left_iff] at hsp
  refine hsp.imp ?_
  intro f g hfg
  have hname : (h g).Name = f.Name := by
    obtain ⟨s, hs1⟩ := hs g
    rw [hs1]
    show g.Name = f.Name
    rcases hfg with h1 | h1
    · rw [h1]; unfold resolveNative; split
      · rfl
      · dsimp only; split <;> rfl
    · rw [h1]
      unfold splitField
      split
      · unfold resolveNative; split
        · rfl
        · dsimp only; split <;> rfl
      · dsimp only
        split
        · split <;> (unfold resolveNative; split <;> [rfl; (dsimp only; split <;> rfl)])
        · unfold resolveNative; split
          · rfl
          · dsimp only; split <;> rfl
  refine ⟨?_, ?_, hname⟩
  · intro hf
    have h1 : g = f := by
      rcases hfg with h1 | h1
      · rw [h1, resolveNative_of_known f hf]
      · rw [h1, resolveNative_of_known f hf, splitField_of_known _ _ _ _ hf]
    rw [h1, hk f hf]
  · intro hf hn
    have hr : resolveNative f
        = { f with Strategy := Strategy.Native, NativeFn := nativeFn f.TypeName } := by
      simp [resolveNative, hf, hn]
    have hrk : (resolveNative f).Strategy ≠ Strategy.Unknown := by
      rw [hr]; simp
    have h1 : g = resolveNative f := by
      rcases hfg with h1 | h1
      · exact h1
      · rw [h1, splitField_of_known _ _ _ _ hrk]
    rw [h1, hk _ hrk, hr]

/-! ## C1: fields without a strategy -/

/-- C1, counterexample: the record `type Config struct { Mode Mode }`, in a package that
declares neither a function `ModeString` nor a method on `Mode`, is read by `Visit`
into one descriptor; no phase of `generate` finds a strategy for it, and `generate`
still reaches the renderer, hands it the descriptor with strategy `Unknown`, and
returns no error. -/
theorem generate_renders_unknown_field :
    Visit asciiCase { configStruct := "Config" }
        (Node.typeSpec "Config" (some (TypeDecl.structType modeRecord)))
      = Except.ok (modeState, true) ∧
    (generate asciiCase loadNothing renderNothing writeOk modeState barePackage).data.map
        (fun d => d.Fields.map (fun f => f.Strategy)) = some [Strategy.Unknown] ∧
    (generate asciiCase loadNothing renderNothing writeOk modeState barePackage).err = none := by
  refine ⟨by rfl, by decide, by decide⟩

/-- C1, amended: `generate` makes no check for `Unknown` after the method probe. It
returns before the renderer exactly when the split loop meets an unresolved import or
the loader fails; otherwise it reaches the renderer, and the descriptors of the payload
are the fields as the method probe left them, one per field of the run, those still
`Unknown` included. -/
theorem generate_payload_is_unchecked (cm : CaseMap)
    (load : List String → Except String (List Package))
    (render : Result → String × Option String) (writeFile : String → String → Option String)
    (vis : state) (pkg : Package) :
    ((generate cm load render writeFile vis pkg).data = none ↔
      ((splitPhase (importMap vis.imports) pkg.PkgPath vis.configStruct
          (nativePhase vis.fields) []).2.2 ≠ none ∨
       ∃ e, load (splitPhase (importMap vis.imports) pkg.PkgPath vis.configStruct
          (nativePhase vis.fields) []).2.1 = Except.error e)) ∧
    (∀ d, (generate cm load render writeFile vis pkg).data = some d →
      d.Fields = (generate cm load render writeFile vis pkg).fields ∧
      ∃ pkgs, load (splitPhase (importMap vis.imports) pkg.PkgPath vis.configStruct
          (nativePhase vis.fields) []).2.1 = Except.ok pkgs ∧
        d.Fields = methodPhase (pkgs ++ [pkg]) (enumerPhase pkg.Scope
          (splitPhase (importMap vis.imports) pkg.PkgPath vis.configStruct
            (nativePhase vis.fields) []).1)) ∧
    (generate cm load render writeFile vis pkg).fields.length = vis.fields.length := by
  refine ⟨generate_data_none cm load render writeFile vis pkg, ?_, ?_⟩
  · intro d hd
    obtain ⟨_, ⟨pkgs, hl, hf⟩, hd2⟩ := generate_data_some cm load render writeFile vis pkg d hd
    exact ⟨hd2, pkgs, hl, hd2.trans hf⟩
  · exact (generate_fields_forall₂ cm load render writeFile vis pkg).length_eq.symm

/-! ## C2: fields tagged `-` -/

theorem visitField_skip (cm : CaseMap) (vis : state) (field : AstField)
    (name : String) (names : List String) (tags : List Tag) (tag : Tag)
    (hn : field.Names = name :: names) (ht : field.Tag = TagLit.parsed tags)
    (hg : getTag tags "config" = some tag) (hd : tag.Name = "-") :
    visitField cm vis field = Except.ok FieldStep.skip := by
  simp [visitField, hn, ht, applyTag, hg, hd]

theorem visitFields_append_skip (cm : CaseMap) (vis : state) (front back : List AstField)
    (field : AstField) (h : visitField cm vis field = Except.ok FieldStep.skip)
    (hvis : ∀ v w : state, v.envPrefix = w.envPrefix → v.configStruct = w.configStruct →
      visitField cm v field = visitField cm w field) :
    visitFields cm vis (front ++ field :: back) = visitFields cm vis (front ++ back) := by
  induction front generalizing vis with
  | nil => simp [visitFields, h]
  | cons p ps ih =>
    simp only [List.cons_append, visitFields]
    split
    · rfl
    · exact ih vis h
    · rfl
    · next f hf =>
      exact ih _ ((hvis _ vis rfl rfl).trans h)

theorem visitField_congr (cm : CaseMap) (v w : state) (field : AstField)
    (h1 : v.envPrefix = w.envPrefix) (h2 : v.configStruct = w.configStruct) :
    visitField cm v field = visitField cm w field := by
  unfold visitField applyTag readType typeSwitch
  simp only [h1, h2]

/-- Fields tagged `-` that declare a name: such a field leaves no trace in what `Visit`
does with a record of the requested name. Whatever the field's type (a map and an array
with a length included), the result is the result for the record without the field, so
no descriptor is appended for it, no error is set for it, and the descriptors of the
other fields are the same. For the record `Basics` of the tests the descriptors are
those of `Listen`, `FileCount`, `Files` and `IP`. -/
theorem visit_skips_dash_field (cm : CaseMap) (vis : state) (structName : String)
    (front back : List AstField) (field : AstField)
    (name : String) (names : List String) (tags : List Tag) (tag : Tag)
    (hn : field.Names = name :: names) (ht : field.Tag = TagLit.parsed tags)
    (hg : getTag tags "config" = some tag) (hd : tag.Name = "-") :
    Visit cm vis (Node.typeSpec structName (some (TypeDecl.structType (front ++ field :: back))))
      = Visit cm vis (Node.typeSpec structName (some (TypeDecl.structType (front ++ back)))) ∧
    (Visit asciiCase { configStruct := "Basics" }
        (Node.typeSpec "Basics" (some (TypeDecl.structType basicsRecord)))).toOption.map
      (fun r => (r.1.fields.map (fun f => f.Name), r.1.err))
      = some (["Listen", "FileCount", "Files", "IP"], none) := by
  refine ⟨?_, by decide⟩
  simp only [Visit]
  split
  · rfl
  · exact visitFields_append_skip cm _ front back field
      (visitField_skip cm _ field name names tags tag hn ht hg hd)
      (fun v w h1 h2 => visitField_congr cm v w field h1 h2)

/-- The field `Things map[string]string` of `Basics`, tagged `config:"-"`, between the
three fields before it and the one after it. -/
theorem visit_skips_dash_field_witness :
    Visit asciiCase { configStruct := "Basics" }
        (Node.typeSpec "Basics" (some (TypeDecl.structType basicsRecord)))
      = Visit asciiCase { configStruct := "Basics" }
        (Node.typeSpec "Basics" (some (TypeDecl.structType
          (basicsRecord.take 3 ++ basicsRecord.drop 4)))) :=
  (visit_skips_dash_field asciiCase { configStruct := "Basics" } "Basics"
    (basicsRecord.take 3) (basicsRecord.drop 4)
    ⟨["Things"], Expr.mapType (Expr.ident "string") (Expr.ident "string"),
      TagLit.parsed [⟨"config", "-", []⟩], none, none⟩
    "Things" [] [⟨"config", "-", []⟩] ⟨"config", "-", []⟩ rfl rfl rfl rfl).1

/-- C2, the code at the failing input: for
`type Config struct { sync.Mutex; Listen string }` with the tag `config:"-"` on the
embedded field, the access `field.Names[0]` comes before the tag is read and is out of
range, so `Visit` ends in a run-time panic, where the record without the skipped field
yields the one descriptor `Listen`. -/
theorem visit_dash_embedded_panics :
    dashEmbeddedRecord.map (fun field => (field.Names, tagSkips field.Tag))
      = [([], true), (["Listen"], false)] ∧
    Visit asciiCase { configStruct := "Config" }
        (Node.typeSpec "Config" (some (TypeDecl.structType dashEmbeddedRecord)))
      = Except.error (Exit.panic "index out of range [0] with length 0") ∧
    (Visit asciiCase { configStruct := "Config" }
        (Node.typeSpec "Config" (some (TypeDecl.structType
          (dashEmbeddedRecord.drop 1))))).toOption.map
      (fun r => (r.1.fields.map (fun f => f.Name), r.1.err)) = some (["Listen"], none) :=
  ⟨by decide, rfl, by decide⟩

/-! ## C3: the native table -/

theorem nativeFn_table : ∀ e ∈ nativeTable, nativeFn e.1 = e.2 ∧ e.2 ≠ "" := by
  decide

/-- C3, counterexample: the field ``Listen string `config:",func"` `` has a type of the
native table, yet `Visit` gives it the strategy `Func` and `generate` leaves it so, with
no native helper. -/
theorem generate_native_type_forced_by_tag :
    Visit asciiCase { configStruct := "Config" }
        (Node.typeSpec "Config" (some (TypeDecl.structType funcRecord)))
      = Except.ok (funcState, true) ∧
    (generate asciiCase loadNothing renderNothing writeOk funcState barePackage).fields.map
        (fun f => (f.TypeName, f.Strategy, f.NativeFn)) = [("string", Strategy.Func, "")] := by
  refine ⟨by rfl, by decide⟩

/-- C3, amended: a field that enters `generate` without a strategy (no tag option has
forced one) and whose type text is an entry of the native table leaves `generate` with
the strategy `Native` and the helper of the table, and is otherwise unchanged, whatever
the imports, the scopes, the loader and the outcome of the call; the table holds the 28
entries of the `switch`, `string` with `StringVar`, `[]byte` with `BytesHexVar`,
`time.Duration` with `DurationVar` and `net.IP` with `IPVar` among them. -/
theorem generate_native_table (cm : CaseMap)
    (load : List String → Except String (List Package))
    (render : Result → String × Option String) (writeFile : String → String → Option String)
    (vis : state) (pkg : Package) :
    Forall₂ (fun f g => ∀ e ∈ nativeTable, f.TypeName = e.1 → f.Strategy = Strategy.Unknown →
        g = { f with Strategy := Strategy.Native, NativeFn := e.2 })
      vis.fields (generate cm load render writeFile vis pkg).fields ∧
    nativeTable.map (fun e => e.1) =
      ["[]bool", "bool", "[]byte", "time.Duration", "[]time.Duration", "float32", "[]float32",
       "float64", "[]float64", "net.IP", "[]net.IP", "net.IPMask", "net.IPNet", "int", "[]int",
       "int8", "int16", "int32", "[]int32", "int64", "[]int64", "string", "[]string", "uint",
       "[]uint", "uint16", "uint32", "uint64"] ∧
    nativeFn "string" = "StringVar" ∧ nativeFn "[]byte" = "BytesHexVar" ∧
    nativeFn "time.Duration" = "DurationVar" ∧ nativeFn "net.IP" = "IPVar" := by
  refine ⟨?_, by decide, by decide, by decide, by decide, by decide⟩
  refine (generate_fields_forall₂ cm load render writeFile vis pkg).imp ?_
  intro f g hfg e he ht hs
  obtain ⟨h1, h2⟩ := nativeFn_table e he
  have := hfg.2.1 hs (by rw [ht, h1]; exact h2)
  rw [this, ht, h1]

/-- C3, witness: the field `Listen string` of `Basics`, alone in a run. -/
theorem generate_native_table_witness :
    ∀ g ∈ (generate asciiCase loadNothing renderNothing writeOk
        { configStruct := "Basics"
          fields := [{ Name := "Listen", FlagName := "listen", EnvName := "LISTEN",
                       Strategy := Strategy.Unknown, TypeName := "string", Hidden := false }] }
        barePackage).fields,
      g = { Name := "Listen", FlagName := "listen", EnvName := "LISTEN",
            Strategy := Strategy.Native, NativeFn := "StringVar", TypeName := "string",
            Hidden := false } := by
  intro g hg
  obtain ⟨f, hf, hfg⟩ := forall₂_right_mem
    (generate_native_table asciiCase loadNothing renderNothing writeOk
        { configStruct := "Basics"
          fields := [{ Name := "Listen", FlagName := "listen", EnvName := "LISTEN",
                       Strategy := Strategy.Unknown, TypeName := "string", Hidden := false }] }
        barePackage).1 hg
  rw [List.mem_singleton] at hf
  subst hf
  exact hfg ("string", "StringVar") (by decide) rfl rfl

/-! ## C4: strategies forced by a tag -/

/-- The strategy that the options of a `config` tag force, the later assignment of
`Visit` winning over the earlier. -/
theorem applyTag_strategy (cm : CaseMap) (vis : state) (tags : List Tag) (tag : Tag)
    (f g : Field) (hg : getTag tags "config" = some tag)
    (h : applyTag cm vis (TagLit.parsed tags) f = Except.ok (some g)) :
    g.Strategy =
      if tag.HasOption "marshal" then Strategy.Marshal
      else if tag.HasOption "func" then Strategy.Func
      else if tag.HasOption "enum" then Strategy.Enumer
      else if tag.HasOption "set" then Strategy.Set
      else f.Strategy := by
  simp only [applyTag, hg] at h
  split at h
  · simp at h
  · simp only [Except.ok.injEq, Option.some.injEq] at h
    subst h
    by_cases h1 : tag.HasOption "marshal" <;> by_cases h2 : tag.HasOption "func" <;>
      by_cases h3 : tag.HasOption "enum" <;> by_cases h4 : tag.HasOption "set" <;>
      by_cases h5 : tag.HasOption "hidden" <;> by_cases h6 : tag.Name = "" <;>
      simp [h1, h2, h3, h4, h5, h6]

theorem typeSwitch_strategy (vis : state) (name : String) (ty : Expr) (f g : Field)
    (h : typeSwitch vis name ty f = Except.ok g) : g.Strategy = f.Strategy := by
  cases ty with
  | ident n => simp only [typeSwitch, Except.ok.injEq] at h; subst h; rfl
  | selector x s => simp only [typeSwitch, Except.ok.injEq] at h; subst h; rfl
  | arrayType hasLen elt =>
    simp only [typeSwitch] at h
    split at h
    · simp at h
    · split at h <;> (simp only [Except.ok.injEq] at h; subst h; rfl)
  | mapType k v => simp [typeSwitch] at h
  | other t => simp [typeSwitch] at h

theorem readType_strategy (vis : state) (name : String) (ty : Expr) (f g : Field)
    (h : readType vis name ty f = Except.ok g) : g.Strategy = f.Strategy := by
  unfold readType at h
  split at h
  · simp at h
  · next f2 hr =>
    split at h
    · simp at h
    · simp only [Except.ok.injEq] at h
      subst h
      exact typeSwitch_strategy vis name ty f _ hr

theorem describe_strategy (field : AstField) (f : Field) :
    (describe field f).Strategy = f.Strategy := by
  unfold describe
  split <;> split <;> rfl

/-- The strategy with which a descriptor leaves the loop body of `Visit` is the one
its tag forces. -/
theorem visitField_strategy (cm : CaseMap) (vis : state) (field : AstField) (g : Field)
    (tags : List Tag) (tag : Tag) (ht : field.Tag = TagLit.parsed tags)
    (hg : getTag tags "config" = some tag)
    (h : visitField cm vis field = Except.ok (FieldStep.add g)) :
    g.Strategy =
      if tag.HasOption "marshal" then Strategy.Marshal
      else if tag.HasOption "func" then Strategy.Func
      else if tag.HasOption "enum" then Strategy.Enumer
      else if tag.HasOption "set" then Strategy.Set
      else Strategy.Unknown := by
  unfold visitField at h
  split at h
  · simp at h
  · next name names hn =>
    dsimp only at h
    split at h
    · simp at h
    · simp at h
    · next f1 h1 =>
      split at h
      · simp at h
      · next f2 h2 =>
        simp only [Except.ok.injEq, FieldStep.add.injEq] at h
        subst h
        rw [describe_strategy, readType_strategy _ _ _ _ _ h2]
        rw [ht] at h1
        exact applyTag_strategy cm vis tags tag _ f1 hg h1

/-- C4: the strategy that `Visit` gives a field from the options of its `config` tag
(`Marshal` for `marshal`, else `Func` for `func`, else `Enumer` for `enum`, else `Set`
for `set`: the respective strategy when the tag carries one of them) is not touched by
`generate`: for every run, every import list, every target package and every loader,
a field that enters `generate` with a strategy other than `Unknown` leaves it unchanged
in every component. -/
theorem generate_keeps_forced_strategy (cm : CaseMap)
    (load : List String → Except String (List Package))
    (render : Result → String × Option String) (writeFile : String → String → Option String)
    (vis : state) (pkg : Package) :
    (∀ (v : state) (field : AstField) (g : Field) (tags : List Tag) (tag : Tag),
      field.Tag = TagLit.parsed tags → getTag tags "config" = some tag →
      visitField cm v field = Except.ok (FieldStep.add g) →
      g.Strategy =
        if tag.HasOption "marshal" then Strategy.Marshal
        else if tag.HasOption "func" then Strategy.Func
        else if tag.HasOption "enum" then Strategy.Enumer
        else if tag.HasOption "set" then Strategy.Set
        else Strategy.Unknown) ∧
    Forall₂ (fun f g => f.Strategy ≠ Strategy.Unknown → g = f)
      vis.fields (generate cm load render writeFile vis pkg).fields :=
  ⟨fun v field g tags tag ht hg h => visitField_strategy cm v field g tags tag ht hg h,
    (generate_fields_forall₂ cm load render writeFile vis pkg).imp (fun _ _ h => h.1)⟩

/-- C4, witness: ``Level zc.Level `config:",set"` `` gets `Set` from `Visit`, and
`generate` hands the descriptor on as it was, although the loaded package would also
offer the method. -/
theorem generate_keeps_forced_strategy_witness :
    visitField asciiCase { configStruct := "Config" }
        ⟨["Level"], Expr.selector (Expr.ident "zc") "Level",
          TagLit.parsed [⟨"config", "", ["set"]⟩], none, none⟩
      = Except.ok (FieldStep.add
          { Name := "Level", Tag := some ⟨"config", "", ["set"]⟩, FlagName := "level",
            EnvName := "LEVEL", Strategy := Strategy.Set, TypeName := "zc.Level",
            Hidden := false }) ∧
    ∀ g ∈ (generate asciiCase loadZapcore renderNothing writeOk setState barePackage).fields,
      g = { Name := "Level", Tag := some ⟨"config", "", ["set"]⟩, FlagName := "level",
            EnvName := "LEVEL", Strategy := Strategy.Set, TypeName := "zc.Level",
            Hidden := false } := by
  refine ⟨by rfl, ?_⟩
  intro g hg
  obtain ⟨f, hf, hfg⟩ := forall₂_right_mem
    (generate_keeps_forced_strategy asciiCase loadZapcore renderNothing writeOk setState
      barePackage).2 hg
  simp only [setState, List.mem_singleton] at hf
  subst hf
  exact hfg (by decide)

/-! ## C5: base name and import path of a probed type -/

theorem splitDot_ne_nil (s : List Char) : splitDot s ≠ [] := by
  cases s with
  | nil => simp [splitDot]
  | cons c cs =>
    simp only [splitDot]
    split
    · simp
    · split <;> simp

theorem splitDot_singleton_nil (s : List Char) (h : splitDot s = [[]]) : s = [] := by
  cases s with
  | nil => rfl
  | cons c cs =>
    simp only [splitDot] at h
    split at h
    · simp only [List.cons.injEq, true_and] at h
      exact absurd h (splitDot_ne_nil cs)
    · split at h <;> simp at h

/-- A text whose split at the dots ends in an empty part ends in a dot. -/
theorem splitDot_last_empty (s q : List Char) (h : splitDot s = [q, []]) :
    s.getLast? = some '.' := by
  induction s generalizing q with
  | nil => simp [splitDot] at h
  | cons c cs ih =>
    simp only [splitDot] at h
    split at h
    · next hc =>
      simp only [List.cons.injEq] at h
      have := splitDot_singleton_nil cs (by rw [h.2])
      subst this
      simp [hc]
    · split at h
      · next p ps hp =>
        simp only [List.cons.injEq] at h
        rw [h.2] at hp
        have := ih p hp
        cases cs with
        | nil => simp at this
        | cons d ds => simpa [List.getLast?_cons_cons] using this
      · simp at h

theorem trimSlicePrefix_getLast (s : List Char) (h : (trimSlicePrefix s).getLast? = some '.') :
    s.getLast? = some '.' := by
  unfold trimSlicePrefix at h
  split at h
  · next rest =>
    cases rest with
    | nil => simp at h
    | cons d ds => simpa [List.getLast?_cons_cons] using h
  · exact h

theorem GoMap.mem_set (m : GoMap) (k v : String) (e : String × String)
    (h : e ∈ m.set k v) : e ∈ m ∨ e = (k, v) := by
  unfold GoMap.set at h
  split at h
  · rw [List.mem_map] at h
    obtain ⟨a, ha, hae⟩ := h
    split at hae
    · exact Or.inr hae.symm
    · exact Or.inl (hae ▸ ha)
  · rcases List.mem_append.1 h with h | h
    · exact Or.inl h
    · exact Or.inr (List.mem_singleton.1 h)

/-- Every path in the import map is the path of a captured import. -/
theorem importMap_mem (imports : List ImportSpec) (e : String × String)
    (h : e ∈ importMap imports) : ∃ im ∈ imports, im.Path = e.2 := by
  unfold importMap at h
  have key : ∀ (l : List ImportSpec) (m : GoMap),
      e ∈ l.foldl (fun m im =>
        match im.Name with
        | none => m.set (pathBase im.Path) im.Path
        | some name => m.set name im.Path) m →
      e ∈ m ∨ ∃ im ∈ l, im.Path = e.2 := by
    intro l
    induction l with
    | nil => intro m hm; exact Or.inl hm
    | cons im ims ih =>
      intro m hm
      simp only [List.foldl_cons] at hm
      rcases ih _ hm with h1 | ⟨im2, h2, h3⟩
      · split at h1
        · rcases GoMap.mem_set _ _ _ _ h1 with h1 | h1
          · exact Or.inl h1
          · exact Or.inr ⟨im, List.mem_cons_self _ _, by rw [h1]⟩
        · rcases GoMap.mem_set _ _ _ _ h1 with h1 | h1
          · exact Or.inl h1
          · exact Or.inr ⟨im, List.mem_cons_self _ _, by rw [h1]⟩
      · exact Or.inr ⟨im2, List.mem_cons_of_mem _ h2, h3⟩
  rcases key imports [] h with h | h
  · simp at h
  · exact h

theorem GoMap.get?_mem (m : GoMap) (k v : String) (h : m.get? k = some v) :
    ∃ e ∈ m, e.2 = v := by
  unfold GoMap.get? at h
  rw [Option.map_eq_some'] at h
  obtain ⟨e, he, hv⟩ := h
  exact ⟨e, List.mem_of_find?_eq_some he, hv⟩

/-- What the split loop makes of a field without strategy when it raises no error. -/
theorem splitField_unknown (imports : GoMap) (pkgPath configStruct : String) (f : Field)
    (hs : f.Strategy = Strategy.Unknown)
    (he : (splitField imports pkgPath configStruct f).2.2 = none) :
    (∃ q base found, splitDot (trimSlicePrefix f.TypeName.data) = [q, base] ∧
        imports.get? ⟨q⟩ = some found ∧
        (splitField imports pkgPath configStruct f).1
          = { f with TypeBasename := ⟨base⟩, TypeImportPath := found }) ∨
    ((∀ q base, splitDot (trimSlicePrefix f.TypeName.data) ≠ [q, base]) ∧
        (splitField imports pkgPath configStruct f).1
          = { f with TypeBasename := f.TypeName, TypeImportPath := pkgPath }) := by
  unfold splitField at he ⊢
  simp only [hs, ne_eq, not_true_eq_false, ↓reduceIte] at he ⊢
  split
  · next q base hq =>
    left
    split at he
    · next hq2 =>
      rw [hq] at hq2
      simp only [List.cons.injEq, and_true] at hq2
      obtain ⟨rfl, rfl⟩ := hq2
      split at he
      · simp at he
      · next found hf =>
        refine ⟨q, base, found, hq, hf, ?_⟩
        simp [hf]
    · next hq2 => exact absurd hq (hq2 q base)
  · next hq =>
    right
    exact ⟨fun q base h => hq q base h, rfl⟩

theorem resolveNative_cases (f : Field) :
    resolveNative f = f ∨ (resolveNative f).Strategy = Strategy.Native := by
  unfold resolveNative
  split
  · exact Or.inl rfl
  · dsimp only
    split
    · exact Or.inr rfl
    · exact Or.inl rfl

/-- C5, counterexample: ``Level zc.Level `config:",set"` `` reaches the renderer with
the strategy `Set` and with an empty base name and an empty import path, since the
split loop passes over a field that already has a strategy. -/
theorem generate_forced_set_has_no_basename :
    Visit asciiCase { configStruct := "Config", imports := [⟨some "zc", "go.uber.org/zap/zapcore"⟩] }
        (Node.typeSpec "Config" (some (TypeDecl.structType setRecord)))
      = Except.ok (setState, true) ∧
    (generate asciiCase loadZapcore renderNothing writeOk setState barePackage).data.map
        (fun d => d.Fields.map (fun f => (f.Strategy, f.TypeBasename, f.TypeImportPath)))
      = some [(Strategy.Set, "", "")] := by
  refine ⟨by rfl, by decide⟩

/-- C5, amended: of the descriptors that `generate` passes to the renderer with the
strategy `Set`, `Marshal`, `Scan` or `Enumer`, those that entered `generate` without a
strategy have a non-empty base name and a non-empty import path, provided the type text
is non-empty and does not end in a dot, the path of the target package is non-empty and
so is the path of every captured import; a descriptor that entered with a strategy (one
forced by a tag option) is passed on with the base name and import path it came with. -/
theorem generate_probed_has_basename (cm : CaseMap)
    (load : List String → Except String (List Package))
    (render : Result → String × Option String) (writeFile : String → String → Option String)
    (vis : state) (pkg : Package) (d : Result)
    (hd : (generate cm load render writeFile vis pkg).data = some d)
    (hpkg : pkg.PkgPath ≠ "") (himp : ∀ im ∈ vis.imports, im.Path ≠ "") :
    Forall₂ (fun f g =>
        (f.Strategy = Strategy.Unknown → f.TypeName ≠ "" →
          f.TypeName.data.getLast? ≠ some '.' →
          (g.Strategy = Strategy.Set ∨ g.Strategy = Strategy.Marshal ∨
            g.Strategy = Strategy.Scan ∨ g.Strategy = Strategy.Enumer) →
          g.TypeBasename ≠ "" ∧ g.TypeImportPath ≠ "") ∧
        (f.Strategy ≠ Strategy.Unknown →
          g.TypeBasename = f.TypeBasename ∧ g.TypeImportPath = f.TypeImportPath))
      vis.fields d.Fields := by
  obtain ⟨hok, _, hdf⟩ := generate_data_some cm load render writeFile vis pkg d hd
  obtain ⟨h, hk, hs, heq⟩ := generate_fields_eq cm load render writeFile vis pkg
  obtain ⟨hmap, herr⟩ := splitPhase_ok _ _ _ _ _ hok
  rw [hdf, heq, hmap, nativePhase, List.map_map, List.map_map, forall₂_map_right_iff,
    forall₂_same]
  intro f hf
  refine ⟨?_, ?_⟩
  · intro hu hne hdot hg
    have herr1 := herr (resolveNative f) (List.mem_map_of_mem _ hf)
    obtain ⟨s, hs1⟩ := hs (splitField (importMap vis.imports) pkg.PkgPath vis.configStruct
      (resolveNative f)).1
    simp only [Function.comp_apply] at hg ⊢
    rcases resolveNative_cases f with hr | hr
    · rw [hr] at herr1 hs1 hg ⊢
      rw [hs1]
      show (splitField (importMap vis.imports) pkg.PkgPath vis.configStruct f).1.TypeBasename ≠ ""
        ∧ (splitField (importMap vis.imports) pkg.PkgPath vis.configStruct f).1.TypeImportPath ≠ ""
      rcases splitField_unknown _ _ _ f hu herr1 with ⟨q, base, found, hq, hget, hv⟩ | ⟨_, hv⟩
      · rw [hv]
        refine ⟨?_, ?_⟩
        · show (⟨base⟩ : String) ≠ ""
          intro hb
          have hb2 : base = [] := congrArg String.data hb
          subst hb2
          exact hdot (trimSlicePrefix_getLast _ (splitDot_last_empty _ q hq))
        · show found ≠ ""
          obtain ⟨e, he, hev⟩ := GoMap.get?_mem _ _ _ hget
          obtain ⟨im, him, hp⟩ := importMap_mem _ e he
          rw [← hev, ← hp]
          exact himp im him
      · rw [hv]
        exact ⟨hne, hpkg⟩
    · have hk1 := hk _ (show (splitField (importMap vis.imports) pkg.PkgPath vis.configStruct
          (resolveNative f)).1.Strategy ≠ Strategy.Unknown by
        rw [splitField_of_known _ _ _ _ (by rw [hr]; simp)]; rw [hr]; simp)
      rw [hk1, splitField_of_known _ _ _ _ (by rw [hr]; simp), hr] at hg
      simp at hg
  · intro hkn
    simp only [Function.comp_apply]
    rw [resolveNative_of_known f hkn, splitField_of_known _ _ _ _ hkn, hk f hkn]
    exact ⟨rfl, rfl⟩

/-- C5, witness: `Level zc.Level` without tag, in a file that imports
`go.uber.org/zap/zapcore` as `zc`, with the package offering
`func (*Level) Set(string) error`: the descriptor reaches the renderer with the strategy
`Set`, the base name `Level` and the import path of the package. -/
theorem generate_probed_has_basename_witness :
    ∃ d, (generate asciiCase loadZapcore renderNothing writeOk levelState barePackage).data
        = some d ∧
      d.Fields.map (fun f => (f.Strategy, f.TypeBasename, f.TypeImportPath))
        = [(Strategy.Set, "Level", "go.uber.org/zap/zapcore")] ∧
      Forall₂ (fun f g =>
        (f.Strategy = Strategy.Unknown → f.TypeName ≠ "" →
          f.TypeName.data.getLast? ≠ some '.' →
          (g.Strategy = Strategy.Set ∨ g.Strategy = Strategy.Marshal ∨
            g.Strategy = Strategy.Scan ∨ g.Strategy = Strategy.Enumer) →
          g.TypeBasename ≠ "" ∧ g.TypeImportPath ≠ "") ∧
        (f.Strategy ≠ Strategy.Unknown →
          g.TypeBasename = f.TypeBasename ∧ g.TypeImportPath = f.TypeImportPath))
        levelState.fields d.Fields :=
  ⟨_, rfl, by decide,
    generate_probed_has_basename asciiCase loadZapcore renderNothing writeOk levelState
      barePackage _ rfl (by decide) (by decide)⟩

/-! ## C6: flag and environment names -/

theorem typeSwitch_names (vis : state) (name : String) (ty : Expr) (f g : Field)
    (h : typeSwitch vis name ty f = Except.ok g) :
    g.Name = f.Name ∧ g.FlagName = f.FlagName ∧ g.EnvName = f.EnvName := by
  cases ty with
  | ident n => simp only [typeSwitch, Except.ok.injEq] at h; subst h; exact ⟨rfl, rfl, rfl⟩
  | selector x s => simp only [typeSwitch, Except.ok.injEq] at h; subst h; exact ⟨rfl, rfl, rfl⟩
  | arrayType hasLen elt =>
    simp only [typeSwitch] at h
    split at h
    · simp at h
    · split at h <;> (simp only [Except.ok.injEq] at h; subst h; exact ⟨rfl, rfl, rfl⟩)
  | mapType k v => simp [typeSwitch] at h
  | other t => simp [typeSwitch] at h

theorem readType_names (vis : state) (name : String) (ty : Expr) (f g : Field)
    (h : readType vis name ty f = Except.ok g) :
    g.Name = f.Name ∧ g.FlagName = f.FlagName ∧ g.EnvName = f.EnvName := by
  unfold readType at h
  split at h
  · simp at h
  · next f2 hr =>
    split at h
    · simp at h
    · simp only [Except.ok.injEq] at h
      subst h
      exact typeSwitch_names vis name ty f _ hr

theorem describe_names (field : AstField) (f : Field) :
    (describe field f).Name = f.Name ∧ (describe field f).FlagName = f.FlagName ∧
      (describe field f).EnvName = f.EnvName := by
  unfold describe
  split <;> split <;> exact ⟨rfl, rfl, rfl⟩

theorem applyTag_names (cm : CaseMap) (vis : state) (field : AstField) (name : String)
    (f g : Field) (h : applyTag cm vis field.Tag f = Except.ok (some g))
    (hf : f.FlagName = toFlag cm name) (he : f.EnvName = toEnvName cm vis.envPrefix name) :
    g.Name = f.Name ∧ g.FlagName = toFlag cm (nameSource field name) ∧
      g.EnvName = toEnvName cm vis.envPrefix (nameSource field name) := by
  unfold applyTag at h
  unfold nameSource
  split at h
  · next hl => simp only [Except.ok.injEq, Option.some.injEq] at h; subst h; simp [hl, hf, he]
  · next hl => simp only [Except.ok.injEq, Option.some.injEq] at h; subst h; simp [hl, hf, he]
  · simp at h
  · next tags hl =>
    rw [hl]
    dsimp only
    split at h
    · next hg =>
      simp only [Except.ok.injEq, Option.some.injEq] at h; subst h; simp [hg, hf, he]
    · next tag hg =>
      rw [hg]
      dsimp only
      split at h
      · simp at h
      · simp only [Except.ok.injEq, Option.some.injEq] at h
        subst h
        by_cases h1 : tag.HasOption "marshal" <;> by_cases h2 : tag.HasOption "func" <;>
          by_cases h3 : tag.HasOption "enum" <;> by_cases h4 : tag.HasOption "set" <;>
          by_cases h5 : tag.HasOption "hidden" <;> by_cases h6 : tag.Name = "" <;>
          simp [h1, h2, h3, h4, h5, h6, hf, he]

/-- The names of a descriptor that the loop body of `Visit` appends. -/
theorem visitField_names (cm : CaseMap) (vis : state) (field : AstField) (g : Field)
    (h : visitField cm vis field = Except.ok (FieldStep.add g)) :
    ∃ name names, field.Names = name :: names ∧ g.Name = name ∧
      g.FlagName = toFlag cm (nameSource field name) ∧
      g.EnvName = toEnvName cm vis.envPrefix (nameSource field name) := by
  unfold visitField at h
  split at h
  · simp at h
  · next name names hn =>
    dsimp only at h
    split at h
    · simp at h
    · simp at h
    · next f1 h1 =>
      split at h
      · simp at h
      · next f2 h2 =>
        simp only [Except.ok.injEq, FieldStep.add.injEq] at h
        subst h
        obtain ⟨a1, a2, a3⟩ := applyTag_names cm vis field name _ f1 h1 rfl rfl
        obtain ⟨b1, b2, b3⟩ := readType_names _ _ _ _ _ h2
        obtain ⟨c1, c2, c3⟩ := describe_names field f2
        exact ⟨name, names, hn, by rw [c1, b1, a1], by rw [c2, b2, a2], by rw [c3, b3, a3]⟩

/-- Every descriptor held after the field loop was there before or was appended by the
loop body for one of the fields. -/
theorem visitFields_mem (cm : CaseMap) (vis r : state) (b : Bool) (fields : List AstField)
    (h : visitFields cm vis fields = Except.ok (r, b)) (g : Field) (hg : g ∈ r.fields) :
    g ∈ vis.fields ∨
      ∃ field ∈ fields, visitField cm vis field = Except.ok (FieldStep.add g) := by
  induction fields generalizing vis with
  | nil =>
    simp only [visitFields, Except.ok.injEq, Prod.mk.injEq] at h
    rw [← h.1] at hg
    exact Or.inl hg
  | cons field rest ih =>
    simp only [visitFields] at h
    split at h
    · simp at h
    · rcases ih vis h with h1 | ⟨fd, hfd, hv⟩
      · exact Or.inl h1
      · exact Or.inr ⟨fd, List.mem_cons_of_mem _ hfd, hv⟩
    · simp only [Except.ok.injEq, Prod.mk.injEq] at h
      rw [← h.1] at hg
      exact Or.inl hg
    · next f hf =>
      rcases ih _ h with h1 | ⟨fd, hfd, hv⟩
      · rcases List.mem_append.1 h1 with h1 | h1
        · exact Or.inl h1
        · rw [List.mem_singleton] at h1
          subst h1
          exact Or.inr ⟨field, List.mem_cons_self _ _, hf⟩
      · exact Or.inr ⟨fd, List.mem_cons_of_mem _ hfd,
          (visitField_congr cm _ _ fd rfl rfl).trans hv⟩

/-- C6: every descriptor that `Visit` produces from a record of the requested name has
the flag name `toFlag n` and the environment name `toEnvName envPrefix n`, where `n` is
the primary name of the field's `config` tag when that is not empty and the declared
name of the field otherwise. With an override the declared name plays no part, the
flag name is formed without the environment prefix, and a non-empty prefix `p` is put
in front: `toEnvName p n = p ++ "_" ++ toEnvName "" n`. -/
theorem visit_names (cm : CaseMap) (vis r : state) (b : Bool) (fields : List AstField)
    (h : Visit cm vis (Node.typeSpec vis.configStruct (some (TypeDecl.structType fields)))
      = Except.ok (r, b)) :
    (∀ g ∈ r.fields, ∃ field ∈ fields, ∃ name names, field.Names = name :: names ∧
      g.Name = name ∧
      g.FlagName = toFlag cm (nameSource field name) ∧
      g.EnvName = toEnvName cm vis.envPrefix (nameSource field name)) ∧
    (∀ (field : AstField) (tags : List Tag) (tag : Tag) (name : String),
      field.Tag = TagLit.parsed tags → getTag tags "config" = some tag → tag.Name ≠ "" →
      nameSource field name = tag.Name) ∧
    (∀ p n : String, p ≠ "" → toEnvName cm p n = p ++ "_" ++ toEnvName cm "" n) := by
  refine ⟨?_, ?_, ?_⟩
  · intro g hg
    simp only [Visit, ne_eq, not_true_eq_false, ↓reduceIte] at h
    rcases visitFields_mem cm _ r b fields h g hg with h1 | ⟨field, hf, hv⟩
    · simp at h1
    · obtain ⟨name, names, hn, h2, h3, h4⟩ := visitField_names cm _ field g hv
      exact ⟨field, hf, name, names, hn, h2, h3, h4⟩
  · intro field tags tag name ht hg hne
    simp [nameSource, ht, hg, hne]
  · intro p n hp
    simp [toEnvName, hp]

/-- C6, witness: `Basics` read with the prefix `APP`, and the field
``Timeout time.Duration `config:"deadline,hidden"` `` read without prefix. -/
theorem visit_names_witness :
    (∀ g ∈ basicsAppState.fields,
      ∃ field ∈ basicsRecord, ∃ name names, field.Names = name :: names ∧
        g.Name = name ∧
        g.FlagName = toFlag asciiCase (nameSource field name) ∧
        g.EnvName = toEnvName asciiCase "APP" (nameSource field name)) ∧
    basicsAppState.fields.map (fun f => (f.FlagName, f.EnvName))
      = [("listen", "APP_LISTEN"), ("file-count", "APP_FILE_COUNT"), ("files", "APP_FILES"),
         ("ip", "APP_IP")] ∧
    (Visit asciiCase { configStruct := "Config" }
        (Node.typeSpec "Config" (some (TypeDecl.structType [timeoutField])))).toOption.map
      (fun r => r.1.fields.map (fun f => (f.Name, f.FlagName, f.EnvName, f.Hidden)))
      = some [("Timeout", "deadline", "DEADLINE", true)] :=
  ⟨(visit_names asciiCase { configStruct := "Basics", envPrefix := "APP" }
      basicsAppState true basicsRecord (by rfl)).1, by decide, by decide⟩

/-! ## Runes -/

theorem ascii_cases (P : Char → Prop) (h : ∀ n : Fin 128, P (Char.ofNat n)) (c : Char)
    (hc : c.toNat < 128) : P c := by
  have := h ⟨c.toNat, hc⟩
  simpa [Char.ofNat_toNat] using this

theorem char_val_le (c : Char) (k : Nat) (hk : k < 4294967296) :
    (c.val ≤ UInt32.ofNat k) ↔ c.toNat ≤ k := by
  rw [UInt32.le_def]
  simp only [Char.toNat, UInt32.toNat]
  constructor
  · intro h
    have := Fin.le_def.1 h
    simpa [UInt32.ofNat, Nat.mod_eq_of_lt hk] using this
  · intro h
    apply Fin.le_def.2
    simpa [UInt32.ofNat, Nat.mod_eq_of_lt hk] using h

/-- Outside ASCII a rune is no ASCII letter or digit, and the ASCII case mappings leave
it alone. -/
theorem char_high (c : Char) (hc : ¬ c.toNat < 128) :
    c.toLower = c ∧ c.toUpper = c ∧ c.isUpper = false ∧ c.isLower = false ∧
      c.isDigit = false := by
  have h1 : 128 ≤ c.toNat := Nat.le_of_not_lt hc
  refine ⟨?_, ?_, ?_, ?_, ?_⟩
  · unfold Char.toLower
    have : ¬ (c.toNat ≥ 65 ∧ c.toNat ≤ 90) := by omega
    simp only [this, if_false]
  · unfold Char.toUpper
    have : ¬ (c.toNat ≥ 97 ∧ c.toNat ≤ 122) := by omega
    simp only [this, if_false]
  · unfold Char.isUpper
    have : ¬ (c.val ≤ 90) := fun h2 => by
      have := (char_val_le c 90 (by decide)).1 h2
      omega
    simp [this]
  · unfold Char.isLower
    have : ¬ (c.val ≤ 122) := fun h2 => by
      have := (char_val_le c 122 (by decide)).1 h2
      omega
    simp [this]
  · unfold Char.isDigit
    have : ¬ (c.val ≤ 57) := fun h2 => by
      have := (char_val_le c 57 (by decide)).1 h2
      omega
    simp [this]

theorem isUpper_ascii (c : Char) (h : c.isUpper = true) : c.toNat < 128 := by
  by_contra hc
  rw [(char_high c hc).2.2.1] at h
  exact absurd h (by decide)

theorem isLower_ascii (c : Char) (h : c.isLower = true) : c.toNat < 128 := by
  by_contra hc
  rw [(char_high c hc).2.2.2.1] at h
  exact absurd h (by decide)

/-- A property of runes that holds on ASCII by evaluation and outside ASCII whenever
the rune is no letter or digit and is fixed by both case mappings. -/
theorem char_cases (P : Char → Prop) (h : ∀ n : Fin 128, P (Char.ofNat n))
    (hhigh : ∀ c : Char, c.toLower = c → c.toUpper = c → c.isUpper = false →
      c.isLower = false → c.isDigit = false → P c) (c : Char) : P c := by
  by_cases hc : c.toNat < 128
  · exact ascii_cases P h c hc
  · obtain ⟨h1, h2, h3, h4, h5⟩ := char_high c hc
    exact hhigh c h1 h2 h3 h4 h5

theorem toLower_not_upper (c : Char) : c.toLower.isUpper = false :=
  char_cases (fun c => c.toLower.isUpper = false) (by decide)
    (fun c h1 _ h3 _ _ => by simp only [h1, h3]) c

theorem toUpper_not_lower (c : Char) : c.toUpper.isLower = false :=
  char_cases (fun c => c.toUpper.isLower = false) (by decide)
    (fun c _ h2 _ h4 _ => by simp only [h2, h4]) c

theorem toLower_toLower (c : Char) : c.toLower.toLower = c.toLower :=
  char_cases (fun c => c.toLower.toLower = c.toLower) (by decide)
    (fun c h1 _ _ _ _ => by simp only [h1]) c

set_option maxRecDepth 100000 in
theorem toUpper_toLower_idem (c : Char) :
    c.toLower.toUpper.toLower.toUpper = c.toLower.toUpper :=
  char_cases (fun c => c.toLower.toUpper.toLower.toUpper = c.toLower.toUpper) (by decide)
    (fun c h1 h2 _ _ _ => by simp only [h1, h2]) c

/-- The ASCII case mapping has the properties asked of the case tables. -/
theorem asciiCase_lawful : asciiCase.Lawful where
  lower_ascii := fun _ _ => rfl
  upper_ascii := fun _ _ => rfl
  lower_not_upper := toLower_not_upper
  upper_not_lower := toUpper_not_lower
  lower_lower := toLower_toLower
  upper_lower_idem := toUpper_toLower_idem

theorem isLower_facts (c : Char) (h : c.isLower = true) :
    c.isUpper = false ∧ c.isDigit = false ∧ (c != '\n') = true ∧ c ≠ '_' ∧
      c.toLower = c ∧ c.toUpper.toLower = c ∧ c.toLower.isLower = true ∧
      c.toUpper.isUpper = true ∧ c.toNat < 128 := by
  have hc := isLower_ascii c h
  revert h
  exact ascii_cases (fun c => c.isLower = true →
    c.isUpper = false ∧ c.isDigit = false ∧ (c != '\n') = true ∧ c ≠ '_' ∧
      c.toLower = c ∧ c.toUpper.toLower = c ∧ c.toLower.isLower = true ∧
      c.toUpper.isUpper = true ∧ c.toNat < 128) (by decide) c hc

theorem isUpper_facts (c : Char) (h : c.isUpper = true) :
    c.isLower = false ∧ c.isDigit = false ∧ (c != '\n') = true ∧ c ≠ '_' ∧
      c.toUpper = c ∧ c.toLower.toUpper = c ∧ c.toLower.isLower = true ∧
      c.toLower ≠ '_' ∧ c.toNat < 128 := by
  have hc := isUpper_ascii c h
  revert h
  exact ascii_cases (fun c => c.isUpper = true →
    c.isLower = false ∧ c.isDigit = false ∧ (c != '\n') = true ∧ c ≠ '_' ∧
      c.toUpper = c ∧ c.toLower.toUpper = c ∧ c.toLower.isLower = true ∧
      c.toLower ≠ '_' ∧ c.toNat < 128) (by decide) c hc

/-! ## C8, C9: applying the name transformer twice -/

theorem capLowerAhead_no_upper (s : List Char) (h : ∀ c ∈ s, c.isUpper = false) :
    capLowerAhead s = false := by
  match s with
  | [] => rfl
  | [_] => rfl
  | u :: l :: rest => simp [capLowerAhead, h u (List.mem_cons_self _ _)]

theorem capLowerAhead_no_lower (s : List Char) (h : ∀ c ∈ s, c.isLower = false) :
    capLowerAhead s = false := by
  match s with
  | [] => rfl
  | [_] => rfl
  | u :: l :: rest =>
    simp [capLowerAhead, h l (List.mem_cons_of_mem _ (List.mem_cons_self _ _))]

/-- Without an ASCII capital in the text `matchFirstCap` finds no match. -/
theorem matchFirstCapGo_no_upper (s : List Char) (h : ∀ c ∈ s, c.isUpper = false)
    (m : Mode) : matchFirstCapGo m s = s := by
  induction s generalizing m with
  | nil => cases m <;> rfl
  | cons c rest ih =>
    have hr : ∀ c ∈ rest, c.isUpper = false := fun c hc => h c (List.mem_cons_of_mem _ hc)
    have ha := capLowerAhead_no_upper rest hr
    cases m with
    | scan => simp [matchFirstCapGo, ha, ih hr]
    | cap => simp [matchFirstCapGo, ih hr]
    | run => simp [matchFirstCapGo, ha, ih hr]

/-- Without an ASCII lower-case letter in the text `matchFirstCap` finds no match. -/
theorem matchFirstCapGo_no_lower (s : List Char) (h : ∀ c ∈ s, c.isLower = false)
    (m : Mode) : matchFirstCapGo m s = s := by
  induction s generalizing m with
  | nil => cases m <;> rfl
  | cons c rest ih =>
    have hr : ∀ c ∈ rest, c.isLower = false := fun c hc => h c (List.mem_cons_of_mem _ hc)
    have ha := capLowerAhead_no_lower rest hr
    cases m with
    | scan => simp [matchFirstCapGo, ha, ih hr]
    | cap => simp [matchFirstCapGo, ih hr]
    | run => simp [matchFirstCapGo, ha, ih hr]

/-- Without an ASCII capital in the text `matchAllCap` finds no match. -/
theorem matchAllCapReplace_no_upper (s : List Char) (h : ∀ c ∈ s, c.isUpper = false) :
    matchAllCapReplace s = s := by
  induction s with
  | nil => rfl
  | cons a rest ih =>
    cases rest with
    | nil => rfl
    | cons b rest2 =>
      have hb : b.isUpper = false := h b (List.mem_cons_of_mem _ (List.mem_cons_self _ _))
      have hr := ih (fun c hc => h c (List.mem_cons_of_mem _ hc))
      simp [matchAllCapReplace, hb, hr]

/-- Without ASCII lower-case letters, `matchAllCap` leaves the text alone exactly when
no digit stands before a capital. -/
theorem matchAllCapReplace_no_lower (s : List Char) (h : ∀ c ∈ s, c.isLower = false) :
    matchAllCapReplace s = s ↔ digitBeforeCapital s = false := by
  induction s with
  | nil => simp [matchAllCapReplace, digitBeforeCapital]
  | cons a rest ih =>
    cases rest with
    | nil => simp [matchAllCapReplace, digitBeforeCapital]
    | cons b rest2 =>
      have ha : a.isLower = false := h a (List.mem_cons_self _ _)
      have hr := ih (fun c hc => h c (List.mem_cons_of_mem _ hc))
      by_cases hm : (a.isDigit && b.isUpper) = true
      · have hb : b.isUpper = true := by simp at hm; exact hm.2
        have hne : b ≠ '_' := (isUpper_facts b hb).2.2.2.1
        simp only [matchAllCapReplace, digitBeforeCapital, ha, Bool.false_or, hm, ↓reduceIte,
          Bool.true_or, List.cons.injEq, true_and]
        constructor
        · intro h2; exact absurd h2.1.symm hne
        · intro h2; exact absurd h2 (by decide)
      · have hm2 : (a.isDigit && b.isUpper) = false := by simpa using hm
        simp only [matchAllCapReplace, digitBeforeCapital, ha, Bool.false_or, hm2,
          Bool.false_eq_true, ↓reduceIte, List.cons.injEq, true_and]
        exact hr

theorem toSnakeCase_data_no_upper (cm : CaseMap) (hcm : cm.Lawful) (s : String) :
    ∀ c ∈ (toSnakeCase cm s).data, c.isUpper = false := by
  intro c hc
  simp only [toSnakeCase, List.mem_map] at hc
  obtain ⟨a, _, rfl⟩ := hc
  exact hcm.lower_not_upper a

theorem toSnakeCase_of_no_upper (cm : CaseMap) (t : String)
    (h : ∀ c ∈ t.data, c.isUpper = false) : toSnakeCase cm t = ⟨t.data.map cm.lower⟩ := by
  simp only [toSnakeCase, matchFirstCapReplace]
  rw [matchFirstCapGo_no_upper _ h, matchAllCapReplace_no_upper _ h]

/-- C8: the snake-case form and the flag form are idempotent, for case tables with the
properties of `CaseMap.Lawful`: `toSnakeCase (toSnakeCase s) = toSnakeCase s` and
`toFlag (toFlag s) = toFlag s` for every string `s`. -/
theorem toSnakeCase_toFlag_idempotent (cm : CaseMap) (hcm : cm.Lawful) (s : String) :
    toSnakeCase cm (toSnakeCase cm s) = toSnakeCase cm s ∧
    toFlag cm (toFlag cm s) = toFlag cm s := by
  have hdash : cm.lower '-' = '-' := by rw [hcm.lower_ascii '-' (by decide)]; rfl
  constructor
  · rw [toSnakeCase_of_no_upper cm _ (toSnakeCase_data_no_upper cm hcm s)]
    simp only [toSnakeCase, List.map_map]
    congr 1
    apply List.map_congr_left
    intro a _
    exact hcm.lower_lower a
  · have h1 : ∀ c ∈ (toFlag cm s).data, c.isUpper = false := by
      intro c hc
      simp only [toFlag, toSnakeCase, List.mem_map] at hc
      obtain ⟨a, ⟨b, _, rfl⟩, rfl⟩ := hc
      split
      · decide
      · exact hcm.lower_not_upper b
    have h2 := toSnakeCase_of_no_upper cm _ h1
    have h3 : toFlag cm (toFlag cm s)
        = ⟨(toSnakeCase cm (toFlag cm s)).data.map (fun c => if c = '_' then '-' else c)⟩ := rfl
    rw [h3, h2]
    simp only [toFlag, toSnakeCase, List.map_map]
    congr 1
    apply List.map_congr_left
    intro a _
    simp only [Function.comp_apply]
    by_cases h : cm.lower a = '_'
    · simp [h, hdash]
    · simp [h, hcm.lower_lower a]

/-- C8, witness: the ASCII case mapping and the name `FileCount`. -/
theorem toSnakeCase_toFlag_idempotent_witness :
    toSnakeCase asciiCase (toSnakeCase asciiCase "FileCount") = toSnakeCase asciiCase "FileCount" ∧
    toFlag asciiCase (toFlag asciiCase "FileCount") = toFlag asciiCase "FileCount" :=
  toSnakeCase_toFlag_idempotent asciiCase asciiCase_lawful "FileCount"

theorem matchAllCapReplace_length (s : List Char) :
    s.length ≤ (matchAllCapReplace s).length := by
  induction s using matchAllCapReplace.induct with
  | case1 a b rest h ih =>
    rw [matchAllCapReplace, if_pos h]; simp only [List.length_cons]; omega
  | case2 a b rest h ih =>
    rw [matchAllCapReplace, if_neg h]; simp only [List.length_cons] at ih ⊢; omega
  | case3 s h =>
    match s with
    | [] => simp [matchAllCapReplace]
    | [a] => simp [matchAllCapReplace]
    | a :: b :: rest => exact absurd rfl (h a b rest)

theorem matchAllCapReplace_of_length (s : List Char)
    (h : (matchAllCapReplace s).length = s.length) : matchAllCapReplace s = s := by
  induction s using matchAllCapReplace.induct with
  | case1 a b rest hm ih =>
    rw [matchAllCapReplace, if_pos hm] at h
    have := matchAllCapReplace_length rest
    simp only [List.length_cons] at h
    omega
  | case2 a b rest hm ih =>
    rw [matchAllCapReplace, if_neg hm] at h ⊢
    simp only [List.length_cons, Nat.add_right_cancel_iff] at h
    rw [ih (by simpa using h)]
  | case3 s h2 =>
    match s with
    | [] => simp [matchAllCapReplace]
    | [a] => simp [matchAllCapReplace]
    | a :: b :: rest => exact absurd rfl (h2 a b rest)

theorem toEnvName_data_no_lower (cm : CaseMap) (hcm : cm.Lawful) (s : String) :
    ∀ c ∈ (toEnvName cm "" s).data, c.isLower = false := by
  intro c hc
  simp only [toEnvName, ↓reduceIte, List.mem_map] at hc
  obtain ⟨a, _, rfl⟩ := hc
  exact hcm.upper_not_lower a

theorem toEnvName_of_no_lower (cm : CaseMap) (t : String)
    (h : ∀ c ∈ t.data, c.isLower = false) :
    toEnvName cm "" t
      = ⟨(matchAllCapReplace t.data).map (fun c => cm.upper (cm.lower c))⟩ := by
  simp only [toEnvName, ↓reduceIte, toSnakeCase, matchFirstCapReplace, List.map_map]
  rw [matchFirstCapGo_no_lower _ h]
  rfl

/-- C9, counterexample: the environment form of `a1b` is `A1B`, and the environment
form of `A1B` is `A1_B`: the second regular expression finds the digit before the
capital that the first application has made. -/
theorem toEnvName_not_idempotent :
    toEnvName asciiCase "" "a1b" = "A1B" ∧
    toEnvName asciiCase "" (toEnvName asciiCase "" "a1b") = "A1_B" ∧
    toEnvName asciiCase "" (toEnvName asciiCase "" "a1b") ≠ toEnvName asciiCase "" "a1b" := by
  decide

/-- C9, amended: re-deriving the environment name from an unprefixed environment name
changes nothing exactly when that name holds no ASCII digit with an ASCII capital right
after it (for case tables with the properties of `CaseMap.Lawful`); when it holds one,
the second application puts an underscore between the two. -/
theorem toEnvName_idempotent_iff (cm : CaseMap) (hcm : cm.Lawful) (s : String) :
    toEnvName cm "" (toEnvName cm "" s) = toEnvName cm "" s ↔
      digitBeforeCapital (toEnvName cm "" s).data = false := by
  have hnl := toEnvName_data_no_lower cm hcm s
  have hform := toEnvName_of_no_lower cm _ hnl
  have hfix : (toEnvName cm "" s).data.map (fun c => cm.upper (cm.lower c))
      = (toEnvName cm "" s).data := by
    simp only [toEnvName, ↓reduceIte, toSnakeCase, List.map_map]
    apply List.map_congr_left
    intro a _
    exact hcm.upper_lower_idem a
  rw [hform, ← matchAllCapReplace_no_lower _ hnl]
  constructor
  · intro h
    apply matchAllCapReplace_of_length
    have := congrArg (fun t : String => t.data.length) h
    simpa using this
  · intro h
    rw [h, hfix]

/-- C9, witness: the ASCII case mapping and the name `FileCount`, whose environment
form `FILE_COUNT` holds no digit. -/
theorem toEnvName_idempotent_iff_witness :
    toEnvName asciiCase "" (toEnvName asciiCase "" "FileCount")
      = toEnvName asciiCase "" "FileCount" :=
  (toEnvName_idempotent_iff asciiCase asciiCase_lawful "FileCount").2 (by decide)

/-! ## C7: names made of capitalised words -/

theorem isWord_iff (w : List Char) (h : isWord w = true) :
    ∃ c l ls, w = c :: l :: ls ∧ c.isUpper = true ∧ l.isLower = true ∧
      ∀ x ∈ ls, x.isLower = true := by
  match w, h with
  | c :: l :: ls, h =>
    simp only [isWord, Bool.and_eq_true, List.all_eq_true] at h
    exact ⟨c, l, ls, rfl, h.1.1, h.1.2, h.2⟩

theorem matchFirstCapGo_scan_cons (c : Char) (rest : List Char) :
    matchFirstCapGo Mode.scan (c :: rest)
      = if c != '\n' && capLowerAhead rest then c :: '_' :: matchFirstCapGo Mode.cap rest
        else c :: matchFirstCapGo Mode.scan rest := by
  rw [matchFirstCapGo]

theorem matchFirstCapGo_run_cons (c : Char) (rest : List Char) :
    matchFirstCapGo Mode.run (c :: rest)
      = if c.isLower then c :: matchFirstCapGo Mode.run rest
        else if c != '\n' && capLowerAhead rest then
          c :: '_' :: matchFirstCapGo Mode.cap rest
        else c :: matchFirstCapGo Mode.scan rest := by
  rw [matchFirstCapGo]

theorem matchFirstCapGo_cap_cons (c : Char) (rest : List Char) :
    matchFirstCapGo Mode.cap (c :: rest) = c :: matchFirstCapGo Mode.run rest := by
  rw [matchFirstCapGo]

theorem capLowerAhead_cons_not_upper (l : Char) (rest : List Char) (h : l.isUpper = false) :
    capLowerAhead (l :: rest) = false := by
  cases rest <;> simp [capLowerAhead, h]

/-- Inside the lower-case run of a match the scan copies lower-case letters. -/
theorem matchFirstCapGo_run_lower (ls rest : List Char) (h : ∀ x ∈ ls, x.isLower = true) :
    matchFirstCapGo Mode.run (ls ++ rest) = ls ++ matchFirstCapGo Mode.run rest := by
  induction ls with
  | nil => rfl
  | cons l ls ih =>
    have hl := h l (List.mem_cons_self _ _)
    rw [List.cons_append, matchFirstCapGo_run_cons, if_pos hl,
      ih (fun x hx => h x (List.mem_cons_of_mem _ hx)), List.cons_append]

/-- The scan over lower-case letters: a match can only start at the last of them. -/
theorem matchFirstCapGo_scan_lower (l : Char) (ls rest : List Char) (hl : l.isLower = true)
    (h : ∀ x ∈ ls, x.isLower = true) :
    matchFirstCapGo Mode.scan (l :: ls ++ rest)
      = (l :: ls) ++ (if capLowerAhead rest then '_' :: matchFirstCapGo Mode.cap rest
          else matchFirstCapGo Mode.scan rest) := by
  induction ls generalizing l with
  | nil =>
    have hn := (isLower_facts l hl).2.2.1
    rw [List.cons_append, List.nil_append, matchFirstCapGo_scan_cons, hn, Bool.true_and]
    split <;> rfl
  | cons l2 ls ih =>
    have hl2 := h l2 (List.mem_cons_self _ _)
    have hu : l2.isUpper = false := (isLower_facts l2 hl2).1
    have hc : capLowerAhead (l2 :: ls ++ rest) = false := capLowerAhead_cons_not_upper _ _ hu
    rw [List.cons_append, matchFirstCapGo_scan_cons, hc, Bool.and_false,
      ih l2 hl2 (fun x hx => h x (List.mem_cons_of_mem _ hx))]
    rfl

theorem capLowerAhead_word (w rest : List Char) (h : isWord w = true) :
    capLowerAhead (w ++ rest) = true := by
  obtain ⟨c, l, ls, rfl, hc, hl, _⟩ := isWord_iff w h
  simp [capLowerAhead, hc, hl]

/-- The scan over a word, from outside a match or from the end of a lower-case run. -/
theorem matchFirstCapGo_word (w rest : List Char) (h : isWord w = true) (m : Mode)
    (hm : m ≠ Mode.cap) :
    matchFirstCapGo m (w ++ rest)
      = w ++ (if capLowerAhead rest then '_' :: matchFirstCapGo Mode.cap rest
          else matchFirstCapGo Mode.scan rest) := by
  obtain ⟨c, l, ls, rfl, hc, hl, hls⟩ := isWord_iff w h
  have hu : l.isUpper = false := (isLower_facts l hl).1
  have hcl : c.isLower = false := (isUpper_facts c hc).1
  have ha : capLowerAhead (l :: ls ++ rest) = false := capLowerAhead_cons_not_upper _ _ hu
  have hs := matchFirstCapGo_scan_lower l ls rest hl hls
  cases m with
  | cap => exact absurd rfl hm
  | scan =>
    rw [List.cons_append, matchFirstCapGo_scan_cons, ha, Bool.and_false, hs]
    rfl
  | run =>
    rw [List.cons_append, matchFirstCapGo_run_cons, hcl, ha, Bool.and_false, hs]
    rfl

/-- The scan over a word that is group 2 of a match. -/
theorem matchFirstCapGo_cap_word (w rest : List Char) (h : isWord w = true) :
    matchFirstCapGo Mode.cap (w ++ rest) = w ++ matchFirstCapGo Mode.run rest := by
  obtain ⟨c, l, ls, rfl, hc, hl, hls⟩ := isWord_iff w h
  have := matchFirstCapGo_run_lower (l :: ls) rest (by
    intro x hx
    rcases List.mem_cons.1 hx with rfl | hx
    · exact hl
    · exact hls x hx)
  rw [List.cons_append, matchFirstCapGo_cap_cons, this]
  rfl

/-- The first replacement on a sequence of words puts an underscore before every
second word. -/
theorem matchFirstCapGo_words (ws : List (List Char)) (h : ∀ w ∈ ws, isWord w = true) :
    (∀ m, m ≠ Mode.cap → matchFirstCapGo m ws.flatten = glue (alternate false ws)) ∧
    (ws ≠ [] → '_' :: matchFirstCapGo Mode.cap ws.flatten = glue (alternate true ws)) := by
  induction ws with
  | nil =>
    refine ⟨?_, fun h => absurd rfl h⟩
    intro m _
    cases m <;> rfl
  | cons w ws ih =>
    have hw := h w (List.mem_cons_self _ _)
    obtain ⟨ih1, ih2⟩ := ih (fun x hx => h x (List.mem_cons_of_mem _ hx))
    refine ⟨?_, ?_⟩
    · intro m hm
      rw [List.flatten_cons, matchFirstCapGo_word w _ hw m hm]
      cases ws with
      | nil => simp [capLowerAhead, matchFirstCapGo, alternate, glue]
      | cons w2 ws2 =>
        have hw2 := h w2 (List.mem_cons_of_mem _ (List.mem_cons_self _ _))
        rw [List.flatten_cons, capLowerAhead_word w2 _ hw2]
        have := ih2 (by simp)
        rw [List.flatten_cons] at this
        simp only [↓reduceIte, this, alternate, glue, Bool.not_false, Bool.false_eq_true]
    · intro _
      rw [List.flatten_cons, matchFirstCapGo_cap_word w _ hw, ih1 Mode.run (by decide)]
      simp [alternate, glue]


theorem matchAllCapReplace_cons_cons (a b : Char) (rest : List Char) :
    matchAllCapReplace (a :: b :: rest)
      = if (a.isLower || a.isDigit) && b.isUpper then a :: '_' :: b :: matchAllCapReplace rest
        else a :: matchAllCapReplace (b :: rest) := by
  rw [matchAllCapReplace]

/-- The second replacement over lower-case letters at the end of the text. -/
theorem matchAllCapReplace_lower_nil (l : Char) (ls : List Char) (hl : l.isLower = true)
    (h : ∀ x ∈ ls, x.isLower = true) : matchAllCapReplace (l :: ls) = l :: ls := by
  apply matchAllCapReplace_no_upper
  intro c hc
  rcases List.mem_cons.1 hc with rfl | hc
  · exact (isLower_facts _ hl).1
  · exact (isLower_facts c (h c hc)).1

/-- The second replacement over lower-case letters: a match can only start at the last
of them, when a capital follows. -/
theorem matchAllCapReplace_lower (l : Char) (ls : List Char) (b : Char) (r : List Char)
    (hl : l.isLower = true) (h : ∀ x ∈ ls, x.isLower = true) :
    matchAllCapReplace (l :: ls ++ b :: r)
      = (l :: ls) ++ (if b.isUpper then '_' :: b :: matchAllCapReplace r
          else matchAllCapReplace (b :: r)) := by
  induction ls generalizing l with
  | nil =>
    rw [List.cons_append, List.nil_append, matchAllCapReplace_cons_cons, hl, Bool.true_or,
      Bool.true_and]
    by_cases hb : b.isUpper = true <;> simp [hb]
  | cons l2 ls ih =>
    have hl2 := h l2 (List.mem_cons_self _ _)
    have hu : l2.isUpper = false := (isLower_facts l2 hl2).1
    rw [List.cons_append, List.cons_append, matchAllCapReplace_cons_cons, hu, Bool.and_false,
      if_neg (by decide), ← List.cons_append,
      ih l2 hl2 (fun x hx => h x (List.mem_cons_of_mem _ hx))]
    rfl

/-- The second replacement puts an underscore before every word that has none. -/
theorem matchAllCapReplace_glue (fs : List (Bool × List Char))
    (h : ∀ p ∈ fs, isWord p.2 = true) (l : Char) (ls : List Char) (hl : l.isLower = true)
    (hls : ∀ x ∈ ls, x.isLower = true) :
    matchAllCapReplace (l :: ls ++ glue fs)
      = (l :: ls) ++ glue (fs.map (fun p => (true, p.2))) := by
  induction fs generalizing l ls with
  | nil =>
    simp only [glue, List.append_nil, List.map_nil]
    exact matchAllCapReplace_lower_nil l ls hl hls
  | cons p fs ih =>
    obtain ⟨b, w⟩ := p
    obtain ⟨c, l2, ls2, rfl, hc, hl2, hls2⟩ := isWord_iff w (h (b, w) (List.mem_cons_self _ _))
    have hfs : ∀ p ∈ fs, isWord p.2 = true := fun p hp => h p (List.mem_cons_of_mem _ hp)
    have hcf := isUpper_facts c hc
    have step := ih hfs l2 ls2 hl2 hls2
    have hword : matchAllCapReplace (c :: (l2 :: ls2 ++ glue fs))
        = c :: ((l2 :: ls2) ++ glue (fs.map (fun p => (true, p.2)))) := by
      rw [List.cons_append, matchAllCapReplace_cons_cons, hcf.1, hcf.2.1, Bool.or_false,
        Bool.false_and, if_neg (by decide), ← List.cons_append, step]
    cases b with
    | true =>
      have e : l :: ls ++ glue ((true, c :: l2 :: ls2) :: fs)
          = l :: ls ++ '_' :: (c :: (l2 :: ls2 ++ glue fs)) := by simp [glue]
      rw [e, matchAllCapReplace_lower l ls '_' _ hl hls, if_neg (by decide),
        matchAllCapReplace_cons_cons, if_neg (by simp), hword]
      simp [glue]
    | false =>
      have e : l :: ls ++ glue ((false, c :: l2 :: ls2) :: fs)
          = l :: ls ++ c :: (l2 :: ls2 ++ glue fs) := by simp [glue]
      rw [e, matchAllCapReplace_lower l ls c _ hl hls, if_pos hc, step]
      simp [glue]

theorem alternate_words (b : Bool) (ws : List (List Char)) (hw : ∀ w ∈ ws, isWord w = true) :
    ∀ p ∈ alternate b ws, isWord p.2 = true := by
  induction ws generalizing b with
  | nil => intro p hp; simp [alternate] at hp
  | cons w ws ih =>
    intro p hp
    simp only [alternate, List.mem_cons] at hp
    rcases hp with rfl | hp
    · exact hw w (List.mem_cons_self _ _)
    · exact ih _ (fun x hx => hw x (List.mem_cons_of_mem _ hx)) p hp

theorem glue_map_true_alternate (b : Bool) (ws : List (List Char)) :
    glue ((alternate b ws).map (fun p => (true, p.2)))
      = (ws.map (fun w => '_' :: w)).flatten := by
  induction ws generalizing b with
  | nil => rfl
  | cons w ws ih => simp [alternate, glue, ih]

theorem intercalate_cons (sep : Char) (w : List Char) (ws : List (List Char)) :
    List.intercalate [sep] (w :: ws) = w ++ (ws.map (fun w => sep :: w)).flatten := by
  induction ws generalizing w with
  | nil => simp [List.intercalate]
  | cons w2 ws ih =>
    have := ih w2
    simp only [List.intercalate, List.intersperse_cons_cons, List.flatten_cons,
      List.map_cons] at this ⊢
    rw [this]
    simp

/-- Both replacements on a sequence of words: the words joined by underscores. -/
theorem replace_words (ws : List (List Char)) (h : ∀ w ∈ ws, isWord w = true) :
    matchAllCapReplace (matchFirstCapReplace ws.flatten) = List.intercalate ['_'] ws := by
  cases ws with
  | nil => rfl
  | cons w ws =>
    rw [matchFirstCapReplace, (matchFirstCapGo_words (w :: ws) h).1 Mode.scan (by decide),
      intercalate_cons]
    obtain ⟨c, l, ls, rfl, hc, hl, hls⟩ := isWord_iff w (h _ (List.mem_cons_self _ _))
    have hcf := isUpper_facts c hc
    have hws := alternate_words true ws (fun x hx => h x (List.mem_cons_of_mem _ hx))
    have e : glue (alternate false ((c :: l :: ls) :: ws))
        = c :: (l :: ls ++ glue (alternate true ws)) := by simp [alternate, glue]
    rw [e, List.cons_append, matchAllCapReplace_cons_cons, hcf.1, hcf.2.1, Bool.or_false,
      Bool.false_and, if_neg (by decide), ← List.cons_append,
      matchAllCapReplace_glue _ hws l ls hl hls, glue_map_true_alternate]
    rfl

theorem map_intercalate (g : Char → Char) (sep : Char) (ws : List (List Char)) :
    (List.intercalate [sep] ws).map g = List.intercalate [g sep] (ws.map (List.map g)) := by
  cases ws with
  | nil => rfl
  | cons w ws =>
    rw [List.map_cons, intercalate_cons, intercalate_cons]
    simp only [List.map_append, List.map_flatten, List.map_map]
    congr 2


theorem word_letters (w : List Char) (h : isWord w = true) :
    ∀ c ∈ w, c.isUpper = true ∨ c.isLower = true := by
  obtain ⟨c, l, ls, rfl, hc, hl, hls⟩ := isWord_iff w h
  intro x hx
  rcases List.mem_cons.1 hx with rfl | hx
  · exact Or.inl hc
  · rcases List.mem_cons.1 hx with rfl | hx
    · exact Or.inr hl
    · exact Or.inr (hls x hx)

/-- What the case mappings and the replacement of `_` by `-` do to an ASCII letter. -/
theorem letter_facts (cm : CaseMap) (hcm : cm.Lawful) (c : Char)
    (h : c.isUpper = true ∨ c.isLower = true) :
    cm.lower c = c.toLower ∧ c.toLower ≠ '_' ∧ cm.upper c.toLower = c.toUpper := by
  rcases h with h | h
  · obtain ⟨_, _, _, _, h5, h6, h7, h8, h9⟩ := isUpper_facts c h
    refine ⟨hcm.lower_ascii c h9, h8, ?_⟩
    rw [hcm.upper_ascii _ (isLower_ascii _ h7), h6, h5]
  · obtain ⟨_, _, _, h4, h5, _, _, _, h9⟩ := isLower_facts c h
    refine ⟨hcm.lower_ascii c h9, by rw [h5]; exact h4, ?_⟩
    rw [h5, hcm.upper_ascii c h9]

/-- C7: for a sequence of words, each an ASCII capital followed by one or more ASCII
lower-case letters, and case tables with the properties of `CaseMap.Lawful`, the name
made of the words written one after the other has as snake-case form the lower-cased
words joined by `_`, as flag form the lower-cased words joined by `-`, and as
environment form without prefix the upper-cased words joined by `_`. -/
theorem name_forms_of_words (cm : CaseMap) (hcm : cm.Lawful) (ws : List (List Char))
    (hw : ∀ w ∈ ws, isWord w = true) :
    toSnakeCase cm ⟨ws.flatten⟩ = ⟨List.intercalate ['_'] (ws.map (List.map Char.toLower))⟩ ∧
    toFlag cm ⟨ws.flatten⟩ = ⟨List.intercalate ['-'] (ws.map (List.map Char.toLower))⟩ ∧
    toEnvName cm "" ⟨ws.flatten⟩
      = ⟨List.intercalate ['_'] (ws.map (List.map Char.toUpper))⟩ := by
  have hl_ : cm.lower '_' = '_' := by rw [hcm.lower_ascii '_' (by decide)]; rfl
  have hu_ : cm.upper '_' = '_' := by rw [hcm.upper_ascii '_' (by decide)]; rfl
  have hsnake : toSnakeCase cm ⟨ws.flatten⟩
      = ⟨List.intercalate ['_'] (ws.map (List.map Char.toLower))⟩ := by
    simp only [toSnakeCase]
    rw [replace_words ws hw, map_intercalate, hl_]
    congr 2
    apply List.map_congr_left
    intro w hwm
    apply List.map_congr_left
    intro c hc
    exact (letter_facts cm hcm c (word_letters w (hw w hwm) c hc)).1
  refine ⟨hsnake, ?_, ?_⟩
  · simp only [toFlag]
    rw [hsnake, map_intercalate, List.map_map]
    simp only [↓reduceIte]
    congr 2
    apply List.map_congr_left
    intro w hwm
    simp only [Function.comp_apply, List.map_map]
    apply List.map_congr_left
    intro c hc
    simp [(letter_facts cm hcm c (word_letters w (hw w hwm) c hc)).2.1]
  · simp only [toEnvName, ↓reduceIte]
    rw [hsnake, map_intercalate, List.map_map, hu_]
    congr 2
    apply List.map_congr_left
    intro w hwm
    simp only [Function.comp_apply, List.map_map]
    apply List.map_congr_left
    intro c hc
    exact (letter_facts cm hcm c (word_letters w (hw w hwm) c hc)).2.2

/-- C7, witness: `Listen` gives `listen` and `LISTEN`; `FileCount`, the words `File` and
`Count`, gives `file_count`, `file-count` and `FILE_COUNT`. -/
theorem name_forms_of_words_witness :
    (toSnakeCase asciiCase "Listen" = "listen" ∧ toFlag asciiCase "Listen" = "listen" ∧
      toEnvName asciiCase "" "Listen" = "LISTEN") ∧
    (toSnakeCase asciiCase "FileCount" = "file_count" ∧
      toFlag asciiCase "FileCount" = "file-count" ∧
      toEnvName asciiCase "" "FileCount" = "FILE_COUNT") :=
  ⟨name_forms_of_words asciiCase asciiCase_lawful ["Listen".data] (by decide),
    name_forms_of_words asciiCase asciiCase_lawful ["File".data, "Count".data] (by decide)⟩

/-! ## C10: several declarations of the record -/

/-- The field loop reads of the run only the prefix, the record name and the fields
gathered so far. -/
theorem visitFields_congr (cm : CaseMap) (fields : List AstField) (v w r : state) (b : Bool)
    (h1 : v.envPrefix = w.envPrefix) (h2 : v.configStruct = w.configStruct)
    (h3 : v.fields = w.fields) (h : visitFields cm v fields = Except.ok (r, b)) :
    ∃ r2, visitFields cm w fields = Except.ok (r2, b) ∧ r2.fields = r.fields ∧
      r.envPrefix = v.envPrefix ∧ r.configStruct = v.configStruct := by
  induction fields generalizing v w with
  | nil =>
    simp only [visitFields, Except.ok.injEq, Prod.mk.injEq] at h ⊢
    obtain ⟨rfl, rfl⟩ := h
    exact ⟨w, ⟨rfl, rfl⟩, h3.symm, rfl, rfl⟩
  | cons field rest ih =>
    simp only [visitFields] at h ⊢
    rw [← visitField_congr cm v w field h1 h2]
    split at h
    · simp at h
    · exact ih v w h1 h2 h3 h
    · simp only [Except.ok.injEq, Prod.mk.injEq] at h ⊢
      obtain ⟨rfl, rfl⟩ := h
      exact ⟨_, ⟨rfl, rfl⟩, h3.symm, rfl, rfl⟩
    · next f _ =>
      exact ih { v with fields := v.fields ++ [f] } { w with fields := w.fields ++ [f] }
        h1 h2 (by simp [h3]) h

/-- A node that is not a type declaration of the requested name with a type leaves the
descriptors alone. -/
theorem Visit_other (cm : CaseMap) (v : state) (n : Node)
    (hn : ∀ d, n ≠ Node.typeSpec v.configStruct (some d)) :
    ∃ r, Visit cm v n = Except.ok (r, true) ∧ r.fields = v.fields ∧
      r.envPrefix = v.envPrefix ∧ r.configStruct = v.configStruct := by
  cases n with
  | importSpec i => exact ⟨_, rfl, rfl, rfl, rfl⟩
  | other => exact ⟨_, rfl, rfl, rfl, rfl⟩
  | typeSpec name type =>
    cases type with
    | none => exact ⟨_, rfl, rfl, rfl, rfl⟩
    | some d =>
      have hne : name ≠ v.configStruct := fun he => hn d (by rw [he])
      exact ⟨v, by simp [Visit, hne], rfl, rfl, rfl⟩

/-- `Visit` keeps the prefix and the record name of the run. -/
theorem Visit_keeps (cm : CaseMap) (v r : state) (b : Bool) (n : Node)
    (h : Visit cm v n = Except.ok (r, b)) :
    r.envPrefix = v.envPrefix ∧ r.configStruct = v.configStruct := by
  by_cases hn : ∀ d, n ≠ Node.typeSpec v.configStruct (some d)
  · obtain ⟨r2, h1, _, h3, h4⟩ := Visit_other cm v n hn
    rw [h1] at h
    simp only [Except.ok.injEq, Prod.mk.injEq] at h
    rw [← h.1]
    exact ⟨h3, h4⟩
  · push_neg at hn
    obtain ⟨d, rfl⟩ := hn
    simp only [Visit, ne_eq, not_true_eq_false, ↓reduceIte] at h
    cases d with
    | notStruct =>
      simp only [Except.ok.injEq, Prod.mk.injEq] at h
      rw [← h.1]
      exact ⟨rfl, rfl⟩
    | structType fields =>
      obtain ⟨_, _, _, h3, h4⟩ := visitFields_congr cm fields _ _ r b rfl rfl rfl h
      exact ⟨h3, h4⟩

/-- A declaration of the requested name gives the same descriptors from every run with
the same prefix and record name. -/
theorem Visit_match_congr (cm : CaseMap) (v w r : state) (b : Bool) (d : TypeDecl)
    (h1 : v.envPrefix = w.envPrefix) (h2 : v.configStruct = w.configStruct)
    (h : Visit cm v (Node.typeSpec v.configStruct (some d)) = Except.ok (r, b)) :
    ∃ r2, Visit cm w (Node.typeSpec v.configStruct (some d)) = Except.ok (r2, b) ∧
      r2.fields = r.fields := by
  simp only [Visit, ne_eq, not_true_eq_false, ↓reduceIte] at h
  simp only [Visit, h2, ne_eq, not_true_eq_false, ↓reduceIte]
  cases d with
  | notStruct =>
    simp only [Except.ok.injEq, Prod.mk.injEq] at h ⊢
    obtain ⟨rfl, rfl⟩ := h
    exact ⟨_, ⟨rfl, rfl⟩, rfl⟩
  | structType fields =>
    obtain ⟨r2, h3, h4, _⟩ := visitFields_congr cm fields { v with fields := [] }
      { w with fields := [] } r b h1 h2 rfl h
    exact ⟨r2, h3, h4⟩

theorem walk_others (cm : CaseMap) (v : state) (nodes : List Node)
    (hn : ∀ n ∈ nodes, ∀ d, n ≠ Node.typeSpec v.configStruct (some d)) :
    ∃ r, walk cm v nodes = Except.ok r ∧ r.fields = v.fields := by
  induction nodes generalizing v with
  | nil => exact ⟨v, rfl, rfl⟩
  | cons n rest ih =>
    obtain ⟨r1, h1, h2, _, h4⟩ := Visit_other cm v n (hn n (List.mem_cons_self _ _))
    obtain ⟨r, h5, h6⟩ := ih r1 (fun m hm d => by
      rw [h4]; exact hn m (List.mem_cons_of_mem _ hm) d)
    exact ⟨r, by simp [walk, h1, h5], by rw [h6, h2]⟩

theorem walk_append (cm : CaseMap) (v r : state) (front back : List Node)
    (h : walk cm v (front ++ back) = Except.ok r) :
    ∃ m, walk cm v front = Except.ok m ∧ walk cm m back = Except.ok r ∧
      m.envPrefix = v.envPrefix ∧ m.configStruct = v.configStruct := by
  induction front generalizing v with
  | nil => exact ⟨v, rfl, h, rfl, rfl⟩
  | cons n rest ih =>
    simp only [List.cons_append, walk] at h ⊢
    split at h
    · simp at h
    · next v1 b hv =>
      obtain ⟨m, h1, h2, h3, h4⟩ := ih v1 h
      obtain ⟨k1, k2⟩ := Visit_keeps cm v v1 b n hv
      exact ⟨m, by simp [hv, h1], h2, by rw [h3, k1], by rw [h4, k2]⟩


/-- C10, counterexample: a walk that meets two records named `Config` ends with the
descriptor of the second, `Second`, not with that of the first, `First`: `Visit` empties
the list at every declaration of the requested name. -/
theorem walk_second_declaration_wins :
    (walk asciiCase { configStruct := "Config" } twoDeclarations).toOption.map
        (fun r => r.fields.map (fun f => f.Name)) = some ["Second"] ∧
    (walk asciiCase { configStruct := "Config" } (twoDeclarations.take 1)).toOption.map
        (fun r => r.fields.map (fun f => f.Name)) = some ["First"] := by
  decide

/-- C10, amended: the descriptor list held after a walk is the one built from the last
type declaration of the requested name that the walk visits: whatever was visited before
it (earlier records of that name included) and whatever other nodes come after it, the
list is the one `Visit` builds from that declaration alone, from any run with the same
prefix and record name. -/
theorem walk_last_declaration (cm : CaseMap) (vis r : state) (front back : List Node)
    (d : TypeDecl)
    (hback : ∀ n ∈ back, ∀ d2, n ≠ Node.typeSpec vis.configStruct (some d2))
    (h : walk cm vis (front ++ Node.typeSpec vis.configStruct (some d) :: back) = Except.ok r)
    (v0 : state) (h1 : v0.envPrefix = vis.envPrefix)
    (h2 : v0.configStruct = vis.configStruct) :
    ∃ r0 b, Visit cm v0 (Node.typeSpec vis.configStruct (some d)) = Except.ok (r0, b) ∧
      r.fields = r0.fields := by
  obtain ⟨m, _, hm2, hm3, hm4⟩ := walk_append cm vis r front _ h
  simp only [walk] at hm2
  split at hm2
  · simp at hm2
  · next v2 b hv =>
    obtain ⟨_, k2⟩ := Visit_keeps cm m v2 b _ hv
    obtain ⟨r1, hr1, hr2⟩ := walk_others cm v2 back (fun n hn d2 => by
      rw [k2, hm4]; exact hback n hn d2)
    rw [hm2] at hr1
    simp only [Except.ok.injEq] at hr1
    subst hr1
    rw [← hm4] at hv ⊢
    obtain ⟨r2, hv2, hf⟩ := Visit_match_congr cm m v0 v2 b d (by rw [hm3, h1])
      (by rw [hm4, h2]) hv
    exact ⟨r2, b, hv2, by rw [hr2, hf]⟩

/-- C10, witness: the walk over the two records named `Config` ends with the list that
`Visit` builds from the second in a fresh run. -/
theorem walk_last_declaration_witness :
    ∃ r0 b, Visit asciiCase { configStruct := "Config" }
        (Node.typeSpec "Config" (some (TypeDecl.structType
          [⟨["Second"], Expr.ident "string", TagLit.absent, none, none⟩])))
        = Except.ok (r0, b) ∧
      ({ configStruct := "Config"
         fields := [{ Name := "Second", FlagName := "second", EnvName := "SECOND",
                      Strategy := Strategy.Unknown, TypeName := "string",
                      Hidden := false }] } : state).fields = r0.fields :=
  walk_last_declaration asciiCase { configStruct := "Config" }
    { configStruct := "Config"
      fields := [{ Name := "Second", FlagName := "second", EnvName := "SECOND",
                   Strategy := Strategy.Unknown, TypeName := "string", Hidden := false }] }
    (twoDeclarations.take 1) []
    (TypeDecl.structType [⟨["Second"], Expr.ident "string", TagLit.absent, none, none⟩])
    (fun _ hn => absurd hn (List.not_mem_nil _)) (by rfl) { configStruct := "Config" } rfl rfl

/-! ## C11: unsupported field types -/

/-- A tag that the parser accepts and that does not name the field `-` lets the loop
body go on with a descriptor. -/
theorem applyTag_some (cm : CaseMap) (vis : state) (lit : TagLit) (f : Field)
    (hmal : ∀ value, lit ≠ TagLit.malformed value)
    (hskip : ∀ tags tag, lit = TagLit.parsed tags → getTag tags "config" = some tag →
      tag.Name ≠ "-") :
    ∃ g, applyTag cm vis lit f = Except.ok (some g) := by
  cases lit with
  | absent => exact ⟨f, rfl⟩
  | notString => exact ⟨f, rfl⟩
  | malformed value => exact absurd rfl (hmal value)
  | parsed tags =>
    simp only [applyTag]
    cases hg : getTag tags "config" with
    | none => exact ⟨f, rfl⟩
    | some tag =>
      have := hskip tags tag rfl hg
      simp only [this, ↓reduceIte]
      exact ⟨_, rfl⟩

theorem applyTag_typeName (cm : CaseMap) (vis : state) (lit : TagLit) (f g : Field)
    (h : applyTag cm vis lit f = Except.ok (some g)) : g.TypeName = f.TypeName := by
  unfold applyTag at h
  split at h
  · simp only [Except.ok.injEq, Option.some.injEq] at h; subst h; rfl
  · simp only [Except.ok.injEq, Option.some.injEq] at h; subst h; rfl
  · simp at h
  · split at h
    · simp only [Except.ok.injEq, Option.some.injEq] at h; subst h; rfl
    · next tag _ =>
      split at h
      · simp at h
      · simp only [Except.ok.injEq, Option.some.injEq] at h
        subst h
        by_cases h1 : tag.HasOption "marshal" <;> by_cases h2 : tag.HasOption "func" <;>
          by_cases h3 : tag.HasOption "enum" <;> by_cases h4 : tag.HasOption "set" <;>
          by_cases h5 : tag.HasOption "hidden" <;> by_cases h6 : tag.Name = "" <;>
          simp [h1, h2, h3, h4, h5, h6]

/-- The loop body on a named field whose tag lets it through: the outcome is that of
the type reader. -/
theorem visitField_stop_of_readType (cm : CaseMap) (vis : state) (field : AstField)
    (name : String) (names : List String) (hn : field.Names = name :: names)
    (hmal : ∀ value, field.Tag ≠ TagLit.malformed value)
    (hskip : ∀ tags tag, field.Tag = TagLit.parsed tags → getTag tags "config" = some tag →
      tag.Name ≠ "-")
    (msg : String)
    (hr : ∀ f : Field, f.TypeName = "" → readType vis name field.Type_ f = Except.error msg) :
    visitField cm vis field = Except.ok (FieldStep.stop msg) := by
  obtain ⟨g, hg⟩ := applyTag_some cm vis field.Tag
    { Name := name, FlagName := toFlag cm name, EnvName := toEnvName cm vis.envPrefix name,
      Strategy := Strategy.Unknown, Hidden := false } hmal hskip
  have ht := applyTag_typeName cm vis field.Tag _ g hg
  simp only [visitField, hn, hg, hr g ht]

/-- The field loop stops at the first field whose type the reader rejects: the error is
stored, nil is returned, and the fields after it are not looked at. -/
theorem visitFields_stop (cm : CaseMap) (vis : state) (front back : List AstField)
    (field : AstField) (msg : String)
    (hfront : ∀ fd ∈ front, visitField cm vis fd = Except.ok FieldStep.skip ∨
      ∃ g, visitField cm vis fd = Except.ok (FieldStep.add g))
    (hf : visitField cm vis field = Except.ok (FieldStep.stop msg)) :
    ∃ r, visitFields cm vis (front ++ field :: back) = Except.ok (r, false) ∧
      r.err = some msg ∧
      visitFields cm vis (front ++ field :: back) = visitFields cm vis (front ++ [field]) := by
  induction front generalizing vis with
  | nil =>
    exact ⟨{ vis with err := some msg }, by simp [visitFields, hf], rfl,
      by simp [visitFields, hf]⟩
  | cons fd rest ih =>
    rcases hfront fd (List.mem_cons_self _ _) with h1 | ⟨g, h1⟩
    · obtain ⟨r, h2, h3, h4⟩ := ih vis (fun x hx => hfront x (List.mem_cons_of_mem _ hx)) hf
      exact ⟨r, by simp [visitFields, h1, h2], h3, by simp [visitFields, h1, h4]⟩
    · obtain ⟨r, h2, h3, h4⟩ := ih { vis with fields := vis.fields ++ [g] }
        (fun x hx => by
          rw [visitField_congr cm { vis with fields := vis.fields ++ [g] } vis x rfl rfl]
          exact hfront x (List.mem_cons_of_mem _ hx))
        (by
          rw [visitField_congr cm { vis with fields := vis.fields ++ [g] } vis field rfl rfl]
          exact hf)
      exact ⟨r, by simp [visitFields, h1, h2], h3, by simp [visitFields, h1, h4]⟩

/-- Once the error of the run is set, `Visit` leaves it set. -/
theorem Visit_err_sticky (cm : CaseMap) (v r : state) (b : Bool) (n : Node)
    (h : Visit cm v n = Except.ok (r, b)) (he : v.err ≠ none) : r.err ≠ none := by
  have key : ∀ (fields : List AstField) (v r : state) (b : Bool),
      visitFields cm v fields = Except.ok (r, b) → v.err ≠ none → r.err ≠ none := by
    intro fields
    induction fields with
    | nil =>
      intro v r b h he
      simp only [visitFields, Except.ok.injEq, Prod.mk.injEq] at h
      rw [← h.1]; exact he
    | cons fd rest ih =>
      intro v r b h he
      simp only [visitFields] at h
      split at h
      · simp at h
      · exact ih v r b h he
      · simp only [Except.ok.injEq, Prod.mk.injEq] at h
        rw [← h.1]; simp
      · exact ih _ r b h he
  cases n with
  | importSpec i =>
    simp only [Visit, Except.ok.injEq, Prod.mk.injEq] at h
    rw [← h.1]; exact he
  | other =>
    simp only [Visit, Except.ok.injEq, Prod.mk.injEq] at h
    rw [← h.1]; exact he
  | typeSpec name type =>
    cases type with
    | none =>
      simp only [Visit, Except.ok.injEq, Prod.mk.injEq] at h
      rw [← h.1]; exact he
    | some d =>
      simp only [Visit] at h
      split at h
      · simp only [Except.ok.injEq, Prod.mk.injEq] at h
        rw [← h.1]; exact he
      · cases d with
        | notStruct =>
          simp only [Except.ok.injEq, Prod.mk.injEq] at h
          rw [← h.1]; exact he
        | structType fields => exact key fields _ r b h he

/-- Nodes that are not type declarations of the requested name leave the error of the
run as it is. -/
theorem walk_others_err (cm : CaseMap) (v : state) (nodes : List Node)
    (hn : ∀ n ∈ nodes, ∀ d, n ≠ Node.typeSpec v.configStruct (some d)) :
    ∃ r, walk cm v nodes = Except.ok r ∧ r.err = v.err := by
  induction nodes generalizing v with
  | nil => exact ⟨v, rfl, rfl⟩
  | cons n rest ih =>
    have hv : ∃ r1, Visit cm v n = Except.ok (r1, true) ∧ r1.err = v.err ∧
        r1.configStruct = v.configStruct := by
      cases n with
      | importSpec i => exact ⟨_, rfl, rfl, rfl⟩
      | other => exact ⟨_, rfl, rfl, rfl⟩
      | typeSpec name type =>
        cases type with
        | none => exact ⟨_, rfl, rfl, rfl⟩
        | some d =>
          have hne : name ≠ v.configStruct := fun he =>
            hn _ (List.mem_cons_self _ _) d (by rw [he])
          exact ⟨v, by simp [Visit, hne], rfl, rfl⟩
    obtain ⟨r1, h1, h2, h3⟩ := hv
    obtain ⟨r, h5, h6⟩ := ih r1 (fun k hk d => by
      rw [h3]; exact hn k (List.mem_cons_of_mem _ hk) d)
    exact ⟨r, by simp [walk, h1, h5], by rw [h6, h2]⟩

theorem applyTag_of_skips (cm : CaseMap) (vis : state) (lit : TagLit) (f : Field)
    (h : tagSkips lit = true) : applyTag cm vis lit f = Except.ok none := by
  unfold tagSkips at h
  split at h
  · next tags =>
    split at h
    · next tag hg =>
      have hd : tag.Name = "-" := by simpa using h
      simp [applyTag, hg, hd]
    · simp at h
  · simp at h

theorem readType_of_typeName (vis : state) (name : String) (ty : Expr) (f : Field)
    (h : typeName ty ≠ "") :
    readType vis name ty f = Except.ok { f with TypeName := typeName ty } := by
  cases ty with
  | ident n => simp [readType, typeSwitch, h]
  | selector x s => simp [readType, typeSwitch, h]
  | arrayType l e => exact absurd rfl h
  | mapType k v => exact absurd rfl h
  | other t => exact absurd rfl h

theorem readType_of_slice (vis : state) (name : String) (elt : Expr) (f : Field)
    (h : typeName elt ≠ "") :
    readType vis name (Expr.arrayType false elt) f
      = Except.ok { f with TypeElement := typeName elt, TypeName := "[]" ++ typeName elt } := by
  have h2 : "[]" ++ typeName elt ≠ "" := by
    intro he
    have := congrArg String.data he
    rw [String.data_append] at this
    exact absurd (List.append_eq_nil.1 this).1 (by decide)
  simp [readType, typeSwitch, h, h2]

/-- A field that declares a name, whose tag is well formed and that is skipped by its
tag or has a type that the reader accepts: the loop body skips it or appends a
descriptor for it. -/
theorem visitField_reads (cm : CaseMap) (vis : state) (fd : AstField)
    (hn : fd.Names ≠ []) (hmal : ∀ value, fd.Tag ≠ TagLit.malformed value)
    (ht : tagSkips fd.Tag = true ∨ typeName fd.Type_ ≠ "" ∨
      ∃ elt, fd.Type_ = Expr.arrayType false elt ∧ typeName elt ≠ "") :
    visitField cm vis fd = Except.ok FieldStep.skip ∨
      ∃ g, visitField cm vis fd = Except.ok (FieldStep.add g) := by
  cases hN : fd.Names with
  | nil => exact absurd hN hn
  | cons name names =>
    by_cases hs : tagSkips fd.Tag = true
    · left
      simp only [visitField, hN, applyTag_of_skips cm vis fd.Tag _ hs]
    · right
      have hskip : ∀ tags tag, fd.Tag = TagLit.parsed tags → getTag tags "config" = some tag →
          tag.Name ≠ "-" := by
        intro tags tag h1 h2 h3
        exact hs (by simp [tagSkips, h1, h2, h3])
      obtain ⟨g, hg⟩ := applyTag_some cm vis fd.Tag
        { Name := name, FlagName := toFlag cm name, EnvName := toEnvName cm vis.envPrefix name,
          Strategy := Strategy.Unknown, Hidden := false } hmal hskip
      rcases ht with h1 | h1 | ⟨elt, h1, h2⟩
      · exact absurd h1 hs
      · refine ⟨describe fd { g with TypeName := typeName fd.Type_ }, ?_⟩
        simp only [visitField, hN, hg, readType_of_typeName vis name _ g h1]
      · refine ⟨describe fd { g with TypeElement := typeName elt,
                                     TypeName := "[]" ++ typeName elt }, ?_⟩
        simp only [visitField, hN, hg, h1, readType_of_slice vis name elt g h2]

/-- C11, counterexample: in
`type Config struct { Listen string; Things map[string]string }` with the malformed tag
`config:things` on `Things`, the map field is the first field of an unsupported type and
no tag skips it, but the tag is read before the type: `Visit` ends in `log.Fatalf` and
stores no error, where the same two fields without the tag store
`cannot handle map type in Config.Things`. -/
theorem visit_malformed_tag_before_type :
    (∃ msg, Visit asciiCase { configStruct := "Config" }
        (Node.typeSpec "Config" (some (TypeDecl.structType malformedRecord)))
      = Except.error (Exit.fatal msg)) ∧
    malformedRecord.map (fun field => (field.Names, field.Type_))
      = (mapRecord.take 2).map (fun field => (field.Names, field.Type_)) ∧
    (Visit asciiCase { configStruct := "Config" }
        (Node.typeSpec "Config" (some (TypeDecl.structType (mapRecord.take 2))))).toOption.map
      (fun r => (r.1.err, r.2))
      = some (some "cannot handle map type in Config.Things", false) :=
  ⟨⟨_, rfl⟩, by decide, by decide⟩

/-- C11, amended: in a record of the requested name whose fields before `F` each declare
a name, have a well-formed tag and are skipped by their tag or have a type that the
reader accepts (a name that `typeName` reads, or a slice of one), a field `F` that
declares a name, with a well-formed tag that does not skip it, and with a map type
makes `Visit` store the error
`cannot handle map type in <Record>.<F>` and return nil without looking at the fields
after `F`; an array type with a length, a type expression of another kind and a type
whose name cannot be read do the same with their own messages, each naming the record
and the field. The error stays set for the rest of the walk, unchanged as long as no
other declaration of the requested name is visited, and when the walk of a package ends
with an error `run` returns it and does not call `generate`. -/
theorem visit_unsupported_type_stops (cm : CaseMap) (vis : state)
    (front back : List AstField) (F : AstField) (name : String) (names : List String)
    (hfront : ∀ fd ∈ front, fd.Names ≠ [] ∧ (∀ value, fd.Tag ≠ TagLit.malformed value) ∧
      (tagSkips fd.Tag = true ∨ typeName fd.Type_ ≠ "" ∨
        ∃ elt, fd.Type_ = Expr.arrayType false elt ∧ typeName elt ≠ ""))
    (hn : F.Names = name :: names)
    (hmal : ∀ value, F.Tag ≠ TagLit.malformed value)
    (hskip : ∀ tags tag, F.Tag = TagLit.parsed tags → getTag tags "config" = some tag →
      tag.Name ≠ "-") :
    (∀ msg,
      ((∃ k v, F.Type_ = Expr.mapType k v) ∧
        msg = "cannot handle map type in " ++ vis.configStruct ++ "." ++ name) ∨
      ((∃ elt, F.Type_ = Expr.arrayType true elt) ∧
        msg = "cannot handle non-slice array in " ++ vis.configStruct ++ "." ++ name) ∨
      (∃ t, F.Type_ = Expr.other t ∧
        msg = "cannot handle " ++ t ++ " in " ++ vis.configStruct ++ "." ++ name ++ "\n") ∨
      (((∃ n, F.Type_ = Expr.ident n ∧ n = "") ∨
          (∃ x sel, F.Type_ = Expr.selector x sel ∧ typeName (Expr.selector x sel) = "") ∨
          (∃ elt, F.Type_ = Expr.arrayType false elt ∧ typeName elt = "")) ∧
        msg = "cannot handle type for " ++ vis.configStruct ++ "." ++ name) →
      ∃ r, Visit cm vis (Node.typeSpec vis.configStruct
            (some (TypeDecl.structType (front ++ F :: back)))) = Except.ok (r, false) ∧
        r.err = some msg ∧
        Visit cm vis (Node.typeSpec vis.configStruct
            (some (TypeDecl.structType (front ++ F :: back))))
          = Visit cm vis (Node.typeSpec vis.configStruct
            (some (TypeDecl.structType (front ++ [F]))))) ∧
    (∀ (v r : state) (b : Bool) (n : Node), Visit cm v n = Except.ok (r, b) →
      v.err ≠ none → r.err ≠ none) ∧
    (∀ (v : state) (nodes : List Node),
      (∀ n ∈ nodes, ∀ d, n ≠ Node.typeSpec v.configStruct (some d)) →
      ∃ r, walk cm v nodes = Except.ok r ∧ r.err = v.err) ∧
    (∀ (load : List String → Except String (List Package))
      (render : Result → String × Option String) (writeFile : String → String → Option String)
      (run0 : state) (pkg : Package) (nodes : List Node) (rest : List (Package × List Node))
      (v : state) (e : String),
      walk cm { run0 with packageName := pkg.Name, packagePath := pkg.PkgPath } nodes
        = Except.ok v → v.err = some e →
      run cm load render writeFile run0 (Except.ok ((pkg, nodes) :: rest))
        = Except.ok { err := some e, generated := none }) := by
  refine ⟨?_, fun v r b n h he => Visit_err_sticky cm v r b n h he,
    fun v nodes hn => walk_others_err cm v nodes hn, ?_⟩
  · intro msg hmsg
    have hF : visitField cm { vis with fields := [] } F = Except.ok (FieldStep.stop msg) := by
      apply visitField_stop_of_readType cm _ F name names hn hmal hskip
      intro f hf
      rcases hmsg with ⟨⟨k, v, ht⟩, rfl⟩ | ⟨⟨elt, ht⟩, rfl⟩ | ⟨t, ht, rfl⟩ |
        ⟨⟨n, ht, hn0⟩ | ⟨x, sel, ht, hn0⟩ | ⟨elt, ht, hn0⟩, rfl⟩
      · simp [readType, typeSwitch, ht]
      · simp [readType, typeSwitch, ht]
      · simp [readType, typeSwitch, ht]
      · simp [readType, typeSwitch, ht, typeName, hn0]
      · simp [readType, typeSwitch, ht, hn0]
      · simp [readType, typeSwitch, ht, hn0, hf]
    obtain ⟨r, h1, h2, h3⟩ := visitFields_stop cm { vis with fields := [] } front back F msg
      (fun fd hfd => by
        rw [visitField_congr cm { vis with fields := [] } vis fd rfl rfl]
        exact visitField_reads cm vis fd (hfront fd hfd).1 (hfront fd hfd).2.1
          (hfront fd hfd).2.2) hF
    refine ⟨r, ?_, h2, ?_⟩
    · simp only [Visit, ne_eq, not_true_eq_false, ↓reduceIte]
      exact h1
    · simp only [Visit, ne_eq, not_true_eq_false, ↓reduceIte]
      exact h3
  · intro load render writeFile run0 pkg nodes rest v e hw he
    simp only [run, runLoop, hw, he]


/-- C11, witness: `Listen string`, then `Things map[string]string`, then an embedded
field, in the record `Config`: `Visit` stores the error that names `Config.Things` and
never reaches the embedded field. -/
theorem visit_unsupported_type_stops_witness :
    ∃ r, Visit asciiCase { configStruct := "Config" }
          (Node.typeSpec "Config" (some (TypeDecl.structType mapRecord))) = Except.ok (r, false) ∧
      r.err = some "cannot handle map type in Config.Things" ∧
      Visit asciiCase { configStruct := "Config" }
          (Node.typeSpec "Config" (some (TypeDecl.structType mapRecord)))
        = Visit asciiCase { configStruct := "Config" }
          (Node.typeSpec "Config" (some (TypeDecl.structType (mapRecord.take 2)))) :=
  (visit_unsupported_type_stops asciiCase { configStruct := "Config" }
    (mapRecord.take 1) (mapRecord.drop 2)
    ⟨["Things"], Expr.mapType (Expr.ident "string") (Expr.ident "string"), TagLit.absent,
      none, none⟩
    "Things" []
    (fun fd hfd => by
      simp only [mapRecord, List.take, List.mem_singleton] at hfd
      subst hfd
      exact ⟨by decide, fun _ h => (by cases h), Or.inr (Or.inl (by decide))⟩)
    rfl (fun _ h => by cases h) (fun _ _ h => by cases h)).1
    "cannot handle map type in Config.Things" (Or.inl ⟨⟨_, _, rfl⟩, by decide⟩)

/-! ## C12: the type-expression reader -/

theorem applyTag_typeElement (cm : CaseMap) (vis : state) (lit : TagLit) (f g : Field)
    (h : applyTag cm vis lit f = Except.ok (some g)) : g.TypeElement = f.TypeElement := by
  unfold applyTag at h
  split at h
  · simp only [Except.ok.injEq, Option.some.injEq] at h; subst h; rfl
  · simp only [Except.ok.injEq, Option.some.injEq] at h; subst h; rfl
  · simp at h
  · split at h
    · simp only [Except.ok.injEq, Option.some.injEq] at h; subst h; rfl
    · next tag _ =>
      split at h
      · simp at h
      · simp only [Except.ok.injEq, Option.some.injEq] at h
        subst h
        by_cases h1 : tag.HasOption "marshal" <;> by_cases h2 : tag.HasOption "func" <;>
          by_cases h3 : tag.HasOption "enum" <;> by_cases h4 : tag.HasOption "set" <;>
          by_cases h5 : tag.HasOption "hidden" <;> by_cases h6 : tag.Name = "" <;>
          simp [h1, h2, h3, h4, h5, h6]

theorem describe_type (field : AstField) (f : Field) :
    (describe field f).TypeName = f.TypeName ∧
      (describe field f).TypeElement = f.TypeElement := by
  unfold describe
  split <;> split <;> exact ⟨rfl, rfl⟩

/-- A type expression whose name can be read is a bare identifier or a selector with a
bare identifier as qualifier. -/
theorem typeName_ne_empty (e : Expr) (h : typeName e ≠ "") :
    (∃ X, e = Expr.ident X) ∨ (∃ p X, e = Expr.selector (Expr.ident p) X) := by
  cases e with
  | ident n => exact Or.inl ⟨n, rfl⟩
  | selector x sel =>
    cases x with
    | ident p => exact Or.inr ⟨p, sel, rfl⟩
    | selector _ _ => exact absurd rfl h
    | arrayType _ _ => exact absurd rfl h
    | mapType _ _ => exact absurd rfl h
    | other _ => exact absurd rfl h
  | arrayType _ _ => exact absurd rfl h
  | mapType _ _ => exact absurd rfl h
  | other _ => exact absurd rfl h

/-- What the type reader makes of a field when it accepts its type. -/
theorem readType_ok (vis : state) (name : String) (ty : Expr) (f g : Field)
    (hf : f.TypeElement = "") (hfn : f.TypeName = "")
    (h : readType vis name ty f = Except.ok g) :
    g.TypeName ≠ "" ∧
    ((typeName ty ≠ "" ∧ g.TypeName = typeName ty ∧ g.TypeElement = "") ∨
      (∃ elt, ty = Expr.arrayType false elt ∧ typeName elt ≠ "" ∧
        g.TypeName = "[]" ++ typeName elt ∧ g.TypeElement = typeName elt)) := by
  unfold readType at h
  split at h
  · simp at h
  · next f2 hr =>
    split at h
    · simp at h
    · next hne =>
      simp only [Except.ok.injEq] at h
      subst h
      refine ⟨hne, ?_⟩
      cases ty with
      | ident n =>
        simp only [typeSwitch, Except.ok.injEq] at hr
        subst hr
        exact Or.inl ⟨hne, rfl, hf⟩
      | selector x s =>
        simp only [typeSwitch, Except.ok.injEq] at hr
        subst hr
        exact Or.inl ⟨hne, rfl, hf⟩
      | arrayType hasLen elt =>
        simp only [typeSwitch] at hr
        split at hr
        · simp at hr
        · next hl =>
          split at hr
          · next hel =>
            simp only [Except.ok.injEq] at hr
            subst hr
            have : hasLen = false := by simpa using hl
            subst this
            exact Or.inr ⟨elt, rfl, hel, rfl, rfl⟩
          · next hel =>
            simp only [Except.ok.injEq] at hr
            subst hr
            exact absurd hfn hne
      | mapType k v => simp [typeSwitch] at hr
      | other t => simp [typeSwitch] at hr

theorem data_append (s t : String) : (s ++ t).data = s.data ++ t.data :=
  String.data_append s t

/-- The type name and element of a descriptor that the loop body of `Visit` appends. -/
theorem visitField_type (cm : CaseMap) (vis : state) (field : AstField) (g : Field)
    (h : visitField cm vis field = Except.ok (FieldStep.add g)) :
    g.TypeName ≠ "" ∧
    ((typeName field.Type_ ≠ "" ∧ g.TypeName = typeName field.Type_ ∧ g.TypeElement = "") ∨
      (∃ elt, field.Type_ = Expr.arrayType false elt ∧ typeName elt ≠ "" ∧
        g.TypeName = "[]" ++ typeName elt ∧ g.TypeElement = typeName elt)) := by
  unfold visitField at h
  split at h
  · simp at h
  · next name names hn =>
    dsimp only at h
    split at h
    · simp at h
    · simp at h
    · next f1 h1 =>
      split at h
      · simp at h
      · next f2 h2 =>
        simp only [Except.ok.injEq, FieldStep.add.injEq] at h
        subst h
        have a1 := applyTag_typeElement cm vis field.Tag _ f1 h1
        have a2 := applyTag_typeName cm vis field.Tag _ f1 h1
        obtain ⟨d1, d2⟩ := describe_type field f2
        rw [d1, d2]
        exact readType_ok vis name field.Type_ f1 f2 a1 a2 h2


theorem not_slice_prefix (s : String) (h : s.data.head? ≠ some '[') :
    ¬ (['[', ']'] <+: s.data) := by
  intro hp
  obtain ⟨t, ht⟩ := hp
  rw [← ht] at h
  simp at h

theorem selector_head (p X : String) (h : p.data.head? ≠ some '[') :
    (p ++ "." ++ X).data.head? ≠ some '[' := by
  rw [data_append, data_append]
  cases hp : p.data with
  | nil => simp
  | cons c cs => rw [hp] at h; simpa using h

theorem applyTag_none (cm : CaseMap) (vis : state) (lit : TagLit) (f : Field)
    (h : applyTag cm vis lit f = Except.ok none) : tagSkips lit = true := by
  unfold applyTag at h
  split at h
  · simp at h
  · simp at h
  · simp at h
  · next tags =>
    split at h
    · simp at h
    · next tag hg =>
      split at h
      · next hd => simp [tagSkips, hg, hd]
      · simp at h

theorem applyTag_some_not_skipped (cm : CaseMap) (vis : state) (lit : TagLit) (f g : Field)
    (h : applyTag cm vis lit f = Except.ok (some g)) : tagSkips lit = false := by
  unfold applyTag at h
  split at h
  · rfl
  · rfl
  · simp at h
  · next tags =>
    split at h
    · next hg => simp [tagSkips, hg]
    · next tag hg =>
      split at h
      · simp at h
      · next hd => simp [tagSkips, hg, hd]

theorem visitField_skip_tag (cm : CaseMap) (vis : state) (field : AstField)
    (h : visitField cm vis field = Except.ok FieldStep.skip) : tagSkips field.Tag = true := by
  unfold visitField at h
  split at h
  · simp at h
  · dsimp only at h
    split at h
    · simp at h
    · next h1 => exact applyTag_none cm vis _ _ h1
    · split at h <;> simp at h

theorem visitField_add_tag (cm : CaseMap) (vis : state) (field : AstField) (g : Field)
    (h : visitField cm vis field = Except.ok (FieldStep.add g)) :
    tagSkips field.Tag = false := by
  unfold visitField at h
  split at h
  · simp at h
  · dsimp only at h
    split at h
    · simp at h
    · simp at h
    · next f1 h1 => exact applyTag_some_not_skipped cm vis _ _ f1 h1

/-- The field loop, field by field: the descriptors appended are those of the fields
that the tag does not skip, in order, up to the end of the list or to the first field
whose type the reader rejects. -/
theorem visitFields_kept (cm : CaseMap) (fields : List AstField) :
    ∀ (vis r : state) (b : Bool), visitFields cm vis fields = Except.ok (r, b) →
    ∃ front rest gs, fields = front ++ rest ∧ r.fields = vis.fields ++ gs ∧
      Forall₂ (fun field g => visitField cm vis field = Except.ok (FieldStep.add g))
        (front.filter (fun fd => !tagSkips fd.Tag)) gs ∧
      (b = true → rest = []) ∧
      (b = false → ∃ F back msg, rest = F :: back ∧
        visitField cm vis F = Except.ok (FieldStep.stop msg) ∧ r.err = some msg) := by
  induction fields with
  | nil =>
    intro vis r b h
    simp only [visitFields, Except.ok.injEq, Prod.mk.injEq] at h
    refine ⟨[], [], [], rfl, by rw [← h.1]; simp, by simp, fun _ => rfl, fun hb => ?_⟩
    rw [← h.2] at hb
    exact absurd hb (by decide)
  | cons fd tl ih =>
    intro vis r b h
    simp only [visitFields] at h
    split at h
    · simp at h
    · next hs =>
      obtain ⟨front, rest, gs, h1, h2, h3, h4, h5⟩ := ih vis r b h
      refine ⟨fd :: front, rest, gs, by rw [h1]; rfl, h2, ?_, h4, h5⟩
      rw [List.filter_cons]
      simp only [visitField_skip_tag cm vis fd hs, Bool.not_true, Bool.false_eq_true,
        ↓reduceIte]
      exact h3
    · next msg hs =>
      simp only [Except.ok.injEq, Prod.mk.injEq] at h
      refine ⟨[], fd :: tl, [], rfl, by rw [← h.1]; simp, by simp, fun hb => ?_,
        fun _ => ⟨fd, tl, msg, rfl, hs, by rw [← h.1]⟩⟩
      rw [← h.2] at hb
      exact absurd hb (by decide)
    · next g hs =>
      obtain ⟨front, rest, gs, h1, h2, h3, h4, h5⟩ :=
        ih { vis with fields := vis.fields ++ [g] } r b h
      refine ⟨fd :: front, rest, g :: gs, by rw [h1]; rfl, by rw [h2]; simp, ?_, h4, ?_⟩
      · rw [List.filter_cons]
        simp only [visitField_add_tag cm vis fd g hs, Bool.not_false, ↓reduceIte]
        refine Forall₂.cons hs (h3.imp ?_)
        intro x y hxy
        exact (visitField_congr cm vis { vis with fields := vis.fields ++ [g] } x rfl
          rfl).trans hxy
      · intro hb
        obtain ⟨F, back, msg, e1, e2, e3⟩ := h5 hb
        exact ⟨F, back, msg, e1,
          (visitField_congr cm vis { vis with fields := vis.fields ++ [g] } F rfl
            rfl).trans e2, e3⟩

theorem string_append_ne_empty (s t : String) (h : s ≠ "") : s ++ t ≠ "" := by
  intro he
  have := congrArg String.data he
  rw [data_append] at this
  exact h (String.ext (List.append_eq_nil.1 this).1)

theorem selector_ne_empty (p X : String) : p ++ "." ++ X ≠ "" := by
  apply string_append_ne_empty
  intro he
  have := congrArg String.data he
  rw [data_append] at this
  exact absurd (List.append_eq_nil.1 this).2 (by decide)

/-- C12: what the type reader of `Visit` yields, field by field. The reader gives a bare
identifier `X` the type name `X`, a selector `p.X` with a bare identifier as qualifier
the type name `p.X`, both with the type element untouched (empty in a fresh descriptor),
and an array type without length whose element reads as `e` the type name `[]e` and the
type element `e`. When `Visit` returns from a record of the requested name, its
descriptors stand, in order and one for one, for the fields that their tag does not
skip, all of them when no error was set and otherwise those before the field at which
the reader stopped; each descriptor has the name of its own field, a type name of the
shape `T`, `p.T`, `[]T` or `[]p.T` that its own field's type gives, never empty, and a
type element that is empty for the first two shapes and the element's name for the last
two. With identifiers that do not begin with a bracket (as in Go), the type element is
non-empty exactly when the type name starts with `[]`. -/
theorem visit_type_names (cm : CaseMap) (vis r : state) (b : Bool) (fields : List AstField)
    (h : Visit cm vis (Node.typeSpec vis.configStruct (some (TypeDecl.structType fields)))
      = Except.ok (r, b)) :
    (∃ front rest, fields = front ++ rest ∧ (b = true → rest = []) ∧
      (b = false → ∃ F back msg, rest = F :: back ∧
        visitField cm vis F = Except.ok (FieldStep.stop msg) ∧ r.err = some msg) ∧
      Forall₂ (fun field g =>
          visitField cm vis field = Except.ok (FieldStep.add g) ∧
          (∃ name names, field.Names = name :: names ∧ g.Name = name) ∧
          ((∃ T, field.Type_ = Expr.ident T ∧ g.TypeName = T ∧ g.TypeElement = "") ∨
           (∃ p T, field.Type_ = Expr.selector (Expr.ident p) T ∧
              g.TypeName = p ++ "." ++ T ∧ g.TypeElement = "") ∨
           (∃ T, field.Type_ = Expr.arrayType false (Expr.ident T) ∧
              g.TypeName = "[]" ++ T ∧ g.TypeElement = T) ∨
           (∃ p T, field.Type_ = Expr.arrayType false (Expr.selector (Expr.ident p) T) ∧
              g.TypeName = "[]" ++ (p ++ "." ++ T) ∧ g.TypeElement = p ++ "." ++ T)) ∧
          g.TypeName ≠ "" ∧
          (((∀ T, field.Type_ = Expr.ident T → T.data.head? ≠ some '[') ∧
            (∀ p T, field.Type_ = Expr.selector (Expr.ident p) T →
              p.data.head? ≠ some '[')) →
            (g.TypeElement ≠ "" ↔ ['[', ']'] <+: g.TypeName.data)))
        (front.filter (fun fd => !tagSkips fd.Tag)) r.fields) ∧
    (∀ (v : state) (name : String) (f : Field),
      (∀ X, X ≠ "" → readType v name (Expr.ident X) f = Except.ok { f with TypeName := X }) ∧
      (∀ p X, readType v name (Expr.selector (Expr.ident p) X) f
        = Except.ok { f with TypeName := p ++ "." ++ X }) ∧
      (∀ elt, typeName elt ≠ "" → readType v name (Expr.arrayType false elt) f
        = Except.ok { f with TypeElement := typeName elt,
                             TypeName := "[]" ++ typeName elt })) := by
  refine ⟨?_, ?_⟩
  · simp only [Visit, ne_eq, not_true_eq_false, ↓reduceIte] at h
    obtain ⟨front, rest, gs, h1, h2, h3, h4, h5⟩ := visitFields_kept cm fields _ r b h
    simp only [List.nil_append] at h2
    rw [← h2] at h3
    refine ⟨front, rest, h1, h4, ?_, h3.imp ?_⟩
    · intro hb
      obtain ⟨F, back, msg, e1, e2, e3⟩ := h5 hb
      exact ⟨F, back, msg, e1,
        (visitField_congr cm vis { vis with fields := [] } F rfl rfl).trans e2, e3⟩
    · intro field g hv0
      have hv : visitField cm vis field = Except.ok (FieldStep.add g) :=
        (visitField_congr cm vis { vis with fields := [] } field rfl rfl).trans hv0
      obtain ⟨name, names, hn, hgn, _⟩ := visitField_names cm vis field g hv
      obtain ⟨hne, hcase⟩ := visitField_type cm vis field g hv
      refine ⟨hv, ⟨name, names, hn, hgn⟩, ?_, hne, ?_⟩
      · rcases hcase with ⟨ht, hn, he⟩ | ⟨elt, hty, ht, hn, he⟩
        · rcases typeName_ne_empty _ ht with ⟨X, hX⟩ | ⟨p, X, hX⟩
          · rw [hX] at hn; exact Or.inl ⟨X, hX, hn, he⟩
          · rw [hX] at hn; exact Or.inr (Or.inl ⟨p, X, hX, hn, he⟩)
        · rcases typeName_ne_empty _ ht with ⟨X, hX⟩ | ⟨p, X, hX⟩
          · subst hX; exact Or.inr (Or.inr (Or.inl ⟨X, hty, hn, he⟩))
          · subst hX; exact Or.inr (Or.inr (Or.inr ⟨p, X, hty, hn, he⟩))
      · intro hlead
        rcases hcase with ⟨ht, hn, he⟩ | ⟨elt, hty, ht, hn, he⟩
        · have hnp : ¬ (['[', ']'] <+: g.TypeName.data) := by
            rcases typeName_ne_empty _ ht with ⟨X, hX⟩ | ⟨p, X, hX⟩
            · rw [hn, hX]
              exact not_slice_prefix _ (hlead.1 X hX)
            · rw [hn, hX]
              exact not_slice_prefix _ (selector_head p X (hlead.2 p X hX))
          simp [he, hnp]
        · have hp : ['[', ']'] <+: g.TypeName.data := by
            rw [hn, data_append]
            exact List.prefix_append _ _
          rw [he]
          exact ⟨fun _ => hp, fun _ => ht⟩
  · intro v name f
    refine ⟨fun X hX => ?_, fun p X => ?_, fun elt he => ?_⟩
    · simp [readType, typeSwitch, typeName, hX]
    · simp [readType, typeSwitch, typeName, selector_ne_empty p X]
    · have h2 : "[]" ++ typeName elt ≠ "" := string_append_ne_empty _ _ (by decide)
      simp [readType, typeSwitch, he, h2]

/-- C12, witness: the record `Config` of `testing/testing.go`, whose fields show all
four shapes; `Things`, tagged `-`, has no descriptor. -/
theorem visit_type_names_witness :
    walk asciiCase { configStruct := "Config" }
        (configImports.map Node.importSpec ++
          [Node.typeSpec "Config" (some (TypeDecl.structType configRecord))])
      = Except.ok configState ∧
    (configRecord.filter (fun fd => !tagSkips fd.Tag)).map (fun fd => fd.Names)
      = [["Listen"], ["FileCount"], ["Files"], ["IP"], ["Verbose"], ["Logging"], ["Levels"]] ∧
    configState.fields.map (fun f => (f.Name, f.TypeName, f.TypeElement))
      = [("Listen", "string", ""), ("FileCount", "int", ""), ("Files", "[]string", "string"),
         ("IP", "net.IP", ""), ("Verbose", "Verbosity", ""), ("Logging", "zc.Level", ""),
         ("Levels", "[]zc.Level", "zc.Level")] ∧
    Forall₂ (fun field g =>
        visitField asciiCase { configStruct := "Config", imports := configImports } field
          = Except.ok (FieldStep.add g) ∧
        (∃ name names, field.Names = name :: names ∧ g.Name = name) ∧
        ((∃ T, field.Type_ = Expr.ident T ∧ g.TypeName = T ∧ g.TypeElement = "") ∨
         (∃ p T, field.Type_ = Expr.selector (Expr.ident p) T ∧
            g.TypeName = p ++ "." ++ T ∧ g.TypeElement = "") ∨
         (∃ T, field.Type_ = Expr.arrayType false (Expr.ident T) ∧
            g.TypeName = "[]" ++ T ∧ g.TypeElement = T) ∨
         (∃ p T, field.Type_ = Expr.arrayType false (Expr.selector (Expr.ident p) T) ∧
            g.TypeName = "[]" ++ (p ++ "." ++ T) ∧ g.TypeElement = p ++ "." ++ T)) ∧
        g.TypeName ≠ "" ∧
        (((∀ T, field.Type_ = Expr.ident T → T.data.head? ≠ some '[') ∧
          (∀ p T, field.Type_ = Expr.selector (Expr.ident p) T →
            p.data.head? ≠ some '[')) →
          (g.TypeElement ≠ "" ↔ ['[', ']'] <+: g.TypeName.data)))
      (configRecord.filter (fun fd => !tagSkips fd.Tag)) configState.fields := by
  refine ⟨by rfl, by decide, by decide, ?_⟩
  obtain ⟨front, rest, h1, h2, _, h3⟩ :=
    (visit_type_names asciiCase { configStruct := "Config", imports := configImports }
      configState true configRecord (by rfl)).1
  have h4 := h2 rfl
  subst h4
  rw [List.append_nil] at h1
  rw [h1]
  exact h3

/-! ## C13, C19: the names of a field declaration -/

/-- C13, the code at the failing input: for `type Config struct { A, B int }` the field
loop reads `field.Names[0]` only, so `Visit` produces the one descriptor `A` and none
for the declared name `B`. -/
theorem visit_reads_first_name_only :
    (pairRecord.map (fun field => field.Names)).flatten = ["A", "B"] ∧
    (Visit asciiCase { configStruct := "Config" }
        (Node.typeSpec "Config" (some (TypeDecl.structType pairRecord)))).toOption.map
      (fun r => (r.1.fields.map (fun f => f.Name), r.1.err)) = some (["A"], none) := by
  decide

/-- C19, the code at the failing input: for
`type Config struct { sync.Mutex; Listen string }` the access `field.Names[0]` on the
embedded field is out of range, and `Visit` ends in a run-time panic: it neither
appends a descriptor nor sets the error of the run. -/
theorem visit_embedded_field_panics :
    Visit asciiCase { configStruct := "Config" }
        (Node.typeSpec "Config" (some (TypeDecl.structType embeddedRecord)))
      = Except.error (Exit.panic "index out of range [0] with length 0") := by
  rfl

/-! ## C18: signature matching -/

theorem textsMatch_iff (want have_ : List String) (h : have_.length = want.length) :
    textsMatch want have_ = true ↔ have_ = want := by
  induction want generalizing have_ with
  | nil =>
    cases have_ with
    | nil => simp [textsMatch]
    | cons t ts => simp at h
  | cons v vs ih =>
    cases have_ with
    | nil => simp at h
    | cons t ts =>
      simp only [List.length_cons, Nat.add_right_cancel_iff] at h
      simp only [textsMatch, List.cons.injEq]
      by_cases hv : v = t
      · subst hv
        simp [ih ts h]
      · have hv2 : ¬ t = v := fun e => hv e.symm
        simp [hv, hv2]

/-- `functionMatches` compares the two lists of type texts with the wanted ones. -/
theorem functionMatches_eq_true (sig : Signature) (params returns : List String) :
    functionMatches sig params returns = true ↔
      sig.Params = params ∧ sig.Results = returns := by
  unfold functionMatches
  by_cases h1 : sig.Params.length = params.length
  · by_cases h2 : sig.Results.length = returns.length
    · have t1 := textsMatch_iff params sig.Params h1
      have t2 := textsMatch_iff returns sig.Results h2
      simp only [ne_eq, h1, h2, not_true_eq_false, ↓reduceIte]
      rw [← t1, ← t2]
      cases textsMatch params sig.Params <;> cases textsMatch returns sig.Results <;> simp
    · have e2 : ¬ sig.Results = returns := fun e => h2 (by rw [e])
      simp only [ne_eq, h1, not_true_eq_false, ↓reduceIte, h2, not_false_eq_true, e2, and_false,
        iff_false]
      split <;> simp
  · have e1 : ¬ sig.Params = params := fun e => h1 (by rw [e])
    simp [h1, e1]

/-- C18: `functionMatches` accepts a signature exactly when the type texts of its
parameters are the wanted parameter texts and the type texts of its results are the
wanted result texts, as lists: the same number of each and the same text at every
position. A signature with one parameter or result too many or too few, or with another
text at some position, is rejected. -/
theorem functionMatches_iff (sig : Signature) (params returns : List String) :
    (functionMatches sig params returns = true ↔
      sig.Params = params ∧ sig.Results = returns) ∧
    (sig.Params.length ≠ params.length → functionMatches sig params returns = false) ∧
    (sig.Results.length ≠ returns.length → functionMatches sig params returns = false) ∧
    (∀ i : Nat, sig.Params[i]? ≠ params[i]? → functionMatches sig params returns = false) ∧
    (∀ i : Nat, sig.Results[i]? ≠ returns[i]? → functionMatches sig params returns = false) := by
  have key := functionMatches_eq_true sig params returns
  have neg : ¬ (sig.Params = params ∧ sig.Results = returns) →
      functionMatches sig params returns = false := by
    intro h
    cases hh : functionMatches sig params returns
    · rfl
    · exact absurd (key.1 hh) h
  refine ⟨key, ?_, ?_, ?_, ?_⟩
  · intro h; exact neg (fun e => h (by rw [e.1]))
  · intro h; exact neg (fun e => h (by rw [e.2]))
  · intro i h; exact neg (fun e => h (by rw [e.1]))
  · intro i h; exact neg (fun e => h (by rw [e.2]))

/-! ## C14: the Enumer probe -/

/-- C14: on a field without strategy the Enumer probe looks up
`typeBasename ++ "String"` in the scope of the target package. When the name is bound to
a function without receiver whose parameter texts are `[string]` and whose result texts
are `[typeImportPath ++ "." ++ typeName, error]`, the field gets the strategy `Enumer`
and is otherwise unchanged; in every other case the probe returns the field as it was.
So the probe sets `Enumer` exactly then. -/
theorem probeEnumer_iff (scope : String → Option Object) (f : Field)
    (hf : f.Strategy = Strategy.Unknown) :
    ((∃ ob sig, scope (f.TypeBasename ++ "String") = some ob ∧ ob.Func = some sig ∧
        sig.Recv = false ∧ sig.Params = ["string"] ∧
        sig.Results = [f.TypeImportPath ++ "." ++ f.TypeName, "error"]) →
      probeEnumer scope f = { f with Strategy := Strategy.Enumer }) ∧
    ((¬ ∃ ob sig, scope (f.TypeBasename ++ "String") = some ob ∧ ob.Func = some sig ∧
        sig.Recv = false ∧ sig.Params = ["string"] ∧
        sig.Results = [f.TypeImportPath ++ "." ++ f.TypeName, "error"]) →
      probeEnumer scope f = f) ∧
    ((probeEnumer scope f).Strategy = Strategy.Enumer ↔
      ∃ ob sig, scope (f.TypeBasename ++ "String") = some ob ∧ ob.Func = some sig ∧
        sig.Recv = false ∧ sig.Params = ["string"] ∧
        sig.Results = [f.TypeImportPath ++ "." ++ f.TypeName, "error"]) := by
  have pos : (∃ ob sig, scope (f.TypeBasename ++ "String") = some ob ∧ ob.Func = some sig ∧
        sig.Recv = false ∧ sig.Params = ["string"] ∧
        sig.Results = [f.TypeImportPath ++ "." ++ f.TypeName, "error"]) →
      probeEnumer scope f = { f with Strategy := Strategy.Enumer } := by
    rintro ⟨ob, sig, h1, h2, h3, h4, h5⟩
    have hm := (functionMatches_eq_true sig ["string"]
      [f.TypeImportPath ++ "." ++ f.TypeName, "error"]).2 ⟨h4, h5⟩
    simp [probeEnumer, hf, h1, h2, h3, hm]
  have neg : (¬ ∃ ob sig, scope (f.TypeBasename ++ "String") = some ob ∧ ob.Func = some sig ∧
        sig.Recv = false ∧ sig.Params = ["string"] ∧
        sig.Results = [f.TypeImportPath ++ "." ++ f.TypeName, "error"]) →
      probeEnumer scope f = f := by
    intro hno
    unfold probeEnumer
    simp only [hf, ne_eq, not_true_eq_false, ↓reduceIte]
    split
    · rfl
    · next ob h1 =>
      split
      · rfl
      · next sig h2 =>
        split
        · next hc =>
          exfalso
          simp only [Bool.and_eq_true, Bool.not_eq_true'] at hc
          exact hno ⟨ob, sig, h1, h2, hc.1,
            (functionMatches_eq_true sig _ _).1 hc.2⟩
        · rfl
  refine ⟨pos, neg, ?_⟩
  constructor
  · intro hs
    by_contra hno
    rw [neg hno, hf] at hs
    exact absurd hs (by decide)
  · intro h
    rw [pos h]

/-- C14, witness: the record `Config` of `testing/testing.go`, with the function
`VerbosityString` in the target package and `zapcore` loaded: the field
`Verbose Verbosity` gets `Enumer`, the base name `Verbosity` and the path of the target
package. -/
theorem probeEnumer_iff_witness :
    probeEnumer testingPackage.Scope
        { Name := "Verbose", FlagName := "verbose", EnvName := "VERBOSE",
          Strategy := Strategy.Unknown, TypeName := "Verbosity", TypeBasename := "Verbosity",
          TypeImportPath := "github.com/wttw/configuration/testing",
          Description := "How chatty to be", Hidden := false }
      = { Name := "Verbose", FlagName := "verbose", EnvName := "VERBOSE",
          Strategy := Strategy.Enumer, TypeName := "Verbosity", TypeBasename := "Verbosity",
          TypeImportPath := "github.com/wttw/configuration/testing",
          Description := "How chatty to be", Hidden := false } ∧
    (generate asciiCase loadZapcore renderNothing writeOk configState testingPackage).fields.map
        (fun f => (f.Name, f.Strategy, f.TypeBasename, f.TypeImportPath))
      = [("Listen", Strategy.Native, "", ""), ("FileCount", Strategy.Native, "", ""),
         ("Files", Strategy.Native, "", ""), ("IP", Strategy.Native, "", ""),
         ("Verbose", Strategy.Enumer, "Verbosity", "github.com/wttw/configuration/testing"),
         ("Logging", Strategy.Set, "Level", "go.uber.org/zap/zapcore"),
         ("Levels", Strategy.Set, "Level", "go.uber.org/zap/zapcore")] :=
  ⟨(probeEnumer_iff testingPackage.Scope _ rfl).1
      ⟨_, _, by rfl, rfl, rfl, rfl, by decide⟩,
    by decide⟩

/-! ## C16: the method probe -/

theorem methodExists_iff (methodSet : String → Option Signature) (methodName : String)
    (params returns : List String) :
    methodExists methodSet methodName params returns = true ↔
      ∃ sig, methodSet methodName = some sig ∧ sig.Params = params ∧
        sig.Results = returns := by
  unfold methodExists
  split
  · next h => simp [h]
  · next sig h =>
    rw [functionMatches_eq_true]
    constructor
    · intro hm; exact ⟨sig, h, hm⟩
    · rintro ⟨s2, h2, hm⟩
      rw [h] at h2
      simp only [Option.some.injEq] at h2
      subst h2
      exact hm

/-- The method loop changes a field only in a package with the path of the field's
type. -/
theorem probeMethods_other_package (p : Package) (f : Field)
    (h : p.PkgPath ≠ f.TypeImportPath) : probeMethods p f = f := by
  unfold probeMethods
  split
  · rfl
  · rw [if_pos (fun e => h e.symm)]

theorem probeAll_other_packages (pkgs : List Package) (f : Field)
    (h : ∀ q ∈ pkgs, q.PkgPath ≠ f.TypeImportPath) :
    pkgs.foldl (fun f p => probeMethods p f) f = f := by
  induction pkgs with
  | nil => rfl
  | cons q qs ih =>
    rw [List.foldl_cons, probeMethods_other_package q f (h q (List.mem_cons_self _ _))]
    exact ih (fun x hx => h x (List.mem_cons_of_mem _ hx))

theorem probeMethods_importPath (p : Package) (f : Field) :
    (probeMethods p f).TypeImportPath = f.TypeImportPath := by
  obtain ⟨s, hs⟩ := probeMethods_only_strategy p f
  rw [hs]
  rfl

/-- C16: for a field without strategy whose type name is bound in the scope of the
package with the field's import path, the method loop decides by the first match in the
order `Set(string) error`, `UnmarshalText([]byte) error`, `Scan(interface{}) error`
over the method set of a pointer to the type: `Set` if the first matches, `Marshal` if
the first does not and the second does, `Scan` if only the third does, and the field is
left as it was if none does (a method matches when the method set binds its name to a
signature with exactly these parameter and result texts). When that package is the only
one of its path among the packages of the loop, this is the outcome of the whole
loop. -/
theorem probeMethods_order (p : Package) (f : Field) (ob : Object)
    (hf : f.Strategy = Strategy.Unknown) (hp : f.TypeImportPath = p.PkgPath)
    (hob : p.Scope f.TypeBasename = some ob) :
    probeMethods p f =
      (if methodExists ob.PtrMethods "Set" ["string"] ["error"] then
        { f with Strategy := Strategy.Set }
      else if methodExists ob.PtrMethods "UnmarshalText" ["[]byte"] ["error"] then
        { f with Strategy := Strategy.Marshal }
      else if methodExists ob.PtrMethods "Scan" ["interface{}"] ["error"] then
        { f with Strategy := Strategy.Scan }
      else f) ∧
    (∀ (methodName : String) (params returns : List String),
      methodExists ob.PtrMethods methodName params returns = true ↔
        ∃ sig, ob.PtrMethods methodName = some sig ∧ sig.Params = params ∧
          sig.Results = returns) ∧
    (∀ front back : List Package,
      (∀ q ∈ front ++ back, q.PkgPath ≠ f.TypeImportPath) →
      methodPhase (front ++ p :: back) [f] = [probeMethods p f]) := by
  refine ⟨?_, fun m ps rs => methodExists_iff ob.PtrMethods m ps rs, ?_⟩
  · simp only [probeMethods, hf, hp, hob, ne_eq, not_true_eq_false, ↓reduceIte]
  · intro front back hq
    rw [methodPhase_eq_map, List.map_singleton, List.foldl_append, List.foldl_cons,
      probeAll_other_packages front f (fun q hx => hq q (List.mem_append_left _ hx)),
      probeAll_other_packages back _ (fun q hx => by
        rw [probeMethods_importPath]
        exact hq q (List.mem_append_right _ hx))]

/-- C16, witness: `Level zc.Level` with `zapcore` loaded gets `Set`, and `zapcore` is in
the imports of the payload; a type that offers both `Set` and `UnmarshalText` gets
`Set`. -/
theorem probeMethods_order_witness :
    probeMethods bothPackage
        { Name := "B", FlagName := "b", EnvName := "B", Strategy := Strategy.Unknown,
          TypeName := "both.Both", TypeBasename := "Both",
          TypeImportPath := "example.com/both", Hidden := false }
      = { Name := "B", FlagName := "b", EnvName := "B", Strategy := Strategy.Set,
          TypeName := "both.Both", TypeBasename := "Both",
          TypeImportPath := "example.com/both", Hidden := false } ∧
    (generate asciiCase loadZapcore renderNothing writeOk levelState barePackage).data.map
        (fun d => (d.Fields.map (fun f => (f.Name, f.Strategy)), d.Imports))
      = some ([("Level", Strategy.Set)],
          [⟨"zc", "go.uber.org/zap/zapcore"⟩, ⟨"", "github.com/spf13/pflag"⟩,
           ⟨"", "os"⟩, ⟨"", "strings"⟩]) :=
  ⟨(probeMethods_order bothPackage _ _ rfl rfl (by rfl)).1.trans (by decide), by decide⟩

/-! ## C17: the split of a qualified type name -/

theorem GoMap.get?_nil (q : String) : GoMap.get? [] q = none := rfl

theorem GoMap.get?_cons (e : String × String) (m : GoMap) (q : String) :
    GoMap.get? (e :: m) q = if e.1 = q then some e.2 else GoMap.get? m q := by
  unfold GoMap.get?
  rw [List.find?_cons]
  by_cases h : e.1 = q
  · have : (e.1 == q) = true := by simpa using h
    rw [this, if_pos h]
    rfl
  · have : (e.1 == q) = false := by simpa using h
    rw [this, if_neg h]

theorem GoMap.get?_map_set (m : GoMap) (k v q : String) :
    GoMap.get? (m.map (fun e => if (e.1 == k) = true then (k, v) else e)) q
      = if q = k then (if m.any (fun e => e.1 == k) then some v else none)
        else GoMap.get? m q := by
  induction m with
  | nil => simp [GoMap.get?_nil]
  | cons e rest ih =>
    rw [List.map_cons, GoMap.get?_cons, ih, GoMap.get?_cons, List.any_cons]
    by_cases hek : e.1 = k
    · by_cases hq : q = k
      · subst hq
        simp [hek]
      · have h1 : ¬ k = q := fun h => hq h.symm
        have h2 : ¬ e.1 = q := fun h => hq (h.symm.trans hek)
        simp [hek, hq, h1, h2]
    · by_cases hq : q = k
      · subst hq
        have hb : (e.1 == q) = false := by simpa using hek
        rw [hb, Bool.false_or]
        simp [hek]
      · simp [hek, hq]

/-- A lookup after an assignment. -/
theorem GoMap.get?_set (m : GoMap) (k v q : String) :
    (m.set k v).get? q = if q = k then some v else m.get? q := by
  unfold GoMap.set
  split
  · next h =>
    rw [GoMap.get?_map_set, h]
    simp
  · next h =>
    have hnone : ∀ l : GoMap, (l.any (fun e => e.1 == k)) = false →
        GoMap.get? (l ++ [(k, v)]) q = if q = k then some v else GoMap.get? l q := by
      intro l
      induction l with
      | nil =>
        intro _
        rw [List.nil_append, GoMap.get?_cons, GoMap.get?_nil]
        by_cases hq : q = k
        · subst hq; simp
        · have : ¬ k = q := fun h => hq h.symm
          simp [hq, this]
      | cons e rest ih =>
        intro hl
        rw [List.any_cons, Bool.or_eq_false_iff] at hl
        have hek : ¬ e.1 = k := by simpa using hl.1
        rw [List.cons_append, GoMap.get?_cons, ih hl.2, GoMap.get?_cons]
        by_cases heq : e.1 = q
        · have : ¬ q = k := fun h => hek (heq.trans h)
          simp [heq, this]
        · simp [heq]
    exact hnone m (by
      cases hh : m.any (fun e => e.1 == k)
      · rfl
      · exact absurd hh h)

theorem importMap_step (m : GoMap) (im : ImportSpec) :
    (match im.Name with
      | none => m.set (pathBase im.Path) im.Path
      | some name => m.set name im.Path) = m.set (localName im) im.Path := by
  unfold localName
  cases im.Name <;> rfl

/-- The import map binds a local name to the path of the last captured import with that
local name. -/
theorem importMap_get? (imports : List ImportSpec) (q : String) :
    (importMap imports).get? q
      = (imports.reverse.find? (fun im => localName im == q)).map (fun im => im.Path) := by
  have key : ∀ (l : List ImportSpec) (m : GoMap),
      GoMap.get? (l.foldl (fun m im =>
        match im.Name with
        | none => m.set (pathBase im.Path) im.Path
        | some name => m.set name im.Path) m) q
      = ((l.reverse.find? (fun im => localName im == q)).map (fun im => im.Path)).or
          (m.get? q) := by
    intro l
    induction l with
    | nil => intro m; simp
    | cons im ims ih =>
      intro m
      rw [List.foldl_cons, ih, List.reverse_cons, List.find?_append, importMap_step,
        GoMap.get?_set]
      cases hf : ims.reverse.find? (fun im => localName im == q) with
      | some x => simp
      | none =>
        rw [List.find?_cons]
        by_cases hq : localName im = q
        · have h1 : (localName im == q) = true := by simpa using hq
          simp [h1, hq]
        · have h1 : (localName im == q) = false := by simpa using hq
          have h2 : ¬ q = localName im := fun h => hq h.symm
          simp [h1, h2]
  unfold importMap
  rw [key, GoMap.get?_nil]
  simp


theorem splitDot_no_dot (s : List Char) (h : '.' ∉ s) : splitDot s = [s] := by
  induction s with
  | nil => rfl
  | cons c cs ih =>
    have hc : c ≠ '.' := fun e => h (by rw [e]; exact List.mem_cons_self _ _)
    have hcs : '.' ∉ cs := fun e => h (List.mem_cons_of_mem _ e)
    simp only [splitDot, hc, ↓reduceIte, ih hcs]

theorem splitDot_qualified (q t : List Char) (hq : '.' ∉ q) (ht : '.' ∉ t) :
    splitDot (q ++ '.' :: t) = [q, t] := by
  induction q with
  | nil => simp only [List.nil_append, splitDot, ↓reduceIte, splitDot_no_dot t ht]
  | cons c cs ih =>
    have hc : c ≠ '.' := fun e => hq (by rw [e]; exact List.mem_cons_self _ _)
    have hcs : '.' ∉ cs := fun e => hq (List.mem_cons_of_mem _ e)
    have e : splitDot (c :: (cs ++ '.' :: t))
        = (match splitDot (cs ++ '.' :: t) with
          | p :: ps => (c :: p) :: ps
          | [] => [[c]]) := by
      rw [splitDot, if_neg hc]
    rw [List.cons_append, e, ih hcs]

theorem resolveNative_unknown (f : Field) (hf : f.Strategy = Strategy.Unknown)
    (hn : nativeFn f.TypeName = "") : resolveNative f = f := by
  simp [resolveNative, hf, hn]

theorem resolveNative_unknown_inv (f : Field)
    (h : (resolveNative f).Strategy = Strategy.Unknown) :
    f.Strategy = Strategy.Unknown ∧ nativeFn f.TypeName = "" ∧ resolveNative f = f := by
  unfold resolveNative at h ⊢
  split at h
  · next hk => exact absurd h hk
  · next hk =>
    have hu : f.Strategy = Strategy.Unknown := by simpa using hk
    dsimp only at h ⊢
    split at h
    · simp at h
    · next hn =>
      have hn2 : nativeFn f.TypeName = "" := by simpa using hn
      refine ⟨hu, hn2, ?_⟩
      simp [hu, hn2]

theorem splitField_error_unknown (imports : GoMap) (pkgPath configStruct : String) (f : Field)
    (e : String) (h : (splitField imports pkgPath configStruct f).2.2 = some e) :
    f.Strategy = Strategy.Unknown := by
  by_contra hk
  rw [splitField_of_known _ _ _ _ hk] at h
  simp at h

/-- When the split loop ends with an error, it is the error of the loop body for one of
the fields. -/
theorem splitPhase_error (imports : GoMap) (pkgPath configStruct : String)
    (fields : List Field) (needed : List String) (e : String)
    (h : (splitPhase imports pkgPath configStruct fields needed).2.2 = some e) :
    ∃ f ∈ fields, (splitField imports pkgPath configStruct f).2.2 = some e := by
  induction fields generalizing needed with
  | nil => simp [splitPhase] at h
  | cons f rest ih =>
    rw [splitPhase] at h
    split at h
    · next f2 a err heq =>
      simp only [Option.some.injEq] at h
      subst h
      exact ⟨f, List.mem_cons_self _ _, by rw [heq]⟩
    · next f2 add heq =>
      obtain ⟨g, hg, he⟩ := ih _ h
      exact ⟨g, List.mem_cons_of_mem _ hg, he⟩

/-- An error of the split loop is the error of `generate`, which then returns before the
renderer. -/
theorem generate_split_error (cm : CaseMap)
    (load : List String → Except String (List Package))
    (render : Result → String × Option String) (writeFile : String → String → Option String)
    (vis : state) (pkg : Package) (e : String)
    (h : (splitPhase (importMap vis.imports) pkg.PkgPath vis.configStruct
        (nativePhase vis.fields) []).2.2 = some e) :
    (generate cm load render writeFile vis pkg).err = some e ∧
    (generate cm load render writeFile vis pkg).data = none ∧
    (generate cm load render writeFile vis pkg).written = none := by
  unfold generate
  dsimp only
  split
  · next fields needed err heq =>
    rw [heq] at h
    simp only [Option.some.injEq] at h
    subst h
    exact ⟨rfl, rfl, rfl⟩
  · next fields needed heq =>
    rw [heq] at h
    simp at h


/-- C17: the split loop of `generate`, for a field that is still without strategy after
the native table. When the type name without a leading `[]` is `q.T` (no dot in `q` or
`T`), the loop body sets the base name `T` and the import path that the import map binds
to `q`, and records that path as needed; when the map binds nothing to `q` it raises
`cannot find import 'q' for <Record>.<Field>`. When the stripped type name holds no dot,
the base name is the whole type name and the import path is the path of the target
package. The import map binds a local name (the explicit name of an import, or else the
last element of its path) to the path of the last captured import with that local name.
If the loop raises no error, every such field leaves `generate` with the base name
and import path of the loop body; if it raises one, `generate` returns it, the first in
field order, without rendering, and it does so whenever the body raises an error for
some field. -/
theorem splitField_resolves (cm : CaseMap)
    (load : List String → Except String (List Package))
    (render : Result → String × Option String) (writeFile : String → String → Option String)
    (vis : state) (pkg : Package) :
    (∀ f : Field, f.Strategy = Strategy.Unknown →
      (∀ q T : List Char, trimSlicePrefix f.TypeName.data = q ++ '.' :: T →
        '.' ∉ q → '.' ∉ T →
        (∀ p, (importMap vis.imports).get? ⟨q⟩ = some p →
          splitField (importMap vis.imports) pkg.PkgPath vis.configStruct f
            = ({ f with TypeBasename := ⟨T⟩, TypeImportPath := p }, some p, none)) ∧
        ((importMap vis.imports).get? ⟨q⟩ = none →
          (splitField (importMap vis.imports) pkg.PkgPath vis.configStruct f).2.2
            = some ("cannot find import '" ++ ⟨q⟩ ++ "' for " ++ vis.configStruct ++ "."
                ++ f.Name))) ∧
      ('.' ∉ trimSlicePrefix f.TypeName.data →
        splitField (importMap vis.imports) pkg.PkgPath vis.configStruct f
          = ({ f with TypeBasename := f.TypeName, TypeImportPath := pkg.PkgPath },
              none, none))) ∧
    (∀ q : String, (importMap vis.imports).get? q
      = (vis.imports.reverse.find? (fun im => localName im == q)).map (fun im => im.Path)) ∧
    ((splitPhase (importMap vis.imports) pkg.PkgPath vis.configStruct
        (nativePhase vis.fields) []).2.2 = none →
      Forall₂ (fun f g => f.Strategy = Strategy.Unknown → nativeFn f.TypeName = "" →
          g.TypeBasename
            = (splitField (importMap vis.imports) pkg.PkgPath vis.configStruct f).1.TypeBasename ∧
          g.TypeImportPath
            = (splitField (importMap vis.imports) pkg.PkgPath
                vis.configStruct f).1.TypeImportPath)
        vis.fields (generate cm load render writeFile vis pkg).fields) ∧
    (∀ e, (splitPhase (importMap vis.imports) pkg.PkgPath vis.configStruct
        (nativePhase vis.fields) []).2.2 = some e →
      (generate cm load render writeFile vis pkg).err = some e ∧
      (generate cm load render writeFile vis pkg).data = none ∧
      ∃ f ∈ vis.fields, f.Strategy = Strategy.Unknown ∧ nativeFn f.TypeName = "" ∧
        (splitField (importMap vis.imports) pkg.PkgPath vis.configStruct f).2.2 = some e) ∧
    (∀ f ∈ vis.fields, f.Strategy = Strategy.Unknown → nativeFn f.TypeName = "" →
      (splitField (importMap vis.imports) pkg.PkgPath vis.configStruct f).2.2 ≠ none →
      (generate cm load render writeFile vis pkg).err ≠ none ∧
      (generate cm load render writeFile vis pkg).data = none) := by
  refine ⟨?_, fun q => importMap_get? vis.imports q, ?_, ?_, ?_⟩
  · intro f hf
    refine ⟨?_, ?_⟩
    · intro q T hform hq hT
      have hs := splitDot_qualified q T hq hT
      rw [← hform] at hs
      refine ⟨?_, ?_⟩
      · intro p hp
        simp only [splitField, hf, ne_eq, not_true_eq_false, ↓reduceIte, hs, hp]
      · intro hp
        simp only [splitField, hf, ne_eq, not_true_eq_false, ↓reduceIte, hs, hp]
    · intro hdot
      have hs := splitDot_no_dot _ hdot
      simp only [splitField, hf, ne_eq, not_true_eq_false, ↓reduceIte, hs]
  · intro hok
    obtain ⟨h, _, hs, heq⟩ := generate_fields_eq cm load render writeFile vis pkg
    obtain ⟨hmap, _⟩ := splitPhase_ok _ _ _ _ _ hok
    rw [heq, hmap, nativePhase, List.map_map, List.map_map, forall₂_map_right_iff,
      forall₂_same]
    intro f _ hf hn
    simp only [Function.comp_apply]
    rw [resolveNative_unknown f hf hn]
    obtain ⟨s, hs1⟩ := hs (splitField (importMap vis.imports) pkg.PkgPath vis.configStruct f).1
    rw [hs1]
    exact ⟨rfl, rfl⟩
  · intro e he
    obtain ⟨h1, h2, _⟩ := generate_split_error cm load render writeFile vis pkg e he
    refine ⟨h1, h2, ?_⟩
    obtain ⟨f1, hf1, herr⟩ := splitPhase_error _ _ _ _ _ e he
    rw [nativePhase, List.mem_map] at hf1
    obtain ⟨f0, hf0, rfl⟩ := hf1
    obtain ⟨a, b, c⟩ := resolveNative_unknown_inv f0
      (splitField_error_unknown _ _ _ _ e herr)
    rw [c] at herr
    exact ⟨f0, hf0, a, b, herr⟩
  · intro f hfm hf hn herr
    cases hsp : (splitPhase (importMap vis.imports) pkg.PkgPath vis.configStruct
        (nativePhase vis.fields) []).2.2 with
    | none =>
      exfalso
      obtain ⟨_, hall⟩ := splitPhase_ok _ _ _ _ _ hsp
      have := hall (resolveNative f) (by
        rw [nativePhase]; exact List.mem_map_of_mem _ hfm)
      rw [resolveNative_unknown f hf hn] at this
      exact herr this
    | some e =>
      obtain ⟨h1, h2, _⟩ := generate_split_error cm load render writeFile vis pkg e hsp
      exact ⟨by rw [h1]; simp, h2⟩

/-- C17, witness: `Level zc.Level` in a file that imports `go.uber.org/zap/zapcore` as
`zc` gets the base name `Level` and that path; in a file without the import, `generate`
returns the error that names `zc`, `Config` and `Level`. -/
theorem splitField_resolves_witness :
    splitField (importMap levelState.imports) barePackage.PkgPath "Config"
        { Name := "Level", FlagName := "level", EnvName := "LEVEL",
          Strategy := Strategy.Unknown, TypeName := "zc.Level", Hidden := false }
      = ({ Name := "Level", FlagName := "level", EnvName := "LEVEL",
           Strategy := Strategy.Unknown, TypeName := "zc.Level", TypeBasename := "Level",
           TypeImportPath := "go.uber.org/zap/zapcore", Hidden := false },
          some "go.uber.org/zap/zapcore", none) ∧
    (generate asciiCase loadNothing renderNothing writeOk unboundState barePackage).err
      = some "cannot find import 'zc' for Config.Level" ∧
    (generate asciiCase loadNothing renderNothing writeOk unboundState barePackage).data
      = none :=
  ⟨((splitField_resolves asciiCase loadNothing renderNothing writeOk levelState
        barePackage).1
        { Name := "Level", FlagName := "level", EnvName := "LEVEL",
          Strategy := Strategy.Unknown, TypeName := "zc.Level", Hidden := false }
        rfl).1 "zc".data "Level".data (by decide) (by decide) (by decide) |>.1
      "go.uber.org/zap/zapcore" (by decide),
    ((splitField_resolves asciiCase loadNothing renderNothing writeOk unboundState
        barePackage).2.2.2.1 "cannot find import 'zc' for Config.Level" (by decide)).1,
    ((splitField_resolves asciiCase loadNothing renderNothing writeOk unboundState
        barePackage).2.2.2.1 "cannot find import 'zc' for Config.Level" (by decide)).2.1⟩

/-! ## C20: slices of unqualified names -/

/-- The three ways in which `generate` can end, with the fields it leaves behind. -/
theorem generate_fields_cases (cm : CaseMap)
    (load : List String → Except String (List Package))
    (render : Result → String × Option String) (writeFile : String → String → Option String)
    (vis : state) (pkg : Package) :
    ((splitPhase (importMap vis.imports) pkg.PkgPath vis.configStruct
          (nativePhase vis.fields) []).2.2 ≠ none ∧
      (generate cm load render writeFile vis pkg).fields
        = (splitPhase (importMap vis.imports) pkg.PkgPath vis.configStruct
            (nativePhase vis.fields) []).1) ∨
    ((splitPhase (importMap vis.imports) pkg.PkgPath vis.configStruct
          (nativePhase vis.fields) []).2.2 = none ∧
      ∃ pkgs : List Package,
        (∀ p ∈ pkgs, p = pkg ∨ ∃ loaded, load (splitPhase (importMap vis.imports) pkg.PkgPath
            vis.configStruct (nativePhase vis.fields) []).2.1 = Except.ok loaded ∧ p ∈ loaded) ∧
        (generate cm load render writeFile vis pkg).fields
          = methodPhase pkgs (enumerPhase pkg.Scope
              (splitPhase (importMap vis.imports) pkg.PkgPath vis.configStruct
                (nativePhase vis.fields) []).1)) := by
  unfold generate
  dsimp only
  split
  · next fields needed err heq =>
    left
    simp [heq]
  · next fields needed heq =>
    right
    simp only [heq, true_and]
    split
    · next e hl =>
      exact ⟨[], fun p hp => absurd hp (List.not_mem_nil _), rfl⟩
    · next pkgs hl =>
      refine ⟨pkgs ++ [pkg], ?_, ?_⟩
      · intro p hp
        rcases List.mem_append.1 hp with h | h
        · exact Or.inr ⟨pkgs, hl, h⟩
        · exact Or.inl (List.mem_singleton.1 h)
      · split <;> rfl

theorem probeEnumer_unbound (scope : String → Option Object) (f : Field)
    (h : scope (f.TypeBasename ++ "String") = none) : probeEnumer scope f = f := by
  unfold probeEnumer
  split
  · rfl
  · simp only [h]

theorem probeMethods_unbound (p : Package) (f : Field)
    (h : p.Scope f.TypeBasename = none) : probeMethods p f = f := by
  unfold probeMethods
  split
  · rfl
  · split
    · rfl
    · simp only [h]

theorem probeAll_unbound (pkgs : List Package) (f : Field)
    (h : ∀ p ∈ pkgs, p.Scope f.TypeBasename = none) :
    pkgs.foldl (fun f p => probeMethods p f) f = f := by
  induction pkgs with
  | nil => rfl
  | cons q qs ih =>
    rw [List.foldl_cons, probeMethods_unbound q f (h q (List.mem_cons_self _ _))]
    exact ih (fun x hx => h x (List.mem_cons_of_mem _ hx))

/-- C20: a field that is still without strategy after the native table and whose type
name is `[]T` with no dot in `T` gets from the split loop the whole text `[]T` as base
name and the path of the target package; and as no scope binds a name that begins with
a bracket, neither the Enumer probe nor the method probe gives it a strategy: it leaves
`generate` with the strategy `Unknown`, whatever is declared for `T`. -/
theorem generate_unqualified_slice (cm : CaseMap)
    (load : List String → Except String (List Package))
    (render : Result → String × Option String) (writeFile : String → String → Option String)
    (vis : state) (pkg : Package)
    (hscope : ∀ name : String, name.data.head? = some '[' → pkg.Scope name = none)
    (hload : ∀ needed loaded, load needed = Except.ok loaded →
      ∀ p ∈ loaded, ∀ name : String, name.data.head? = some '[' → p.Scope name = none) :
    Forall₂ (fun f g => f.Strategy = Strategy.Unknown → nativeFn f.TypeName = "" →
        ∀ T : List Char, f.TypeName.data = '[' :: ']' :: T → '.' ∉ T →
        g.Strategy = Strategy.Unknown ∧
        ((splitPhase (importMap vis.imports) pkg.PkgPath vis.configStruct
            (nativePhase vis.fields) []).2.2 = none →
          g = { f with TypeBasename := f.TypeName, TypeImportPath := pkg.PkgPath }))
      vis.fields (generate cm load render writeFile vis pkg).fields := by
  have hsf : ∀ f : Field, f.Strategy = Strategy.Unknown →
      ∀ T : List Char, f.TypeName.data = '[' :: ']' :: T → '.' ∉ T →
      (splitField (importMap vis.imports) pkg.PkgPath vis.configStruct f).1
        = { f with TypeBasename := f.TypeName, TypeImportPath := pkg.PkgPath } := by
    intro f hf T hT hdot
    have hs : splitDot (trimSlicePrefix f.TypeName.data) = [T] := by
      rw [hT]
      exact splitDot_no_dot T hdot
    simp only [splitField, hf, ne_eq, not_true_eq_false, ↓reduceIte, hs]
  rcases generate_fields_cases cm load render writeFile vis pkg with ⟨herr, heq⟩ |
    ⟨hok, pkgs, hmem, heq⟩
  · rw [heq]
    have hsp := splitPhase_forall₂ (importMap vis.imports) pkg.PkgPath vis.configStruct
      (nativePhase vis.fields) []
    rw [nativePhase, forall₂_map_left_iff] at hsp
    refine hsp.imp ?_
    intro f g hfg hf hn T hT hdot
    rw [resolveNative_unknown f hf hn] at hfg
    refine ⟨?_, fun h => absurd h herr⟩
    rcases hfg with h1 | h1
    · rw [h1]; exact hf
    · rw [h1, hsf f hf T hT hdot]; exact hf
  · obtain ⟨hmap, _⟩ := splitPhase_ok _ _ _ _ _ hok
    rw [heq, hmap, nativePhase, enumerPhase, methodPhase_eq_map, List.map_map, List.map_map,
      List.map_map, forall₂_map_right_iff, forall₂_same]
    intro f _ hf hn T hT hdot
    simp only [Function.comp_apply]
    rw [resolveNative_unknown f hf hn, hsf f hf T hT hdot]
    have hhead : ∀ s : String, (f.TypeName ++ s).data.head? = some '[' := by
      intro s
      rw [data_append, hT]
      rfl
    have h1 : probeEnumer pkg.Scope
        { f with TypeBasename := f.TypeName, TypeImportPath := pkg.PkgPath }
        = { f with TypeBasename := f.TypeName, TypeImportPath := pkg.PkgPath } :=
      probeEnumer_unbound _ _ (hscope _ (hhead "String"))
    have hname : f.TypeName.data.head? = some '[' := by rw [hT]; rfl
    have h2 : pkgs.foldl (fun f p => probeMethods p f)
        { f with TypeBasename := f.TypeName, TypeImportPath := pkg.PkgPath }
        = { f with TypeBasename := f.TypeName, TypeImportPath := pkg.PkgPath } := by
      apply probeAll_unbound
      intro p hp
      rcases hmem p hp with rfl | ⟨loaded, hl, hpl⟩
      · exact hscope _ hname
      · exact hload _ loaded hl p hpl _ hname
    rw [h1, h2]
    exact ⟨hf, fun _ => rfl⟩


/-- C20, witness: `Levels []Verbosity` in the package of `testing/testing.go`, where
`VerbosityString` and a method on `Verbosity` exist: the field leaves `generate` without
strategy, with the base name `[]Verbosity`. -/
theorem generate_unqualified_slice_witness :
    (generate asciiCase loadNothing renderNothing writeOk sliceState
        testingPackage).fields.map (fun g => (g.Strategy, g.TypeBasename, g.TypeImportPath))
      = [(Strategy.Unknown, "[]Verbosity", "github.com/wttw/configuration/testing")] ∧
    Forall₂ (fun f g => f.Strategy = Strategy.Unknown → nativeFn f.TypeName = "" →
        ∀ T : List Char, f.TypeName.data = '[' :: ']' :: T → '.' ∉ T →
        g.Strategy = Strategy.Unknown ∧
        ((splitPhase (importMap sliceState.imports) testingPackage.PkgPath
            sliceState.configStruct (nativePhase sliceState.fields) []).2.2 = none →
          g = { f with TypeBasename := f.TypeName,
                       TypeImportPath := testingPackage.PkgPath }))
      sliceState.fields
      (generate asciiCase loadNothing renderNothing writeOk sliceState
        testingPackage).fields :=
  ⟨by decide,
    generate_unqualified_slice asciiCase loadNothing renderNothing writeOk sliceState
      testingPackage
      (fun name hn => by
        have h1 : name ≠ "Verbosity" := fun e => by rw [e] at hn; exact absurd hn (by decide)
        have h2 : name ≠ "VerbosityString" := fun e => by
          rw [e] at hn; exact absurd hn (by decide)
        simp [testingPackage, h1, h2])
      (fun needed loaded hl p hp => by
        simp only [loadNothing, Except.ok.injEq] at hl
        rw [← hl] at hp
        exact absurd hp (List.not_mem_nil _))⟩

/-! ## C15: the alias of the flag library and the import list -/

theorem collectImports_out (pp : String) (needed : List String) (m : GoMap)
    (acc : String × Bool × List Import) :
    (collectImports pp needed m acc).2.2
      = acc.2.2 ++ (m.filter (fun e => needed.contains e.2)).map
          (fun e => ({ Name := e.1, Path := e.2 } : Import)) := by
  induction m generalizing acc with
  | nil => obtain ⟨p, i, out⟩ := acc; simp [collectImports]
  | cons e rest ih =>
    obtain ⟨p, i, out⟩ := acc
    obtain ⟨k, v⟩ := e
    rw [collectImports, ih]
    by_cases hc : v ∈ needed
    · simp [hc, List.filter_cons]
    · simp [hc, List.filter_cons]

theorem collectImports_none (pp : String) (needed : List String) (m : GoMap)
    (acc : String × Bool × List Import) (h : ∀ e ∈ m, e.2 ≠ pp) :
    (collectImports pp needed m acc).1 = acc.1 ∧
      (collectImports pp needed m acc).2.1 = acc.2.1 := by
  induction m generalizing acc with
  | nil => obtain ⟨p, i, out⟩ := acc; simp [collectImports]
  | cons e rest ih =>
    obtain ⟨p, i, out⟩ := acc
    obtain ⟨k, v⟩ := e
    have hv : v ≠ pp := h (k, v) (List.mem_cons_self _ _)
    rw [collectImports]
    have := ih (if v = pp then k else p, if v = pp then true else i,
      if needed.contains v = true then out ++ [{ Name := k, Path := v }] else out)
      (fun x hx => h x (List.mem_cons_of_mem _ hx))
    simpa [hv] using this

theorem collectImports_some (pp : String) (needed : List String) (m : GoMap)
    (acc : String × Bool × List Import) (h : ∃ e ∈ m, e.2 = pp) :
    (collectImports pp needed m acc).2.1 = true ∧
      ∃ k, (k, pp) ∈ m ∧ (collectImports pp needed m acc).1 = k := by
  induction m generalizing acc with
  | nil => obtain ⟨e, he, _⟩ := h; simp at he
  | cons e rest ih =>
    obtain ⟨p, i, out⟩ := acc
    obtain ⟨k, v⟩ := e
    rw [collectImports]
    by_cases hr : ∃ x ∈ rest, x.2 = pp
    · obtain ⟨h1, k2, h2, h3⟩ := ih (if v = pp then k else p, if v = pp then true else i,
        if needed.contains v = true then out ++ [{ Name := k, Path := v }] else out) hr
      exact ⟨h1, k2, List.mem_cons_of_mem _ h2, h3⟩
    · have hr2 : ∀ x ∈ rest, x.2 ≠ pp := fun x hx hxp => hr ⟨x, hx, hxp⟩
      obtain ⟨h1, h2⟩ := collectImports_none pp needed rest
        (if v = pp then k else p, if v = pp then true else i,
          if needed.contains v = true then out ++ [{ Name := k, Path := v }] else out) hr2
      have hv : v = pp := by
        obtain ⟨x, hx, hxp⟩ := h
        rcases List.mem_cons.1 hx with rfl | hx
        · exact hxp
        · exact absurd hxp (hr2 x hx)
      rw [h1, h2]
      subst hv
      simp only [↓reduceIte, true_and]
      exact ⟨k, List.mem_cons_self _ _, rfl⟩

/-- Every entry of the import map is the local name and the path of a captured import. -/
theorem importMap_mem_localName (imports : List ImportSpec) (e : String × String)
    (h : e ∈ importMap imports) : ∃ im ∈ imports, localName im = e.1 ∧ im.Path = e.2 := by
  unfold importMap at h
  have key : ∀ (l : List ImportSpec) (m : GoMap),
      e ∈ l.foldl (fun m im =>
        match im.Name with
        | none => m.set (pathBase im.Path) im.Path
        | some name => m.set name im.Path) m →
      e ∈ m ∨ ∃ im ∈ l, localName im = e.1 ∧ im.Path = e.2 := by
    intro l
    induction l with
    | nil => intro m hm; exact Or.inl hm
    | cons im ims ih =>
      intro m hm
      rw [List.foldl_cons, importMap_step] at hm
      rcases ih _ hm with h1 | ⟨im2, h2, h3⟩
      · rcases GoMap.mem_set _ _ _ _ h1 with h1 | h1
        · exact Or.inl h1
        · exact Or.inr ⟨im, List.mem_cons_self _ _, by rw [h1], by rw [h1]⟩
      · exact Or.inr ⟨im2, List.mem_cons_of_mem _ h2, h3⟩
  rcases key imports [] h with h | h
  · simp at h
  · exact h

theorem GoMap.get?_mem_key (m : GoMap) (k v : String) (h : m.get? k = some v) :
    (k, v) ∈ m := by
  unfold GoMap.get? at h
  rw [Option.map_eq_some'] at h
  obtain ⟨e, he, hv⟩ := h
  have hk := List.find?_some he
  have hm := List.mem_of_find?_eq_some he
  have : e = (k, v) := by
    obtain ⟨a, b⟩ := e
    simp only [beq_iff_eq] at hk
    simp only at hv
    rw [hk, hv]
  rw [← this]
  exact hm

theorem mem_addNeeded (needed : List String) (q p : String) :
    p ∈ addNeeded needed q ↔ p ∈ needed ∨ p = q := by
  unfold addNeeded
  split
  · next h =>
    have hq : q ∈ needed := by simpa using h
    constructor
    · intro hp; exact Or.inl hp
    · rintro (hp | rfl)
      · exact hp
      · exact hq
  · simp

/-- Every path that the split loop records as needed is bound in the import map. -/
theorem splitPhase_needed (imports : GoMap) (pkgPath configStruct : String)
    (fields : List Field) (needed : List String) (p : String)
    (h : p ∈ (splitPhase imports pkgPath configStruct fields needed).2.1) :
    p ∈ needed ∨ ∃ k, (k, p) ∈ imports := by
  induction fields generalizing needed with
  | nil => exact Or.inl h
  | cons f rest ih =>
    rw [splitPhase] at h
    split at h
    · exact Or.inl h
    · next f2 add heq =>
      rcases ih _ h with h1 | h1
      · cases add with
        | none => exact Or.inl h1
        | some found =>
          rcases (mem_addNeeded needed found p).1 h1 with h2 | h2
          · exact Or.inl h2
          · right
            subst h2
            unfold splitField at heq
            split at heq
            · simp at heq
            · dsimp only at heq
              split at heq
              · next q base hq =>
                split at heq
                · simp at heq
                · next found2 hget =>
                  simp only [Prod.mk.injEq, Option.some.injEq, and_true] at heq
                  rw [← heq.2]
                  exact ⟨_, GoMap.get?_mem_key _ _ _ hget⟩
              · simp at heq
      · exact Or.inr h1

/-- The payload that `generate` hands to the renderer is the one built from the import
map, the needed paths of the split loop, and the fields as the probes left them. -/
theorem generate_data_eq (cm : CaseMap) (load : List String → Except String (List Package))
    (render : Result → String × Option String) (writeFile : String → String → Option String)
    (vis : state) (pkg : Package) (d : Result)
    (hd : (generate cm load render writeFile vis pkg).data = some d) :
    d = buildResult vis (importMap vis.imports)
      (splitPhase (importMap vis.imports) pkg.PkgPath vis.configStruct
        (nativePhase vis.fields) []).2.1
      (generate cm load render writeFile vis pkg).fields := by
  unfold generate at hd ⊢
  dsimp only at hd ⊢
  split at hd
  · simp at hd
  · next fields needed heq =>
    split at hd
    · simp at hd
    · next pkgs hl =>
      have hd2 : d = buildResult vis (importMap vis.imports) needed
          (methodPhase (pkgs ++ [pkg]) (enumerPhase pkg.Scope fields)) := by
        split at hd <;> simp at hd <;> exact hd.symm
      subst hd2
      simp only [heq, hl]
      split <;> rfl

/-- The alias of the flag library in the payload. -/
theorem buildResult_pflag (vis : state) (m : GoMap) (needed : List String)
    (fields : List Field) :
    ((∀ e ∈ m, e.2 ≠ vis.pflagPath) →
      (buildResult vis m needed fields).Pflag = pathBase vis.pflagPath) ∧
    ((∃ e ∈ m, e.2 = vis.pflagPath) →
      ∃ k, (k, vis.pflagPath) ∈ m ∧
        (k ≠ "" → (buildResult vis m needed fields).Pflag = k)) := by
  refine ⟨?_, ?_⟩
  · intro h
    have := (collectImports_none vis.pflagPath (addNeeded needed vis.pflagPath) m
      ("", false, []) h).1
    simp only [buildResult, this, ↓reduceIte]
  · intro h
    obtain ⟨_, k, hk, hk2⟩ := collectImports_some vis.pflagPath
      (addNeeded needed vis.pflagPath) m ("", false, []) h
    refine ⟨k, hk, fun hne => ?_⟩
    simp only [buildResult, hk2, hne, ↓reduceIte]

theorem mem_foldl_additional (needed : List String) (out : List Import) :
    (∀ i ∈ out, i ∈ additionalImports.foldl
      (fun out e => if !needed.contains e.1 then out ++ [{ Name := e.2, Path := e.1 }]
        else out) out) ∧
    ("os" ∉ needed → ∃ i ∈ additionalImports.foldl
      (fun out e => if !needed.contains e.1 then out ++ [{ Name := e.2, Path := e.1 }]
        else out) out, i.Path = "os") ∧
    ("strings" ∉ needed → ∃ i ∈ additionalImports.foldl
      (fun out e => if !needed.contains e.1 then out ++ [{ Name := e.2, Path := e.1 }]
        else out) out, i.Path = "strings") := by
  simp only [additionalImports, List.foldl_cons, List.foldl_nil]
  refine ⟨?_, ?_, ?_⟩
  · intro i hi
    by_cases h1 : "os" ∈ needed <;> by_cases h2 : "strings" ∈ needed <;> simp [h1, h2, hi]
  · intro h1
    refine ⟨{ Name := "", Path := "os" }, ?_, rfl⟩
    by_cases h2 : "strings" ∈ needed <;> simp [h1, h2]
  · intro h2
    refine ⟨{ Name := "", Path := "strings" }, ?_, rfl⟩
    by_cases h1 : "os" ∈ needed <;> simp [h1, h2]

/-- The import list of the payload. -/
theorem buildResult_imports (vis : state) (m : GoMap) (needed : List String)
    (fields : List Field) (hn : ∀ p ∈ needed, ∃ k, (k, p) ∈ m) :
    (∃ i ∈ (buildResult vis m needed fields).Imports, i.Path = vis.pflagPath) ∧
    (∀ p ∈ needed, ∃ i ∈ (buildResult vis m needed fields).Imports, i.Path = p) ∧
    (∃ i ∈ (buildResult vis m needed fields).Imports, i.Path = "os") ∧
    (∃ i ∈ (buildResult vis m needed fields).Imports, i.Path = "strings") := by
  have hout := collectImports_out vis.pflagPath (addNeeded needed vis.pflagPath) m
    ("", false, [])
  have hadd := mem_foldl_additional (addNeeded needed vis.pflagPath)
    (if (!(collectImports vis.pflagPath (addNeeded needed vis.pflagPath) m
        ("", false, [])).2.1) = true then
      (collectImports vis.pflagPath (addNeeded needed vis.pflagPath) m ("", false, [])).2.2
        ++ [{ Name := "", Path := vis.pflagPath }]
    else (collectImports vis.pflagPath (addNeeded needed vis.pflagPath) m ("", false, [])).2.2)
  have hentry : ∀ k p, (k, p) ∈ m → p ∈ addNeeded needed vis.pflagPath →
      ∃ i ∈ (buildResult vis m needed fields).Imports, i.Path = p := by
    intro k p hkp hp
    refine ⟨{ Name := k, Path := p }, ?_, rfl⟩
    apply hadd.1
    have : ({ Name := k, Path := p } : Import)
        ∈ (collectImports vis.pflagPath (addNeeded needed vis.pflagPath) m
            ("", false, [])).2.2 := by
      rw [hout]
      simp only [List.nil_append, List.mem_map, List.mem_filter]
      exact ⟨(k, p), ⟨hkp, by simpa using hp⟩, rfl⟩
    split
    · exact List.mem_append_left _ this
    · exact this
  have hneeded : ∀ p ∈ needed, ∃ i ∈ (buildResult vis m needed fields).Imports, i.Path = p := by
    intro p hp
    obtain ⟨k, hk⟩ := hn p hp
    exact hentry k p hk ((mem_addNeeded _ _ _).2 (Or.inl hp))
  have hpflag : ∃ i ∈ (buildResult vis m needed fields).Imports, i.Path = vis.pflagPath := by
    by_cases hex : ∃ e ∈ m, e.2 = vis.pflagPath
    · obtain ⟨e, he, hep⟩ := hex
      obtain ⟨k, v⟩ := e
      simp only at hep
      subst hep
      exact hentry k _ he ((mem_addNeeded _ _ _).2 (Or.inr rfl))
    · have hnone : ∀ e ∈ m, e.2 ≠ vis.pflagPath := fun e he hp => hex ⟨e, he, hp⟩
      have hincl := (collectImports_none vis.pflagPath (addNeeded needed vis.pflagPath) m
        ("", false, []) hnone).2
      refine ⟨{ Name := "", Path := vis.pflagPath }, ?_, rfl⟩
      apply hadd.1
      rw [hincl]
      simp
  have hstd : ∀ s : String,
      (s ∉ addNeeded needed vis.pflagPath →
        ∃ i ∈ (buildResult vis m needed fields).Imports, i.Path = s) →
      ∃ i ∈ (buildResult vis m needed fields).Imports, i.Path = s := by
    intro s hs
    by_cases h : s ∈ addNeeded needed vis.pflagPath
    · rcases (mem_addNeeded _ _ _).1 h with h1 | h1
      · exact hneeded s h1
      · rw [h1]; exact hpflag
    · exact hs h
  exact ⟨hpflag, hneeded, hstd "os" (fun h => hadd.2.1 h), hstd "strings" (fun h => hadd.2.2 h)⟩

/-- C15, counterexample: in a package of two files, the first importing
`github.com/spf13/pflag` as `flag` and the second importing the standard `flag`,
the import map binds the local name `flag` to the path of the second import; the payload
then names the flag library `pflag`, not `flag`, and lists it as an import of its
own. -/
theorem generate_pflag_alias_replaced :
    clashState.imports.map (fun im => (localName im, im.Path))
      = [("flag", "github.com/spf13/pflag"), ("flag", "flag")] ∧
    (generate asciiCase loadNothing renderNothing writeOk clashState barePackage).data.map
        (fun d => (d.Pflag, d.Imports))
      = some ("pflag", [⟨"", "github.com/spf13/pflag"⟩, ⟨"", "os"⟩, ⟨"", "strings"⟩]) := by
  decide

/-- C15, amended: the import map is keyed by local name over all captured imports, a
later import replacing an earlier one of the same local name. The alias of the flag
library in the payload is a local name that this map binds to the path of the flag
library: the one local name under which the target imports it, when no captured import
of another path has that local name; and it is the last element of the path, `pflag`,
when the map binds no name to the path, in particular when the target does not import
the library. The import list of the payload always holds an entry for the path of the
flag library, one for `os`, one for `strings`, and one for every path that the split
loop has recorded as needed. -/
theorem generate_pflag_and_imports (cm : CaseMap)
    (load : List String → Except String (List Package))
    (render : Result → String × Option String) (writeFile : String → String → Option String)
    (vis : state) (pkg : Package) (d : Result)
    (hd : (generate cm load render writeFile vis pkg).data = some d) :
    ((∀ e ∈ importMap vis.imports, e.2 ≠ vis.pflagPath) →
      d.Pflag = pathBase vis.pflagPath) ∧
    ((∀ im ∈ vis.imports, im.Path ≠ vis.pflagPath) → d.Pflag = pathBase vis.pflagPath) ∧
    ((∃ e ∈ importMap vis.imports, e.2 = vis.pflagPath) →
      ∃ im ∈ vis.imports, im.Path = vis.pflagPath ∧
        (localName im, vis.pflagPath) ∈ importMap vis.imports ∧
        (localName im ≠ "" → d.Pflag = localName im)) ∧
    (∀ k : String, k ≠ "" → (∃ im ∈ vis.imports, im.Path = vis.pflagPath) →
      (∀ im ∈ vis.imports, im.Path = vis.pflagPath → localName im = k) →
      (∀ im ∈ vis.imports, localName im = k → im.Path = vis.pflagPath) →
      d.Pflag = k) ∧
    (∃ i ∈ d.Imports, i.Path = vis.pflagPath) ∧
    (∃ i ∈ d.Imports, i.Path = "os") ∧
    (∃ i ∈ d.Imports, i.Path = "strings") ∧
    (∀ p ∈ (splitPhase (importMap vis.imports) pkg.PkgPath vis.configStruct
        (nativePhase vis.fields) []).2.1, ∃ i ∈ d.Imports, i.Path = p) ∧
    pathBase "github.com/spf13/pflag" = "pflag" := by
  have hdeq := generate_data_eq cm load render writeFile vis pkg d hd
  have hp := buildResult_pflag vis (importMap vis.imports)
    (splitPhase (importMap vis.imports) pkg.PkgPath vis.configStruct
      (nativePhase vis.fields) []).2.1 (generate cm load render writeFile vis pkg).fields
  have hi := buildResult_imports vis (importMap vis.imports)
    (splitPhase (importMap vis.imports) pkg.PkgPath vis.configStruct
      (nativePhase vis.fields) []).2.1 (generate cm load render writeFile vis pkg).fields
    (fun p hp => by
      rcases splitPhase_needed _ _ _ _ _ p hp with h | h
      · simp at h
      · exact h)
  rw [← hdeq] at hp hi
  have hsome : (∃ e ∈ importMap vis.imports, e.2 = vis.pflagPath) →
      ∃ im ∈ vis.imports, im.Path = vis.pflagPath ∧
        (localName im, vis.pflagPath) ∈ importMap vis.imports ∧
        (localName im ≠ "" → d.Pflag = localName im) := by
    intro h
    obtain ⟨k, hk, hk2⟩ := hp.2 h
    obtain ⟨im, him, h1, h2⟩ := importMap_mem_localName vis.imports _ hk
    simp only at h1 h2
    exact ⟨im, him, h2, by rw [h1]; exact hk, by rw [h1]; exact hk2⟩
  refine ⟨hp.1, ?_, hsome, ?_, hi.1, hi.2.2.1, hi.2.2.2, hi.2.1, by decide⟩
  · intro h
    apply hp.1
    intro e he hep
    obtain ⟨im, him, hpath⟩ := importMap_mem vis.imports e he
    exact h im him (hpath.trans hep)
  · intro k hk hex hall hown
    obtain ⟨im0, him0, hpath0⟩ := hex
    have hget : (importMap vis.imports).get? k = some vis.pflagPath := by
      rw [importMap_get?]
      cases hf : vis.imports.reverse.find? (fun im => localName im == k) with
      | none =>
        rw [List.find?_eq_none] at hf
        have := hf im0 (List.mem_reverse.2 him0)
        simp [hall im0 him0 hpath0] at this
      | some im =>
        have h1 := List.find?_some hf
        have h2 := List.mem_reverse.1 (List.mem_of_find?_eq_some hf)
        simp only [beq_iff_eq] at h1
        simp [hown im h2 h1]
    obtain ⟨im, him, hpath, _, hpf⟩ :=
      hsome ⟨(k, vis.pflagPath), GoMap.get?_mem_key _ _ _ hget, rfl⟩
    have hk2 := hall im him hpath
    rw [hk2] at hpf
    exact hpf hk

/-- C15, witness: a file that imports `github.com/spf13/pflag` as `flag` and `net`: the
payload names the flag library `flag`. -/
theorem generate_pflag_and_imports_witness :
    ∃ d, (generate asciiCase loadNothing renderNothing writeOk aliasState barePackage).data
        = some d ∧ d.Pflag = "flag" ∧
      d.Imports = [⟨"flag", "github.com/spf13/pflag"⟩, ⟨"", "os"⟩, ⟨"", "strings"⟩] :=
  ⟨_, rfl,
    (generate_pflag_and_imports asciiCase loadNothing renderNothing writeOk aliasState
      barePackage _ rfl).2.2.2.1 "flag" (by decide)
      ⟨⟨some "flag", "github.com/spf13/pflag"⟩, by decide, rfl⟩
      (by decide) (by decide),
    by decide⟩

end Configuration
